import Mathlib

/-!
Verification development for the `mountains` prominence code base.

The C++ sources are shallowly embedded: machine integers become `ℤ`/`ℕ`
with explicit wrap-around where the C++ overflows, `Elevation` (a C++
`float` used as an ordered scalar) becomes `ℚ`, `std::vector` becomes
`List`, and imperative loops become structural or fuel-based recursions.
Identifiers keep the names of the corresponding C++ entities.
-/

namespace Mountains

/-- Elevation scalar (C++ `typedef float Elevation`); modelled as `ℚ`.
Pixel coordinates (C++ `typedef int32 Coord`) are modelled as plain `ℤ`. -/
abbrev Elevation := ℚ

/-- `DivideTree::Node::Null` / `IslandTree::Node::Null` / `LineTree::Node::Null`. -/
def NullId : ℤ := -1

/-! ### Offsets (primitives.h)

The C++ `Offsets` class packs two signed 32-bit pixel coordinates into one
`uint64`: `mValue = (((uint64) y) << 32) | ((uint64) x)`. -/

/-- Conversion of a C++ signed value to `uint64` (two-complement sign
extension): the value modulo `2^64`, as a natural number. -/
def toUInt64 (z : ℤ) : ℕ := (z % (2 ^ 64 : ℤ)).toNat

/-- Interpretation of the low 32 bits of a natural number as a signed
`int32` (C++ `Coord`). -/
def toInt32 (n : ℕ) : ℤ :=
  if n % 2 ^ 32 < 2 ^ 31 then ((n % 2 ^ 32 : ℕ) : ℤ) else ((n % 2 ^ 32 : ℕ) : ℤ) - 2 ^ 32

/-- The `Offsets(Coord x, Coord y)` constructor:
`mValue = (((uint64) y) << (8 * sizeof(Coord))) | ((uint64) x)`, with the
`uint64` shift wrapping modulo `2^64`. -/
def offsetsValue (x y : ℤ) : ℕ := ((toUInt64 y <<< 32) % 2 ^ 64) ||| toUInt64 x

/-- `Offsets::x()`: `mValue & 0xffffffff`, converted to `Coord`. -/
def offsetsX (v : ℕ) : ℤ := toInt32 (v &&& 0xffffffff)

/-- `Offsets::y()`: `(mValue & 0xffffffff00000000) >> (8 * sizeof(Coord))`,
converted to `Coord`. -/
def offsetsY (v : ℕ) : ℤ := toInt32 ((v &&& 0xffffffff00000000) >>> 32)

lemma lor_digits (n a b c d : ℕ) (hb : b < 2 ^ n) (hd : d < 2 ^ n) :
    (2 ^ n * a + b) ||| (2 ^ n * c + d) = 2 ^ n * (a ||| c) + (b ||| d) := by
  have hbd : b ||| d < 2 ^ n := Nat.or_lt_two_pow hb hd
  apply Nat.eq_of_testBit_eq
  intro j
  rw [Nat.testBit_lor, Nat.testBit_mul_pow_two_add _ hb, Nat.testBit_mul_pow_two_add _ hd,
    Nat.testBit_mul_pow_two_add _ hbd]
  by_cases hj : j < n
  · simp [hj, Nat.testBit_lor]
  · simp [hj, Nat.testBit_lor]

lemma land_digits (n a b c d : ℕ) (hb : b < 2 ^ n) (hd : d < 2 ^ n) :
    (2 ^ n * a + b) &&& (2 ^ n * c + d) = 2 ^ n * (a &&& c) + (b &&& d) := by
  have hbd : b &&& d < 2 ^ n := lt_of_le_of_lt Nat.and_le_left hb
  apply Nat.eq_of_testBit_eq
  intro j
  rw [Nat.testBit_land, Nat.testBit_mul_pow_two_add _ hb, Nat.testBit_mul_pow_two_add _ hd,
    Nat.testBit_mul_pow_two_add _ hbd]
  by_cases hj : j < n
  · simp [hj, Nat.testBit_land]
  · simp [hj, Nat.testBit_land]

lemma lor_ones (m n : ℕ) (h : m < 2 ^ n) : m ||| (2 ^ n - 1) = 2 ^ n - 1 := by
  apply Nat.eq_of_testBit_eq
  intro j
  rw [Nat.testBit_lor, Nat.testBit_two_pow_sub_one]
  by_cases hj : j < n
  · simp [hj]
  · have hmj : m < 2 ^ j :=
      lt_of_lt_of_le h (Nat.pow_le_pow_right (by norm_num) (by omega))
    simp [hj, Nat.testBit_eq_false_of_lt hmj]

/-- Normal form of the packed value: high 32 bits and low 32 bits. -/
lemma offsetsValue_eq (x y : ℤ) :
    offsetsValue x y
      = 2 ^ 32 * ((toUInt64 y % 2 ^ 32) ||| (toUInt64 x / 2 ^ 32)) + toUInt64 x % 2 ^ 32 := by
  unfold offsetsValue
  rw [Nat.shiftLeft_eq]
  have h1 : toUInt64 y * 2 ^ 32 % 2 ^ 64 = toUInt64 y % 2 ^ 32 * 2 ^ 32 := by
    have h0 : (2 : ℕ) ^ 64 = 2 ^ 32 * 2 ^ 32 := by norm_num
    rw [h0, Nat.mul_mod_mul_right]
  rw [h1]
  have h2 : toUInt64 y % 2 ^ 32 * 2 ^ 32 = 2 ^ 32 * (toUInt64 y % 2 ^ 32) + 0 := by ring
  have h3 : toUInt64 x = 2 ^ 32 * (toUInt64 x / 2 ^ 32) + toUInt64 x % 2 ^ 32 :=
    (Nat.div_add_mod _ _).symm
  conv_lhs => rw [h2, h3]
  rw [lor_digits 32 _ 0 _ _ (by norm_num) (Nat.mod_lt _ (by norm_num))]
  simp

lemma offsetsX_value (x y : ℤ) :
    offsetsX (offsetsValue x y) = toInt32 (toUInt64 x % 2 ^ 32) := by
  unfold offsetsX
  rw [offsetsValue_eq]
  have hmask : (0xffffffff : ℕ) = 2 ^ 32 * 0 + (2 ^ 32 - 1) := by norm_num
  rw [hmask, land_digits 32 _ _ _ _ (Nat.mod_lt _ (by norm_num)) (by norm_num)]
  have h4 : toUInt64 x % 4294967296 &&& 4294967295 = toUInt64 x % 4294967296 := by
    have h5 : (4294967295 : ℕ) = 2 ^ 32 - 1 := by norm_num
    have h6 : (4294967296 : ℕ) = 2 ^ 32 := by norm_num
    rw [h5, h6, Nat.and_pow_two_sub_one_eq_mod, Nat.mod_mod_of_dvd _ (dvd_refl _)]
  simp only [Nat.and_zero, Nat.mul_zero, Nat.zero_add]
  norm_num [h4]

lemma toInt32_mod (n : ℕ) : toInt32 (n % 2 ^ 32) = toInt32 n := by
  unfold toInt32
  rw [Nat.mod_mod_of_dvd _ (dvd_refl _)]

lemma offsetsY_value (x y : ℤ) :
    offsetsY (offsetsValue x y)
      = toInt32 ((toUInt64 y % 2 ^ 32) ||| (toUInt64 x / 2 ^ 32)) := by
  unfold offsetsY
  rw [offsetsValue_eq]
  have hmask : (0xffffffff00000000 : ℕ) = 2 ^ 32 * (2 ^ 32 - 1) + 0 := by norm_num
  rw [hmask, land_digits 32 _ _ _ _ (Nat.mod_lt _ (by norm_num)) (by norm_num)]
  rw [Nat.and_pow_two_sub_one_eq_mod]
  have h1 : 2 ^ 32 * ((toUInt64 y % 2 ^ 32 ||| toUInt64 x / 2 ^ 32) % 2 ^ 32)
        + (toUInt64 x % 2 ^ 32 &&& 0)
      = ((toUInt64 y % 2 ^ 32 ||| toUInt64 x / 2 ^ 32) % 2 ^ 32) * 2 ^ 32 := by
    simp [Nat.mul_comm]
  rw [h1, Nat.shiftRight_eq_div_pow, Nat.mul_div_cancel _ (by norm_num : (0:ℕ) < 2 ^ 32)]
  exact toInt32_mod _

lemma offsetsX_roundtrip (x y : ℤ) (hx1 : 0 ≤ x) (hx2 : x < 2 ^ 31) :
    offsetsX (offsetsValue x y) = x := by
  rw [offsetsX_value]
  unfold toUInt64 toInt32
  have h1 : ((x % 2 ^ 64).toNat) % 2 ^ 32 = x.toNat := by omega
  rw [h1]
  have h2 : x.toNat % 2 ^ 32 = x.toNat := by omega
  rw [h2]
  have h3 : x.toNat < 2 ^ 31 := by omega
  rw [if_pos h3]
  omega

lemma offsetsY_roundtrip (x y : ℤ) (hx1 : 0 ≤ x) (hx2 : x < 2 ^ 31)
    (hy1 : -2 ^ 31 ≤ y) (hy2 : y < 2 ^ 31) :
    offsetsY (offsetsValue x y) = y := by
  rw [offsetsY_value]
  have hdiv : toUInt64 x / 2 ^ 32 = 0 := by unfold toUInt64; omega
  rw [hdiv, Nat.or_zero]
  unfold toUInt64 toInt32
  have h1 : ((y % 2 ^ 64).toNat) % 2 ^ 32 = (y % 2 ^ 32).toNat := by omega
  rw [h1]
  have h2 : (y % 2 ^ 32).toNat % 2 ^ 32 = (y % 2 ^ 32).toNat := by omega
  rw [h2]
  by_cases hy0 : 0 ≤ y
  · have h3 : (y % 2 ^ 32).toNat < 2 ^ 31 := by omega
    rw [if_pos h3]
    omega
  · have h3 : ¬ ((y % 2 ^ 32).toNat < 2 ^ 31) := by omega
    rw [if_neg h3]
    omega

lemma offsetsY_neg (x y : ℤ) (hx1 : -2 ^ 31 ≤ x) (hx2 : x < 0)
    (hy1 : -2 ^ 31 ≤ y) (hy2 : y < 2 ^ 31) :
    offsetsY (offsetsValue x y) = -1 := by
  rw [offsetsY_value]
  have hdiv : toUInt64 x / 2 ^ 32 = 2 ^ 32 - 1 := by unfold toUInt64; omega
  rw [hdiv]
  have hlt : toUInt64 y % 2 ^ 32 < 2 ^ 32 := Nat.mod_lt _ (by norm_num)
  rw [lor_ones _ _ hlt]
  unfold toInt32
  have h1 : ((2 ^ 32 - 1 : ℕ)) % 2 ^ 32 = 2 ^ 32 - 1 := by omega
  rw [h1]
  rw [if_neg (by omega)]
  omega

/-- Claim C10: packing a coordinate pair with `x ≥ 0` through the `Offsets`
constructor and decoding with `x()` / `y()` returns exactly the pair, and
the packed 64-bit values are injective over that domain; the guarantee
needs `x ≥ 0`: for any probe `Offsets(x - s, y)` with `0 ≤ x < s` (the
antimeridian probe of `spliceAllRunoffs` with `s` the number of samples
around the equator), the decoded `y()` collapses to `-1`. -/
theorem offsets_pack_decode (x y : ℤ)
    (hx1 : 0 ≤ x) (hx2 : x < 2 ^ 31) (hy1 : -2 ^ 31 ≤ y) (hy2 : y < 2 ^ 31) :
    offsetsX (offsetsValue x y) = x ∧ offsetsY (offsetsValue x y) = y
    ∧ (∀ x2 y2 : ℤ, 0 ≤ x2 → x2 < 2 ^ 31 → -2 ^ 31 ≤ y2 → y2 < 2 ^ 31 →
        offsetsValue x y = offsetsValue x2 y2 → x = x2 ∧ y = y2)
    ∧ (∀ s : ℤ, 0 < s → x < s → s ≤ 2 ^ 31 → offsetsY (offsetsValue (x - s) y) = -1) := by
  refine ⟨offsetsX_roundtrip x y hx1 hx2, offsetsY_roundtrip x y hx1 hx2 hy1 hy2, ?_, ?_⟩
  · intro x2 y2 h1 h2 h3 h4 heq
    constructor
    · rw [← offsetsX_roundtrip x y hx1 hx2, ← offsetsX_roundtrip x2 y2 h1 h2, heq]
    · rw [← offsetsY_roundtrip x y hx1 hx2 hy1 hy2, ← offsetsY_roundtrip x2 y2 h1 h2 h3 h4, heq]
  · intro s hs1 hs2 hs3
    exact offsetsY_neg (x - s) y (by omega) (by omega) hy1 hy2

/-- Witness for C10 at the concrete pair `(5, -7)`. -/
theorem offsets_pack_decode_witness :
    offsetsX (offsetsValue 5 (-7)) = 5 ∧ offsetsY (offsetsValue 5 (-7)) = -7
    ∧ (∀ x2 y2 : ℤ, 0 ≤ x2 → x2 < 2 ^ 31 → -2 ^ 31 ≤ y2 → y2 < 2 ^ 31 →
        offsetsValue 5 (-7) = offsetsValue x2 y2 → 5 = x2 ∧ -7 = y2)
    ∧ (∀ s : ℤ, 0 < s → 5 < s → s ≤ 2 ^ 31 → offsetsY (offsetsValue (5 - s) (-7)) = -1) :=
  offsets_pack_decode 5 (-7) (by norm_num) (by norm_num) (by norm_num) (by norm_num)

/-! ### util.h -/

/-- The compaction loop of `removeVectorElementsByIndices` (util.h), with
`k` the absolute index of the first element of the remaining suffix. -/
def rveAux {α : Type} (indices : Finset ℕ) : ℕ → List α → List α
  | _, [] => []
  | k, x :: xs =>
    if k ∈ indices then rveAux indices (k + 1) xs else x :: rveAux indices (k + 1) xs

/-- `removeVectorElementsByIndices` from util.h: remove all elements of
`vec` whose indices appear in `indices`, preserving the order of the rest. -/
def removeVectorElementsByIndices {α : Type} (vec : List α) (indices : Finset ℕ) : List α :=
  rveAux indices 0 vec

lemma rveAux_getD {α : Type} (a₀ : α) (D : Finset ℕ) :
    ∀ (xs : List α) (k i : ℕ), i < xs.length → (k + i) ∉ D →
    (rveAux D k xs).getD ((List.range i).countP (fun j => decide ((k + j) ∉ D))) a₀
      = xs.getD i a₀ := by
  intro xs
  induction xs with
  | nil => intro k i h; simp at h
  | cons x rest ih =>
    intro k i hlen hki
    cases i with
    | zero =>
      simp only [List.range_zero, List.countP_nil]
      have hk : k ∉ D := by simpa using hki
      simp [rveAux, hk]
    | succ n =>
      have hcnt : (List.range (n + 1)).countP (fun j => decide ((k + j) ∉ D))
          = (if k ∈ D then 0 else 1)
            + (List.range n).countP (fun j => decide ((k + 1 + j) ∉ D)) := by
        rw [List.range_succ_eq_map, List.countP_cons, List.countP_map]
        have hc : ∀ j ∈ List.range n,
            (((fun j => decide ((k + j) ∉ D)) ∘ Nat.succ) j = true
              ↔ (fun j => decide ((k + 1 + j) ∉ D)) j = true) := by
          intro j _
          have h2 : k + Nat.succ j = k + 1 + j := by omega
          simp [Function.comp, h2]
        rw [List.countP_congr hc]
        by_cases hk : k ∈ D
        · simp [hk]
        · simp [hk]
          omega
      have hrest : n < rest.length := by simpa using Nat.lt_of_succ_lt_succ hlen
      have hki2 : (k + 1) + n ∉ D := by
        have h3 : k + 1 + n = k + (n + 1) := by omega
        rw [h3]; exact hki
      have hrec := ih (k + 1) n hrest hki2
      by_cases hk : k ∈ D
      · rw [hcnt]
        simp only [rveAux, if_pos hk]
        simpa using hrec
      · rw [hcnt]
        simp only [rveAux, if_neg hk]
        rw [Nat.add_comm 1, List.getD_cons_succ, List.getD_cons_succ]
        exact hrec

/-! ### DivideTree::computeDeletionOffsets (divide_tree.cpp) -/

/-- One inner fill loop of `computeDeletionOffsets`:
`for (index = lo; index < hi; ++index) deletionOffsets[index] = val`. -/
def fillRange (offsets : List ℤ) (lo hi : ℕ) (val : ℤ) : List ℤ :=
  offsets.enum.map (fun p => if lo ≤ p.1 ∧ p.1 < hi then val else p.2)

/-- The walk over consecutive sorted deleted indices in
`computeDeletionOffsets`, together with the final fill that runs from the
last deleted index to the end of the array. -/
def codLoop : List ℕ → ℤ → List ℤ → List ℤ
  | [], _, offsets => offsets
  | [d], offset, offsets => fillRange offsets d offsets.length offset
  | d :: d2 :: rest, offset, offsets => codLoop (d2 :: rest) (offset + 1) (fillRange offsets d d2 offset)

/-- `DivideTree::computeDeletionOffsets`: the deleted indices are sorted
ascending and runs of `offsets` are filled with cumulative deletion
counts.  The caller passes in `offsets` already filled with zeros. -/
def computeDeletionOffsets (deletedIndices : Finset ℕ) (deletionOffsets : List ℤ) : List ℤ :=
  if deletedIndices = ∅ then deletionOffsets
  else codLoop (deletedIndices.sort (· ≤ ·)) 1 deletionOffsets

lemma fillRange_length (offsets : List ℤ) (lo hi : ℕ) (val : ℤ) :
    (fillRange offsets lo hi val).length = offsets.length := by
  simp [fillRange]

lemma fillRange_getD (offsets : List ℤ) (lo hi : ℕ) (val : ℤ) (i : ℕ) (hi2 : i < offsets.length) :
    (fillRange offsets lo hi val).getD i 0 =
      if lo ≤ i ∧ i < hi then val else offsets.getD i 0 := by
  unfold fillRange
  rw [List.getD_eq_getElem?_getD, List.getD_eq_getElem?_getD]
  rw [List.getElem?_map, List.getElem?_enum]
  simp [List.getElem?_eq_getElem hi2]

lemma codLoop_getD : ∀ (l : List ℕ) (c : ℤ) (offsets : List ℤ) (i : ℕ),
    i < offsets.length → l.Sorted (· < ·) → l ≠ [] →
    (codLoop l c offsets).getD i 0 =
      if (l.filter (· ≤ i)).length = 0 then offsets.getD i 0
      else c + (l.filter (· ≤ i)).length - 1 := by
  intro l
  induction l with
  | nil => intro _ _ _ _ _ h; exact absurd rfl h
  | cons d rest ih =>
    intro c offsets i hi hsort _
    cases rest with
    | nil =>
      simp only [codLoop]
      rw [fillRange_getD _ _ _ _ _ hi]
      by_cases hdi : d ≤ i
      · simp [hdi, hi, List.filter]
      · simp [hdi, List.filter, Nat.lt_of_not_le]
    | cons d2 r2 =>
      simp only [codLoop]
      have hsort2 : (d2 :: r2).Sorted (· < ·) := hsort.of_cons
      have hdd2 : d < d2 := (List.sorted_cons.mp hsort).1 d2 (by simp)
      have hi2 : i < (fillRange offsets d d2 c).length := by rwa [fillRange_length]
      rw [ih (c + 1) _ i hi2 hsort2 (by simp)]
      rw [fillRange_getD _ _ _ _ _ hi]
      by_cases hd2i : d2 ≤ i
      · have hdi : d ≤ i := le_trans (le_of_lt hdd2) hd2i
        have h1 : ((d :: d2 :: r2).filter (· ≤ i)).length
            = ((d2 :: r2).filter (· ≤ i)).length + 1 := by
          simp [List.filter, hdi]
        have hne : ((d2 :: r2).filter (· ≤ i)).length ≠ 0 := by
          simp [List.filter, hd2i]
        rw [if_neg hne, if_neg (by omega), h1]
        push_cast
        ring
      · have hf : ((d2 :: r2).filter (· ≤ i)).length = 0 := by
          simp only [List.length_eq_zero, List.filter_eq_nil_iff]
          intro a ha
          have h2 : d2 ≤ a := by
            rcases List.mem_cons.mp ha with h | h
            · omega
            · exact le_of_lt ((List.sorted_cons.mp hsort2).1 a h)
          simp only [decide_eq_true_eq]
          omega
        rw [if_pos hf]
        have hid2 : i < d2 := Nat.lt_of_not_le hd2i
        by_cases hdi : d ≤ i
        · have h1 : ((d :: d2 :: r2).filter (· ≤ i)).length = 1 := by
            simp [List.filter_cons, hdi, hd2i, List.length_eq_zero.mp hf]
          rw [if_pos ⟨hdi, hid2⟩, if_neg (by omega), h1]
          push_cast
          ring
        · have h1 : ((d :: d2 :: r2).filter (· ≤ i)).length = 0 := by
            simp [List.filter_cons, hdi, hd2i, List.length_eq_zero.mp hf]
          rw [if_neg (by intro hc; exact hdi hc.1), if_pos h1]

lemma countP_range_mem (D : Finset ℕ) :
    ∀ i : ℕ, (List.range i).countP (fun j => decide (j ∈ D)) = (D.filter (· < i)).card := by
  intro i
  induction i with
  | zero => simp
  | succ n ih =>
    rw [List.range_succ, List.countP_append, ih]
    by_cases hn : n ∈ D
    · have h2 : D.filter (· < n + 1) = insert n (D.filter (· < n)) := by
        ext a
        simp only [Finset.mem_filter, Finset.mem_insert]
        constructor
        · rintro ⟨ha, hlt⟩
          by_cases han : a = n
          · exact Or.inl han
          · exact Or.inr ⟨ha, by omega⟩
        · rintro (rfl | ⟨ha, hlt⟩)
          · exact ⟨hn, by omega⟩
          · exact ⟨ha, by omega⟩
      rw [h2, Finset.card_insert_of_not_mem (by simp)]
      simp [hn]
    · have h2 : D.filter (· < n + 1) = D.filter (· < n) := by
        ext a
        simp only [Finset.mem_filter]
        constructor
        · rintro ⟨ha, hlt⟩
          refine ⟨ha, ?_⟩
          rcases Nat.lt_succ_iff_lt_or_eq.mp hlt with h | rfl
          · exact h
          · exact absurd ha hn
        · rintro ⟨ha, hlt⟩
          exact ⟨ha, by omega⟩
      rw [h2]
      simp [hn]

lemma sort_ne_nil (D : Finset ℕ) (h : D ≠ ∅) : D.sort (· ≤ ·) ≠ [] := by
  intro hnil
  have hl := Finset.length_sort (α := ℕ) (· ≤ ·) (s := D)
  rw [hnil] at hl
  simp only [List.length_nil] at hl
  exact h (Finset.card_eq_zero.mp hl.symm)

lemma sort_filter_length (D : Finset ℕ) (i : ℕ) :
    ((D.sort (· ≤ ·)).filter (fun a => decide (a ≤ i))).length = (D.filter (· ≤ i)).card := by
  rw [← List.countP_eq_length_filter]
  rw [(D.sort_perm_toList (· ≤ ·)).countP_eq]
  rw [Finset.toList]
  rw [← Multiset.coe_countP]
  rw [Multiset.coe_toList]
  rw [Multiset.countP_eq_card_filter]
  rfl

lemma countP_range_not_mem (D : Finset ℕ) (i : ℕ) :
    (List.range i).countP (fun j => decide (j ∉ D)) = i - (D.filter (· < i)).card := by
  have h1 := List.length_eq_countP_add_countP (fun j => decide (j ∈ D)) (List.range i)
  have h2 : (List.range i).countP (fun a => decide (¬(decide (a ∈ D) = true)))
      = (List.range i).countP (fun j => decide (j ∉ D)) := by
    apply List.countP_congr
    intro a _
    simp
  rw [h2] at h1
  rw [countP_range_mem] at h1
  simp only [List.length_range] at h1
  omega

/-- Claim C8: `computeDeletionOffsets`, given a set of to-be-deleted indices
into an array of length `N`, fills the (initially zero) offsets array so
that for every surviving index `i`, `offsets[i]` equals the number of
deleted indices that are `≤ i`; consequently the post-deletion position of
element `i` under `removeVectorElementsByIndices` is `i - offsets[i]`. -/
theorem computeDeletionOffsets_spec (D : Finset ℕ) (N : ℕ) (vec : List ℤ)
    (hvec : vec.length = N) (hD : ∀ d ∈ D, d < N) (i : ℕ) (hiN : i < N) (hiD : i ∉ D) :
    (computeDeletionOffsets D (List.replicate N 0)).getD i 0 = ((D.filter (· ≤ i)).card : ℤ)
    ∧ (removeVectorElementsByIndices vec D).getD (i - (D.filter (· ≤ i)).card) 0
        = vec.getD i 0 := by
  have hfilter_eq : D.filter (· ≤ i) = D.filter (· < i) := by
    ext a
    simp only [Finset.mem_filter]
    constructor
    · rintro ⟨ha, hle⟩
      refine ⟨ha, ?_⟩
      rcases Nat.lt_or_ge a i with h | h
      · exact h
      · have : a = i := by omega
        subst this
        exact absurd ha hiD
    · rintro ⟨ha, hlt⟩; exact ⟨ha, by omega⟩
  constructor
  · unfold computeDeletionOffsets
    by_cases hemp : D = ∅
    · subst hemp
      simp [List.getD]
    · rw [if_neg hemp]
      rw [codLoop_getD _ 1 _ i (by simp [hiN]) D.sort_sorted_lt (sort_ne_nil D hemp)]
      rw [sort_filter_length]
      by_cases hzero : (D.filter (· ≤ i)).card = 0
      · rw [if_pos hzero, hzero]
        simp [List.getD]
      · rw [if_neg hzero]
        ring
  · unfold removeVectorElementsByIndices
    have hlen : i < vec.length := by omega
    have h0 : (0 : ℕ) + i ∉ D := by simpa using hiD
    have hmain := rveAux_getD (0 : ℤ) D vec 0 i hlen h0
    have hidx : (List.range i).countP (fun j => decide ((0 + j) ∉ D))
        = i - (D.filter (· ≤ i)).card := by
      rw [hfilter_eq, ← countP_range_not_mem]
      apply List.countP_congr
      intro a _
      simp
    rw [hidx] at hmain
    exact hmain

/-- Witness for C8 at a concrete input: array length 5, deleted indices `{1, 3}`,
surviving index 4. -/
theorem computeDeletionOffsets_spec_witness :
    (computeDeletionOffsets {1, 3} (List.replicate 5 0)).getD 4 0
        = ((({1, 3} : Finset ℕ).filter (· ≤ 4)).card : ℤ)
    ∧ (removeVectorElementsByIndices [10, 11, 12, 13, 14] ({1, 3} : Finset ℕ)).getD
        (4 - (({1, 3} : Finset ℕ).filter (· ≤ 4)).card) 0
        = ([10, 11, 12, 13, 14] : List ℤ).getD 4 0 :=
  computeDeletionOffsets_spec {1, 3} 5 [10, 11, 12, 13, 14] rfl (by decide) 4 (by decide)
    (by decide)


/-! ### Tile (tile.h) and the TileCache spike suppression (tile_cache.cpp) -/

def NODATA_ELEVATION : Elevation := -32768

def MAX_LEGAL_ELEVATION_DIFF : Elevation := 1000

structure Tile where
  width : ℕ
  height : ℕ
  samples : List Elevation
  deriving Repr, DecidableEq

def Tile.get (t : Tile) (x y : ℤ) : Elevation := t.samples.getD (y * t.width + x).toNat 0

def Tile.set (t : Tile) (x y : ℤ) (e : Elevation) : Tile :=
  { t with samples := t.samples.set (y * t.width + x).toNat e }

def Tile.isInExtents (t : Tile) (x y : ℤ) : Bool :=
  decide (0 ≤ x) && decide (x < t.width) && decide (0 ≤ y) && decide (y < t.height)

def spikeCheckDir (t : Tile) (x y : ℤ) (elev : Elevation) (nx ny : ℤ) : Tile :=
  if t.isInExtents nx ny then
    if t.get nx ny ≠ NODATA_ELEVATION ∧ elev - t.get nx ny > MAX_LEGAL_ELEVATION_DIFF then
      t.set x y NODATA_ELEVATION
    else t
  else t

def spikeCheck (t : Tile) (x y : ℤ) : Tile :=
  let elev := t.get x y
  if elev = NODATA_ELEVATION then t
  else
    let t1 := spikeCheckDir t x y elev (x + 1) y
    let t2 := spikeCheckDir t1 x y elev x (y + 1)
    let t3 := spikeCheckDir t2 x y elev (x - 1) y
    spikeCheckDir t3 x y elev x (y - 1)

-- basic structure preservation
lemma Tile.set_width (t : Tile) (x y : ℤ) (e : Elevation) : (t.set x y e).width = t.width := rfl
lemma Tile.set_height (t : Tile) (x y : ℤ) (e : Elevation) : (t.set x y e).height = t.height := rfl
lemma Tile.set_samples_length (t : Tile) (x y : ℤ) (e : Elevation) :
    (t.set x y e).samples.length = t.samples.length := by
  simp [Tile.set]

lemma spikeCheckDir_cases (t : Tile) (x y : ℤ) (elev : Elevation) (nx ny : ℤ) :
    spikeCheckDir t x y elev nx ny = t
    ∨ spikeCheckDir t x y elev nx ny = t.set x y NODATA_ELEVATION := by
  unfold spikeCheckDir
  by_cases h1 : t.isInExtents nx ny
  · simp only [h1, if_true]
    by_cases h2 : t.get nx ny ≠ NODATA_ELEVATION ∧ elev - t.get nx ny > MAX_LEGAL_ELEVATION_DIFF
    · exact Or.inr (by simp [h2])
    · exact Or.inl (by simp [h2])
  · simp [h1]

lemma Tile.set_set (t : Tile) (x y : ℤ) (e1 e2 : Elevation) :
    (t.set x y e1).set x y e2 = t.set x y e2 := by
  simp [Tile.set, List.set_set]

lemma linearIdx_lt {w h : ℕ} {x y : ℤ} (hx1 : 0 ≤ x) (hx2 : x < (w : ℤ))
    (hy1 : 0 ≤ y) (hy2 : y < (h : ℤ)) : (y * w + x).toNat < w * h := by
  have hw : (0 : ℤ) < (w : ℤ) := lt_of_le_of_lt hx1 hx2
  have h1 : y * w + x < (w : ℤ) * (h : ℤ) := by
    have h2 : y ≤ (h : ℤ) - 1 := by omega
    have h3 : y * w ≤ ((h : ℤ) - 1) * w := mul_le_mul_of_nonneg_right h2 (by omega)
    nlinarith
  have h0 : 0 ≤ y * (w : ℤ) + x := add_nonneg (mul_nonneg hy1 (le_of_lt hw)) hx1
  have h1b : y * (w : ℤ) + x < ((w * h : ℕ) : ℤ) := by push_cast; linarith
  omega

lemma linearIdx_inj {w h : ℕ} {x1 y1 x2 y2 : ℤ} (hx1 : 0 ≤ x1) (hx2 : x1 < (w : ℤ))
    (hy1 : 0 ≤ y1) (hy2 : y1 < (h : ℤ)) (hx3 : 0 ≤ x2) (hx4 : x2 < (w : ℤ))
    (hy3 : 0 ≤ y2) (hy4 : y2 < (h : ℤ)) (hne : ¬(x1 = x2 ∧ y1 = y2)) :
    (y1 * w + x1).toNat ≠ (y2 * w + x2).toNat := by
  have key : y1 * w + x1 ≠ y2 * w + x2 := by
    intro heq
    rcases lt_trichotomy y1 y2 with hy | hy | hy
    · have hw : (0 : ℤ) < (w : ℤ) := lt_of_le_of_lt hx1 hx2
      have h2 : y1 * w + x1 < y2 * w + x2 := by nlinarith
      omega
    · apply hne
      constructor
      · subst hy; omega
      · exact hy
    · have hw : (0 : ℤ) < (w : ℤ) := lt_of_le_of_lt hx1 hx2
      have h2 : y2 * w + x2 < y1 * w + x1 := by nlinarith
      omega
  have hw : (0 : ℤ) < (w : ℤ) := lt_of_le_of_lt hx1 hx2
  have h5 : 0 ≤ y1 * (w : ℤ) + x1 := add_nonneg (mul_nonneg hy1 (le_of_lt hw)) hx1
  have h6 : 0 ≤ y2 * (w : ℤ) + x2 := add_nonneg (mul_nonneg hy3 (le_of_lt hw)) hx3
  omega

lemma Tile.get_set_same (t : Tile) (x y : ℤ) (e : Elevation)
    (hlen : t.samples.length = t.width * t.height)
    (hin : t.isInExtents x y = true) : (t.set x y e).get x y = e := by
  simp only [Tile.isInExtents, Bool.and_eq_true, decide_eq_true_eq] at hin
  obtain ⟨⟨⟨hx1, hx2⟩, hy1⟩, hy2⟩ := hin
  have hidx : (y * t.width + x).toNat < t.samples.length := by
    rw [hlen]; exact linearIdx_lt hx1 hx2 hy1 hy2
  unfold Tile.get Tile.set
  simp only
  rw [List.getD_eq_getElem?_getD, List.getElem?_set_eq_of_lt _ hidx]
  rfl

lemma Tile.get_set_ne (t : Tile) (x y nx ny : ℤ) (e : Elevation)
    (hin1 : t.isInExtents x y = true) (hin2 : t.isInExtents nx ny = true)
    (hne : ¬(x = nx ∧ y = ny)) : (t.set x y e).get nx ny = t.get nx ny := by
  simp only [Tile.isInExtents, Bool.and_eq_true, decide_eq_true_eq] at hin1 hin2
  obtain ⟨⟨⟨hx1, hx2⟩, hy1⟩, hy2⟩ := hin1
  obtain ⟨⟨⟨ha1, ha2⟩, hb1⟩, hb2⟩ := hin2
  unfold Tile.get Tile.set
  simp only
  rw [List.getD_eq_getElem?_getD,
    List.getElem?_set_ne (linearIdx_inj hx1 hx2 hy1 hy2 ha1 ha2 hb1 hb2 hne),
    ← List.getD_eq_getElem?_getD]

lemma spikeCheckDir_width (t : Tile) (x y : ℤ) (elev : Elevation) (nx ny : ℤ) :
    (spikeCheckDir t x y elev nx ny).width = t.width := by
  rcases spikeCheckDir_cases t x y elev nx ny with h | h <;> rw [h] <;> rfl

lemma spikeCheckDir_height (t : Tile) (x y : ℤ) (elev : Elevation) (nx ny : ℤ) :
    (spikeCheckDir t x y elev nx ny).height = t.height := by
  rcases spikeCheckDir_cases t x y elev nx ny with h | h <;> rw [h] <;> rfl

lemma chain_step (t u : Tile) (x y : ℤ) (elev : Elevation) (nx ny : ℤ)
    (hu : u = t ∨ u = t.set x y NODATA_ELEVATION) :
    spikeCheckDir u x y elev nx ny = t
    ∨ spikeCheckDir u x y elev nx ny = t.set x y NODATA_ELEVATION := by
  rcases hu with rfl | rfl
  · exact spikeCheckDir_cases u x y elev nx ny
  · rcases spikeCheckDir_cases (t.set x y NODATA_ELEVATION) x y elev nx ny with h | h
    · exact Or.inr h
    · rw [h, Tile.set_set]
      exact Or.inr rfl

lemma spikeCheck_cases (t : Tile) (x y : ℤ) :
    spikeCheck t x y = t ∨ spikeCheck t x y = t.set x y NODATA_ELEVATION := by
  unfold spikeCheck
  by_cases h0 : t.get x y = NODATA_ELEVATION
  · simp [h0]
  · simp only [h0, ite_false]
    exact chain_step t _ x y _ _ _ (chain_step t _ x y _ _ _ (chain_step t _ x y _ _ _
      (chain_step t _ x y _ _ _ (Or.inl rfl))))

lemma spikeCheck_width (t : Tile) (x y : ℤ) : (spikeCheck t x y).width = t.width := by
  rcases spikeCheck_cases t x y with h | h
  · rw [h]
  · rw [h]; rfl

lemma spikeCheck_height (t : Tile) (x y : ℤ) : (spikeCheck t x y).height = t.height := by
  rcases spikeCheck_cases t x y with h | h
  · rw [h]
  · rw [h]; rfl

lemma spikeCheck_length (t : Tile) (x y : ℤ) :
    (spikeCheck t x y).samples.length = t.samples.length := by
  rcases spikeCheck_cases t x y with h | h
  · rw [h]
  · rw [h]; exact Tile.set_samples_length t x y _

lemma spikeCheck_extents (t : Tile) (x y a b : ℤ) :
    (spikeCheck t x y).isInExtents a b = t.isInExtents a b := by
  unfold Tile.isInExtents
  rw [spikeCheck_width, spikeCheck_height]

lemma spikeCheck_get_ne (t : Tile) (x y nx ny : ℤ)
    (hin1 : t.isInExtents x y = true) (hin2 : t.isInExtents nx ny = true)
    (hne : ¬(x = nx ∧ y = ny)) : (spikeCheck t x y).get nx ny = t.get nx ny := by
  rcases spikeCheck_cases t x y with h | h
  · rw [h]
  · rw [h]
    exact Tile.get_set_ne t x y nx ny _ hin1 hin2 hne

lemma spikeCheck_get_self (t : Tile) (x y : ℤ)
    (hlen : t.samples.length = t.width * t.height) (hin : t.isInExtents x y = true) :
    (spikeCheck t x y).get x y = t.get x y
    ∨ (spikeCheck t x y).get x y = NODATA_ELEVATION := by
  rcases spikeCheck_cases t x y with h | h
  · rw [h]; exact Or.inl rfl
  · rw [h]
    exact Or.inr (Tile.get_set_same t x y _ hlen hin)

/-- The four neighbour probes of one spike-check visit. -/
def adjacentTo (x y nx ny : ℤ) : Prop :=
  (nx = x + 1 ∧ ny = y) ∨ (nx = x ∧ ny = y + 1) ∨ (nx = x - 1 ∧ ny = y) ∨ (nx = x ∧ ny = y - 1)

lemma spikeCheckDir_no_fire (t : Tile) (x y : ℤ) (elev : Elevation) (nx ny : ℤ)
    (hlen : t.samples.length = t.width * t.height) (hin : t.isInExtents x y = true)
    (hsur : (spikeCheckDir t x y elev nx ny).get x y ≠ NODATA_ELEVATION) :
    spikeCheckDir t x y elev nx ny = t
    ∧ (t.isInExtents nx ny = true → t.get nx ny ≠ NODATA_ELEVATION →
        elev - t.get nx ny ≤ MAX_LEGAL_ELEVATION_DIFF) := by
  unfold spikeCheckDir at hsur ⊢
  by_cases h1 : t.isInExtents nx ny
  · simp only [h1, if_true] at hsur ⊢
    by_cases h2 : t.get nx ny ≠ NODATA_ELEVATION ∧ elev - t.get nx ny > MAX_LEGAL_ELEVATION_DIFF
    · rw [if_pos h2] at hsur
      exact absurd (Tile.get_set_same t x y _ hlen hin) hsur
    · rw [if_neg h2]
      refine ⟨rfl, fun _ hne => ?_⟩
      by_contra hgt
      exact h2 ⟨hne, by linarith [not_le.mp hgt]⟩
  · simp only [h1] at hsur ⊢
    exact ⟨by simp, fun hc => absurd hc (by simp [h1])⟩

lemma spikeCheckDir_length (t : Tile) (x y : ℤ) (elev : Elevation) (nx ny : ℤ) :
    (spikeCheckDir t x y elev nx ny).samples.length = t.samples.length := by
  rcases spikeCheckDir_cases t x y elev nx ny with h | h
  · rw [h]
  · rw [h]; exact Tile.set_samples_length t x y _

lemma spikeCheckDir_extents (t : Tile) (x y : ℤ) (elev : Elevation) (nx ny a b : ℤ) :
    (spikeCheckDir t x y elev nx ny).isInExtents a b = t.isInExtents a b := by
  unfold Tile.isInExtents
  rw [spikeCheckDir_width, spikeCheckDir_height]

lemma spikeCheckDir_hlen (t : Tile) (x y : ℤ) (elev : Elevation) (nx ny : ℤ)
    (hlen : t.samples.length = t.width * t.height) :
    (spikeCheckDir t x y elev nx ny).samples.length
      = (spikeCheckDir t x y elev nx ny).width * (spikeCheckDir t x y elev nx ny).height := by
  rw [spikeCheckDir_length, spikeCheckDir_width, spikeCheckDir_height]
  exact hlen

lemma spikeCheck_survives (t : Tile) (x y : ℤ)
    (hlen : t.samples.length = t.width * t.height) (hin : t.isInExtents x y = true)
    (hsur : (spikeCheck t x y).get x y ≠ NODATA_ELEVATION) :
    spikeCheck t x y = t
    ∧ ∀ nx ny : ℤ, adjacentTo x y nx ny → t.isInExtents nx ny = true →
        t.get nx ny ≠ NODATA_ELEVATION →
        t.get x y - t.get nx ny ≤ MAX_LEGAL_ELEVATION_DIFF := by
  unfold spikeCheck at hsur ⊢
  by_cases h0 : t.get x y = NODATA_ELEVATION
  · simp only [h0, ite_true] at hsur
    exact absurd rfl hsur
  · simp only [h0, ite_false] at hsur ⊢
    have h4 := spikeCheckDir_no_fire _ x y (t.get x y) x (y - 1)
      (spikeCheckDir_hlen _ x y _ _ _ (spikeCheckDir_hlen _ x y _ _ _
        (spikeCheckDir_hlen _ x y _ _ _ hlen)))
      (by rw [spikeCheckDir_extents, spikeCheckDir_extents, spikeCheckDir_extents]; exact hin)
      hsur
    rw [h4.1] at hsur
    have h3 := spikeCheckDir_no_fire _ x y (t.get x y) (x - 1) y
      (spikeCheckDir_hlen _ x y _ _ _ (spikeCheckDir_hlen _ x y _ _ _ hlen))
      (by rw [spikeCheckDir_extents, spikeCheckDir_extents]; exact hin)
      hsur
    rw [h3.1] at hsur h4
    have h2 := spikeCheckDir_no_fire _ x y (t.get x y) x (y + 1)
      (spikeCheckDir_hlen _ x y _ _ _ hlen)
      (by rw [spikeCheckDir_extents]; exact hin)
      hsur
    rw [h2.1] at hsur h3 h4
    have h1 := spikeCheckDir_no_fire _ x y (t.get x y) (x + 1) y hlen hin hsur
    rw [h1.1] at hsur h2 h3 h4
    refine ⟨by rw [h1.1, h2.1, h3.1, h4.1], ?_⟩
    intro nx ny hadj hext hnd
    rcases hadj with ⟨rfl, rfl⟩ | ⟨rfl, rfl⟩ | ⟨rfl, rfl⟩ | ⟨rfl, rfl⟩
    · exact h1.2 hext hnd
    · exact h2.2 hext hnd
    · exact h3.2 hext hnd
    · exact h4.2 hext hnd

def spikeFold (t : Tile) (L : List (ℤ × ℤ)) : Tile :=
  L.foldl (fun acc p => spikeCheck acc p.1 p.2) t

lemma spikeFold_nil (t : Tile) : spikeFold t [] = t := rfl

lemma spikeFold_cons (t : Tile) (r : ℤ × ℤ) (L : List (ℤ × ℤ)) :
    spikeFold t (r :: L) = spikeFold (spikeCheck t r.1 r.2) L := rfl

lemma spikeFold_extents (L : List (ℤ × ℤ)) : ∀ (t : Tile) (a b : ℤ),
    (spikeFold t L).isInExtents a b = t.isInExtents a b := by
  induction L with
  | nil => intro t a b; rfl
  | cons r L2 ih =>
    intro t a b
    rw [spikeFold_cons, ih, spikeCheck_extents]

lemma spikeFold_hlen (L : List (ℤ × ℤ)) : ∀ (t : Tile),
    t.samples.length = t.width * t.height →
    (spikeFold t L).samples.length = (spikeFold t L).width * (spikeFold t L).height := by
  induction L with
  | nil => intro t h; exact h
  | cons r L2 ih =>
    intro t h
    rw [spikeFold_cons]
    apply ih
    rw [spikeCheck_length, spikeCheck_width, spikeCheck_height]
    exact h

lemma spikeFold_stable (L : List (ℤ × ℤ)) : ∀ (t : Tile) (px py : ℤ),
    t.isInExtents px py = true → (∀ r ∈ L, t.isInExtents r.1 r.2 = true) →
    (px, py) ∉ L → (spikeFold t L).get px py = t.get px py := by
  induction L with
  | nil => intro t px py _ _ _; rfl
  | cons r L2 ih =>
    intro t px py hin hL hnot
    rw [spikeFold_cons]
    have hrin : t.isInExtents r.1 r.2 = true := hL r (by simp)
    have hne : ¬(r.1 = px ∧ r.2 = py) := by
      rintro ⟨h1, h2⟩
      exact hnot (by simp [List.mem_cons]; left; rw [Prod.ext_iff]; exact ⟨h1.symm, h2.symm⟩)
    rw [ih (spikeCheck t r.1 r.2) px py (by rw [spikeCheck_extents]; exact hin)
      (fun s hs => by rw [spikeCheck_extents]; exact hL s (by simp [hs]))
      (fun hc => hnot (by simp [hc]))]
    exact spikeCheck_get_ne t r.1 r.2 px py hrin hin hne

lemma spikeFold_values (L : List (ℤ × ℤ)) : ∀ (t : Tile) (px py : ℤ),
    t.samples.length = t.width * t.height →
    t.isInExtents px py = true → (∀ r ∈ L, t.isInExtents r.1 r.2 = true) →
    (spikeFold t L).get px py = t.get px py
    ∨ (spikeFold t L).get px py = NODATA_ELEVATION := by
  induction L with
  | nil => intro t px py _ _ _; exact Or.inl rfl
  | cons r L2 ih =>
    intro t px py hlen hin hL
    rw [spikeFold_cons]
    have hrin : t.isInExtents r.1 r.2 = true := hL r (by simp)
    have hstep : (spikeCheck t r.1 r.2).get px py = t.get px py
        ∨ (spikeCheck t r.1 r.2).get px py = NODATA_ELEVATION := by
      by_cases hne : r.1 = px ∧ r.2 = py
      · obtain ⟨rfl, rfl⟩ := hne
        exact spikeCheck_get_self t r.1 r.2 hlen hin
      · exact Or.inl (spikeCheck_get_ne t r.1 r.2 px py hrin hin hne)
    have hrec := ih (spikeCheck t r.1 r.2) px py
      (by rw [spikeCheck_length, spikeCheck_width, spikeCheck_height]; exact hlen)
      (by rw [spikeCheck_extents]; exact hin)
      (fun s hs => by rw [spikeCheck_extents]; exact hL s (by simp [hs]))
    rcases hrec with h | h
    · rcases hstep with h2 | h2
      · exact Or.inl (h.trans h2)
      · exact Or.inr (h.trans h2)
    · exact Or.inr h

lemma spikeFold_pair (L : List (ℤ × ℤ)) : ∀ (t : Tile),
    L.Nodup → t.samples.length = t.width * t.height →
    (∀ r ∈ L, t.isInExtents r.1 r.2 = true) →
    ∀ px py nx ny : ℤ, (px, py) ∈ L →
    t.isInExtents px py = true → t.isInExtents nx ny = true →
    adjacentTo px py nx ny →
    (spikeFold t L).get px py ≠ NODATA_ELEVATION →
    (spikeFold t L).get nx ny ≠ NODATA_ELEVATION →
    (spikeFold t L).get px py - (spikeFold t L).get nx ny ≤ MAX_LEGAL_ELEVATION_DIFF := by
  induction L with
  | nil => intro t _ _ _ px py nx ny hmem; simp at hmem
  | cons r L2 ih =>
    intro t hnodup hlen hL px py nx ny hmem hp hq hadj hFp hFq
    rw [spikeFold_cons] at hFp hFq ⊢
    by_cases hr : r = (px, py)
    · subst hr
      have hnotin : ((px, py) : ℤ × ℤ) ∉ L2 := by
        have hnm := hnodup.not_mem
        simpa using hnm
      have hL2 : ∀ s ∈ L2, (spikeCheck t px py).isInExtents s.1 s.2 = true :=
        fun s hs => by rw [spikeCheck_extents]; exact hL s (by simp [hs])
      have hpin : (spikeCheck t px py).isInExtents px py = true := by
        rw [spikeCheck_extents]; exact hp
      have hstable := spikeFold_stable L2 (spikeCheck t px py) px py hpin hL2 hnotin
      rw [hstable] at hFp
      obtain ⟨heq, hcond⟩ := spikeCheck_survives t px py hlen hp hFp
      rw [heq] at hstable hFq ⊢
      rw [hstable]
      have hqval := spikeFold_values L2 t nx ny hlen hq
        (fun s hs => hL s (by simp [hs]))
      rcases hqval with hqv | hqv
      · rw [hqv] at hFq ⊢
        exact hcond nx ny hadj hq hFq
      · rw [hqv] at hFq
        exact absurd rfl hFq
    · have hmem2 : (px, py) ∈ L2 := by
        rcases List.mem_cons.mp hmem with h | h
        · exact absurd h.symm hr
        · exact h
      exact ih (spikeCheck t r.1 r.2) (hnodup.of_cons)
        (by rw [spikeCheck_length, spikeCheck_width, spikeCheck_height]; exact hlen)
        (fun s hs => by rw [spikeCheck_extents]; exact hL s (by simp [hs]))
        px py nx ny hmem2
        (by rw [spikeCheck_extents]; exact hp)
        (by rw [spikeCheck_extents]; exact hq)
        hadj hFp hFq

def tilePositions (t : Tile) : List (ℤ × ℤ) :=
  ((List.range t.height).product (List.range t.width)).map
    (fun p => ((p.2 : ℤ), (p.1 : ℤ)))

def removeSpikes (t : Tile) : Tile := spikeFold t (tilePositions t)

lemma tilePositions_nodup (t : Tile) : (tilePositions t).Nodup := by
  apply List.Nodup.map
  · intro a b hab
    simp only [Prod.ext_iff] at hab ⊢
    obtain ⟨h1, h2⟩ := hab
    exact ⟨by exact_mod_cast h2, by exact_mod_cast h1⟩
  · exact (List.nodup_range _).product (List.nodup_range _)

lemma mem_tilePositions (t : Tile) (a b : ℤ) :
    (a, b) ∈ tilePositions t ↔ t.isInExtents a b = true := by
  unfold tilePositions Tile.isInExtents
  rw [List.mem_map]
  constructor
  · rintro ⟨⟨y0, x0⟩, hmem, heq⟩
    rw [show (List.range t.height).product (List.range t.width)
      = (List.range t.height) ×ˢ (List.range t.width) from rfl, List.mem_product] at hmem
    simp only [List.mem_range] at hmem
    simp only [Prod.ext_iff] at heq
    obtain ⟨h1, h2⟩ := heq
    subst h1; subst h2
    simp only [Bool.and_eq_true, decide_eq_true_eq]
    exact ⟨⟨⟨by positivity, by exact_mod_cast hmem.2⟩, by positivity⟩, by exact_mod_cast hmem.1⟩
  · intro h
    simp only [Bool.and_eq_true, decide_eq_true_eq] at h
    obtain ⟨⟨⟨ha1, ha2⟩, hb1⟩, hb2⟩ := h
    refine ⟨(b.toNat, a.toNat), ?_, ?_⟩
    · rw [show (List.range t.height).product (List.range t.width)
        = (List.range t.height) ×ˢ (List.range t.width) from rfl, List.mem_product]
      simp only [List.mem_range]
      omega
    · simp only [Prod.ext_iff]
      constructor
      · show ((a.toNat : ℤ)) = a
        omega
      · show ((b.toNat : ℤ)) = b
        omega

/-- Claim C9 (amended): the spike-suppression pass that `TileCache` runs on
every freshly loaded tile scans samples in row-major order and replaces a
sample with NODATA exactly when it exceeds a currently-non-NODATA in-bounds
4-neighbour by more than 1000 (in the data units); consequently, in the
resulting tile no surviving sample exceeds a surviving 4-neighbour by more
than 1000.  The original claim (replace every sample that differs from any
4-neighbour by more than 1000) is refuted by `removeSpikes_counterexample`:
only the higher point of a spike pair is killed. -/
theorem removeSpikes_spec (t : Tile)
    (hlen : t.samples.length = t.width * t.height) (px py nx ny : ℤ)
    (hp : t.isInExtents px py = true) (hq : t.isInExtents nx ny = true)
    (hadj : adjacentTo px py nx ny)
    (h1 : (removeSpikes t).get px py ≠ NODATA_ELEVATION)
    (h2 : (removeSpikes t).get nx ny ≠ NODATA_ELEVATION) :
    (removeSpikes t).get px py - (removeSpikes t).get nx ny ≤ MAX_LEGAL_ELEVATION_DIFF :=
  spikeFold_pair (tilePositions t) t (tilePositions_nodup t) hlen
    (fun r hr => (mem_tilePositions t r.1 r.2).mp hr) px py nx ny
    ((mem_tilePositions t px py).mpr hp) hp hq hadj h1 h2

lemma cx_positions : tilePositions (Tile.mk 2 1 [0, 2000]) = [(0, 0), (1, 0)] := by decide

lemma cx_step1 : spikeCheck (Tile.mk 2 1 [0, 2000]) 0 0 = Tile.mk 2 1 [0, 2000] := by
  unfold spikeCheck spikeCheckDir
  norm_num [Tile.get, Tile.isInExtents, NODATA_ELEVATION, MAX_LEGAL_ELEVATION_DIFF]

lemma cx_step2 : spikeCheck (Tile.mk 2 1 [0, 2000]) 1 0
    = Tile.mk 2 1 [0, NODATA_ELEVATION] := by
  unfold spikeCheck spikeCheckDir
  norm_num [Tile.get, Tile.set, Tile.isInExtents, NODATA_ELEVATION, MAX_LEGAL_ELEVATION_DIFF]

lemma cx_eval : removeSpikes (Tile.mk 2 1 [0, 2000]) = Tile.mk 2 1 [0, NODATA_ELEVATION] := by
  unfold removeSpikes
  rw [cx_positions]
  show spikeCheck (spikeCheck (Tile.mk 2 1 [0, 2000]) 0 0) 1 0
    = Tile.mk 2 1 [0, NODATA_ELEVATION]
  rw [cx_step1, cx_step2]

/-- Counterexample to claim C9 as stated: in the 2-by-1 tile `[0, 2000]`
the sample at `(0,0)` differs from its 4-neighbour by more than 1000 but is
left untouched by the spike pass (only the higher sample is replaced). -/
theorem removeSpikes_counterexample :
    (Tile.mk 2 1 [0, 2000]).get 1 0 - (Tile.mk 2 1 [0, 2000]).get 0 0
        > MAX_LEGAL_ELEVATION_DIFF
    ∧ (removeSpikes (Tile.mk 2 1 [0, 2000])).get 0 0 ≠ NODATA_ELEVATION
    ∧ (removeSpikes (Tile.mk 2 1 [0, 2000])).get 0 0 = (Tile.mk 2 1 [0, 2000]).get 0 0 := by
  rw [cx_eval]
  norm_num [Tile.get, NODATA_ELEVATION, MAX_LEGAL_ELEVATION_DIFF]

lemma wit_step1 : spikeCheck (Tile.mk 2 1 [0, 5]) 0 0 = Tile.mk 2 1 [0, 5] := by
  unfold spikeCheck spikeCheckDir
  norm_num [Tile.get, Tile.isInExtents, NODATA_ELEVATION, MAX_LEGAL_ELEVATION_DIFF]

lemma wit_step2 : spikeCheck (Tile.mk 2 1 [0, 5]) 1 0 = Tile.mk 2 1 [0, 5] := by
  unfold spikeCheck spikeCheckDir
  norm_num [Tile.get, Tile.isInExtents, NODATA_ELEVATION, MAX_LEGAL_ELEVATION_DIFF]

lemma wit_positions : tilePositions (Tile.mk 2 1 [0, 5]) = [(0, 0), (1, 0)] := by decide

lemma wit_eval : removeSpikes (Tile.mk 2 1 [0, 5]) = Tile.mk 2 1 [0, 5] := by
  unfold removeSpikes
  rw [wit_positions]
  show spikeCheck (spikeCheck (Tile.mk 2 1 [0, 5]) 0 0) 1 0 = Tile.mk 2 1 [0, 5]
  rw [wit_step1, wit_step2]

/-- Witness for C9 (amended) on the spike-free 2-by-1 tile `[0, 5]`. -/
theorem removeSpikes_spec_witness :
    (removeSpikes (Tile.mk 2 1 [0, 5])).get 1 0 - (removeSpikes (Tile.mk 2 1 [0, 5])).get 0 0
      ≤ MAX_LEGAL_ELEVATION_DIFF :=
  removeSpikes_spec (Tile.mk 2 1 [0, 5]) (by norm_num) 1 0 0 0
    (by norm_num [Tile.isInExtents]) (by norm_num [Tile.isInExtents])
    (by norm_num [adjacentTo])
    (by rw [wit_eval]; norm_num [Tile.get, NODATA_ELEVATION])
    (by rw [wit_eval]; norm_num [Tile.get, NODATA_ELEVATION])

/-! ### DivideTree data model -/

structure OffsetsXY where
  x : ℤ
  y : ℤ
  deriving Repr, DecidableEq

inductive SaddleType where
  | falseSaddle
  | prom
  | basin
  | errorSaddle
  deriving Repr, DecidableEq

structure Peak where
  location : OffsetsXY
  elevation : Elevation
  deriving Repr, DecidableEq

structure Saddle where
  location : OffsetsXY
  elevation : Elevation
  saddleType : SaddleType
  deriving Repr, DecidableEq

structure Runoff where
  location : OffsetsXY
  elevation : Elevation
  insidePeakArea : Bool
  filledQuadrants : ℤ
  deriving Repr, DecidableEq

structure DNode where
  parentId : ℤ
  saddleId : ℤ
  deriving Repr, DecidableEq

instance : Inhabited DNode := ⟨⟨NullId, NullId⟩⟩

instance : Inhabited Peak := ⟨⟨⟨0, 0⟩, 0⟩⟩

instance : Inhabited Saddle := ⟨⟨⟨0, 0⟩, 0, SaddleType.prom⟩⟩

structure DivideTree where
  peaks : List Peak
  saddles : List Saddle
  runoffs : List Runoff
  nodes : List DNode
  runoffEdges : List ℤ
  deriving Repr, DecidableEq

def getPeak (t : DivideTree) (peakId : ℤ) : Peak := t.peaks.getD (peakId - 1).toNat default

def getSaddle (t : DivideTree) (saddleId : ℤ) : Saddle :=
  t.saddles.getD (saddleId - 1).toNat default

def getNode (nodes : List DNode) (nodeId : ℤ) : DNode := nodes.getD nodeId.toNat default

def setNode (nodes : List DNode) (nodeId : ℤ) (n : DNode) : List DNode :=
  nodes.set nodeId.toNat n

/-- Elevation of the saddle on the edge from peak `i` to its parent. -/
def nodeSaddleElev (t : DivideTree) (i : ℤ) : Elevation :=
  (getSaddle t (getNode t.nodes i).saddleId).elevation

/-! ### Parent-chain semantics -/

/-- Follow `parentId` for `k` steps (stays at `NullId` once reached). -/
def iterParent (nodes : List DNode) : ℕ → ℤ → ℤ
  | 0, i => i
  | k + 1, i => if i = NullId then NullId else iterParent nodes k (getNode nodes i).parentId

/-- Following `parent_id` from `i` terminates at `Null`. -/
def Terminates (nodes : List DNode) (i : ℤ) : Prop :=
  ∃ k, iterParent nodes k i = NullId

/-- The forest invariant of the `nodes` array: every chain of parent links
reaches `Null`. -/
def Forest (nodes : List DNode) : Prop :=
  ∀ i : ℤ, Terminates nodes i

/-! ### getDepth (divide_tree.cpp) -/

def getDepthGo (nodes : List DNode) : ℕ → ℤ → ℕ → ℕ
  | 0, _, depth => depth
  | fuel + 1, nodeId, depth =>
    let p := (getNode nodes nodeId).parentId
    if p = NullId then depth + 1 else getDepthGo nodes fuel p (depth + 1)

/-- `DivideTree::getDepth`: length of the parent chain from `nodeId`
(counting `nodeId` itself). -/
def getDepth (nodes : List DNode) (nodeId : ℤ) : ℕ :=
  getDepthGo nodes (nodes.length + 1) nodeId 0

/-! ### findCommonAncestor (divide_tree.cpp) -/

/-- One equalizing `while` loop of `findCommonAncestor`: go up `k` parent
links, dropping to `Null` (with the C++ `break`) if the chain ends. -/
def equalize (nodes : List DNode) : ℕ → ℤ → ℤ
  | 0, i => i
  | k + 1, i =>
    let p := (getNode nodes i).parentId
    if p = NullId then NullId else equalize nodes k p

def fcaGo (nodes : List DNode) : ℕ → ℤ → ℤ → ℤ
  | 0, _, _ => NullId
  | fuel + 1, n1, n2 =>
    if n1 = NullId ∨ n2 = NullId then NullId
    else if n1 = n2 then n1
    else fcaGo nodes fuel (getNode nodes n1).parentId (getNode nodes n2).parentId

/-- `DivideTree::findCommonAncestor`. -/
def findCommonAncestor (nodes : List DNode) (nodeId1 nodeId2 : ℤ) : ℤ :=
  let d1 := getDepth nodes nodeId1
  let d2 := getDepth nodes nodeId2
  let m1 := if d2 < d1 then equalize nodes (d1 - d2) nodeId1 else nodeId1
  let m2 := if d1 < d2 then equalize nodes (d2 - d1) nodeId2 else nodeId2
  fcaGo nodes (nodes.length + 1) m1 m2

/-! ### findLowestSaddleOnPath (divide_tree.cpp) -/

def flspGo (t : DivideTree) : ℕ → ℤ → ℤ → ℤ → ℤ
  | 0, _, _, _ => NullId
  | fuel + 1, childPeakId, ancestorPeakId, lowestSaddleNodeId =>
    if childPeakId = ancestorPeakId then lowestSaddleNodeId
    else
      let p := (getNode t.nodes childPeakId).parentId
      if p = NullId then NullId
      else
        let lowest2 :=
          if nodeSaddleElev t childPeakId < nodeSaddleElev t lowestSaddleNodeId then
            childPeakId
          else lowestSaddleNodeId
        flspGo t fuel p ancestorPeakId lowest2

/-- `DivideTree::findLowestSaddleOnPath`. -/
def findLowestSaddleOnPath (t : DivideTree) (childPeakId ancestorPeakId : ℤ) : ℤ :=
  if childPeakId = ancestorPeakId then NullId
  else flspGo t (t.nodes.length + 1) childPeakId ancestorPeakId childPeakId

/-! ### makeNodeIntoRoot (divide_tree.cpp) -/

def mnirGo (nodes : List DNode) : ℕ → ℤ → ℤ → ℤ → List DNode
  | 0, _, _, _ => nodes
  | fuel + 1, childId, parentId, saddleId =>
    if parentId = NullId then nodes
    else
      let parentNode := getNode nodes parentId
      let g := parentNode.parentId
      let temp := parentNode.saddleId
      mnirGo (setNode nodes parentId ⟨childId, saddleId⟩) fuel parentId g temp

/-- `DivideTree::makeNodeIntoRoot`: reverse the parent links from `nodeId`
up to the root, sliding saddles to the reversed links, then clear the
node's own parent and saddle. -/
def makeNodeIntoRoot (nodes : List DNode) (nodeId : ℤ) : List DNode :=
  let n := getNode nodes nodeId
  setNode (mnirGo nodes (nodes.length + 1) nodeId n.parentId n.saddleId) nodeId ⟨NullId, NullId⟩

/-! ### maybeAddEdge (divide_tree.cpp) -/

/-- `DivideTree::maybeAddEdge`: returns the updated tree and the id of the
removed basin saddle (or `Null`). -/
def maybeAddEdge (t : DivideTree) (peakId1 peakId2 saddleId : ℤ) : DivideTree × ℤ :=
  let ca := findCommonAncestor t.nodes peakId1 peakId2
  if ca = NullId then
    ({ t with nodes := setNode (makeNodeIntoRoot t.nodes peakId1) peakId1 ⟨peakId2, saddleId⟩ },
      NullId)
  else
    let l1 := findLowestSaddleOnPath t peakId1 ca
    let l2 := findLowestSaddleOnPath t peakId2 ca
    let n1 := if l1 = NullId ∨ (getNode t.nodes l1).saddleId = NullId then l2 else l1
    let n2 := if l1 = NullId ∨ (getNode t.nodes l1).saddleId = NullId then l1 else l2
    let lowestElev1 := nodeSaddleElev t n1
    let lowestNodeId :=
      if n1 = NullId ∨ (n2 ≠ NullId ∧ nodeSaddleElev t n2 < lowestElev1) then n2 else n1
    let lowestElev :=
      if n1 = NullId ∨ (n2 ≠ NullId ∧ nodeSaddleElev t n2 < lowestElev1) then
        nodeSaddleElev t n2
      else lowestElev1
    if (getSaddle t saddleId).elevation < lowestElev then (t, saddleId)
    else
      let basinSaddleId := (getNode t.nodes lowestNodeId).saddleId
      let nodes2 := setNode t.nodes lowestNodeId ⟨NullId, NullId⟩
      ({ t with nodes := setNode (makeNodeIntoRoot nodes2 peakId1) peakId1 ⟨peakId2, saddleId⟩ },
        basinSaddleId)

/-! ### Parent-chain lemmas -/

lemma iterParent_null (nodes : List DNode) (k : ℕ) : iterParent nodes k NullId = NullId := by
  cases k with
  | zero => rfl
  | succ n => simp [iterParent]

lemma iterParent_add (nodes : List DNode) (a b : ℕ) (i : ℤ) :
    iterParent nodes (a + b) i = iterParent nodes b (iterParent nodes a i) := by
  induction a generalizing i with
  | zero => simp [iterParent]
  | succ n ih =>
    by_cases hi : i = NullId
    · subst hi
      rw [iterParent_null, iterParent_null, iterParent_null]
    · have h1 : n + 1 + b = (n + b) + 1 := by omega
      rw [h1]
      show (if i = NullId then NullId else iterParent nodes (n + b) (getNode nodes i).parentId)
        = _
      rw [if_neg hi, ih]
      congr 1
      show _ = (if i = NullId then NullId else iterParent nodes n (getNode nodes i).parentId)
      rw [if_neg hi]

lemma iterParent_absorb (nodes : List DNode) (a b : ℕ) (i : ℤ) (hab : a ≤ b)
    (h : iterParent nodes a i = NullId) : iterParent nodes b i = NullId := by
  have h1 : b = a + (b - a) := by omega
  rw [h1, iterParent_add, h, iterParent_null]

/-- `dist` of a terminating chain: the number of steps to reach `Null`. -/
def dist (nodes : List DNode) (i : ℤ) (h : Terminates nodes i) : ℕ := Nat.find h

lemma dist_spec (nodes : List DNode) (i : ℤ) (h : Terminates nodes i) :
    iterParent nodes (dist nodes i h) i = NullId := Nat.find_spec h

lemma dist_min (nodes : List DNode) (i : ℤ) (h : Terminates nodes i) (k : ℕ)
    (hk : k < dist nodes i h) : iterParent nodes k i ≠ NullId := Nat.find_min h hk

lemma dist_le (nodes : List DNode) (i : ℤ) (h : Terminates nodes i) (k : ℕ)
    (hk : iterParent nodes k i = NullId) : dist nodes i h ≤ k := Nat.find_le hk

lemma dist_null (nodes : List DNode) (h : Terminates nodes NullId) :
    dist nodes NullId h = 0 := by
  have := dist_le nodes NullId h 0 (by rfl)
  omega

lemma dist_pos (nodes : List DNode) (i : ℤ) (h : Terminates nodes i) (hi : i ≠ NullId) :
    0 < dist nodes i h := by
  rcases Nat.eq_zero_or_pos (dist nodes i h) with h0 | h0
  · have := dist_spec nodes i h
    rw [h0] at this
    exact absurd this hi
  · exact h0

lemma terminates_parent (nodes : List DNode) (i : ℤ) (h : Terminates nodes i)
    (hi : i ≠ NullId) : Terminates nodes (getNode nodes i).parentId := by
  obtain ⟨k, hk⟩ := h
  cases k with
  | zero => exact absurd hk hi
  | succ n =>
    refine ⟨n, ?_⟩
    rw [iterParent] at hk
    rw [if_neg hi] at hk
    exact hk

lemma dist_parent (nodes : List DNode) (i : ℤ) (h : Terminates nodes i) (hi : i ≠ NullId)
    (hp : Terminates nodes (getNode nodes i).parentId) :
    dist nodes (getNode nodes i).parentId hp + 1 = dist nodes i h := by
  have h1 : iterParent nodes (dist nodes (getNode nodes i).parentId hp + 1) i = NullId := by
    have h2 : dist nodes (getNode nodes i).parentId hp + 1
        = 1 + dist nodes (getNode nodes i).parentId hp := by omega
    rw [h2, iterParent_add]
    have h3 : iterParent nodes 1 i = (getNode nodes i).parentId := by
      show (if i = NullId then NullId else iterParent nodes 0 (getNode nodes i).parentId) = _
      rw [if_neg hi]
      rfl
    rw [h3]
    exact dist_spec nodes _ hp
  have h4 := dist_le nodes i h _ h1
  by_cases h5 : dist nodes i h < dist nodes (getNode nodes i).parentId hp + 1
  · exfalso
    have h6 : dist nodes i h - 1 < dist nodes (getNode nodes i).parentId hp := by
      have := dist_pos nodes i h hi
      omega
    apply dist_min nodes _ hp _ h6
    have h7 : iterParent nodes (1 + (dist nodes i h - 1)) i = NullId := by
      have h8 : 1 + (dist nodes i h - 1) = dist nodes i h := by
        have := dist_pos nodes i h hi
        omega
      rw [h8]
      exact dist_spec nodes i h
    rw [iterParent_add] at h7
    have h3 : iterParent nodes 1 i = (getNode nodes i).parentId := by
      show (if i = NullId then NullId else iterParent nodes 0 (getNode nodes i).parentId) = _
      rw [if_neg hi]
      rfl
    rw [h3] at h7
    exact h7
  · omega

/-- `a` lies on the parent chain of `i`. -/
def isAncestor (nodes : List DNode) (a i : ℤ) : Prop :=
  ∃ k, iterParent nodes k i = a

lemma isAncestor_refl (nodes : List DNode) (i : ℤ) : isAncestor nodes i i := ⟨0, rfl⟩

lemma terminates_iter (nodes : List DNode) (i : ℤ) (h : Terminates nodes i) (k : ℕ) :
    Terminates nodes (iterParent nodes k i) := by
  obtain ⟨m, hm⟩ := h
  refine ⟨m, ?_⟩
  rw [← iterParent_add]
  exact iterParent_absorb nodes m (k + m) i (by omega) hm

lemma dist_iter (nodes : List DNode) (i : ℤ) (h : Terminates nodes i) (k : ℕ)
    (hk : k ≤ dist nodes i h) :
    dist nodes (iterParent nodes k i) (terminates_iter nodes i h k)
      = dist nodes i h - k := by
  apply le_antisymm
  · apply dist_le
    rw [← iterParent_add]
    exact iterParent_absorb nodes (dist nodes i h) (k + (dist nodes i h - k)) i (by omega)
      (dist_spec nodes i h)
  · by_contra hlt
    push_neg at hlt
    have h2 := dist_spec nodes (iterParent nodes k i) (terminates_iter nodes i h k)
    apply dist_min nodes i h (k + dist nodes (iterParent nodes k i) (terminates_iter nodes i h k))
      (by omega)
    rw [iterParent_add]
    exact h2

lemma dist_congr (nodes : List DNode) (i j : ℤ) (h1 : Terminates nodes i)
    (h2 : Terminates nodes j) (hij : i = j) : dist nodes i h1 = dist nodes j h2 := by
  subst hij
  rfl

lemma dist_of_ancestor (nodes : List DNode) (a i : ℤ) (h : Terminates nodes i)
    (ha : Terminates nodes a) (k : ℕ) (hk : iterParent nodes k i = a) (hne : a ≠ NullId) :
    k ≤ dist nodes i h ∧ dist nodes a ha = dist nodes i h - k := by
  have hk2 : k ≤ dist nodes i h := by
    by_contra hgt
    push_neg at hgt
    have h3 : iterParent nodes k i = NullId :=
      iterParent_absorb nodes (dist nodes i h) k i (by omega) (dist_spec nodes i h)
    rw [hk] at h3
    exact hne h3
  constructor
  · exact hk2
  · have h4 := dist_iter nodes i h k hk2
    rw [← dist_congr nodes (iterParent nodes k i) a (terminates_iter nodes i h k) ha hk]
    exact h4

lemma getDepthGo_eq (nodes : List DNode) : ∀ (fuel : ℕ) (i : ℤ) (acc : ℕ)
    (h : Terminates nodes i), i ≠ NullId → dist nodes i h ≤ fuel →
    getDepthGo nodes fuel i acc = acc + dist nodes i h := by
  intro fuel
  induction fuel with
  | zero =>
    intro i acc h hi hle
    have := dist_pos nodes i h hi
    omega
  | succ n ih =>
    intro i acc h hi hle
    show (if (getNode nodes i).parentId = NullId then acc + 1
      else getDepthGo nodes n (getNode nodes i).parentId (acc + 1)) = acc + dist nodes i h
    have hp : Terminates nodes (getNode nodes i).parentId := terminates_parent nodes i h hi
    have hd := dist_parent nodes i h hi hp
    by_cases hpn : (getNode nodes i).parentId = NullId
    · rw [if_pos hpn]
      have h9 : dist nodes (getNode nodes i).parentId hp = 0 := by
        have h3 := dist_le nodes _ hp 0 hpn
        omega
      omega
    · rw [if_neg hpn]
      rw [ih _ (acc + 1) hp hpn (by omega)]
      omega

lemma iterParent_succ_right (nodes : List DNode) (k : ℕ) (i : ℤ) :
    iterParent nodes (k + 1) i
      = if iterParent nodes k i = NullId then NullId
        else (getNode nodes (iterParent nodes k i)).parentId := by
  rw [iterParent_add]
  show (if iterParent nodes k i = NullId then NullId
    else iterParent nodes 0 (getNode nodes (iterParent nodes k i)).parentId) = _
  rfl

lemma chain_no_repeat (nodes : List DNode) (i : ℤ) (h : Terminates nodes i) (a b : ℕ)
    (hab : a < b) (hb : iterParent nodes b i ≠ NullId) :
    iterParent nodes a i ≠ iterParent nodes b i := by
  intro heq
  have hcycle : ∀ m : ℕ, iterParent nodes (a + m * (b - a)) i = iterParent nodes a i := by
    intro m
    induction m with
    | zero => simp
    | succ n ih =>
      have h1 : a + (n + 1) * (b - a) = (a + n * (b - a)) + (b - a) := by ring
      rw [h1, iterParent_add, ih]
      have h2 : iterParent nodes (b - a) (iterParent nodes a i)
          = iterParent nodes b i := by
        rw [← iterParent_add]
        congr 1
        omega
      rw [h2, ← heq]
  have hj := terminates_iter nodes i h a
  set j := iterParent nodes a i with hjdef
  obtain ⟨K, hK⟩ := hj
  have hm : ∀ m, iterParent nodes (m * (b - a)) j = j := by
    intro m
    have := hcycle m
    rw [iterParent_add] at this
    exact this
  have hKle : iterParent nodes ((K + 1) * (b - a)) j = NullId := by
    apply iterParent_absorb nodes K _ j _ hK
    have hba : 1 ≤ b - a := by omega
    calc K ≤ K + 1 := by omega
      _ = (K + 1) * 1 := by ring
      _ ≤ (K + 1) * (b - a) := by exact Nat.mul_le_mul_left _ hba
  rw [hm (K + 1)] at hKle
  rw [heq] at hKle
  exact hb hKle

/-- Range condition on parent pointers: every parent id is `Null` or a
valid 1-based peak id. -/
def ParentsInRange (nodes : List DNode) : Prop :=
  ∀ j : ℤ, (getNode nodes j).parentId = NullId
    ∨ (1 ≤ (getNode nodes j).parentId ∧ (getNode nodes j).parentId < nodes.length)

lemma dist_le_length (nodes : List DNode) (i : ℤ) (h : Terminates nodes i)
    (hlen : 1 ≤ nodes.length) (hrange : ParentsInRange nodes) :
    dist nodes i h ≤ nodes.length := by
  by_contra hgt
  push_neg at hgt
  have hmem : ∀ k, 1 ≤ k → k < dist nodes i h →
      iterParent nodes k i ∈ Finset.Ico (1 : ℤ) nodes.length := by
    intro k hk1 hk2
    have hne : iterParent nodes k i ≠ NullId := dist_min nodes i h k hk2
    have hprev : iterParent nodes (k - 1) i ≠ NullId := by
      apply dist_min nodes i h
      omega
    have hstep := iterParent_succ_right nodes (k - 1) i
    rw [if_neg hprev] at hstep
    have hk3 : k - 1 + 1 = k := by omega
    rw [hk3] at hstep
    rcases hrange (iterParent nodes (k - 1) i) with hr | hr
    · rw [hstep] at hne
      exact absurd hr hne
    · rw [Finset.mem_Ico, hstep]
      exact ⟨hr.1, by exact_mod_cast hr.2⟩
  have hinj : Set.InjOn (fun k => iterParent nodes k i)
      ((Finset.Ico 1 (dist nodes i h)) : Finset ℕ) := by
    intro a ha b hb hab2
    simp only [Finset.coe_Ico, Set.mem_Ico] at ha hb
    by_contra hne
    rcases Nat.lt_or_ge a b with hlt | hge
    · exact chain_no_repeat nodes i h a b hlt (dist_min nodes i h b hb.2) hab2
    · have hlt2 : b < a := by omega
      exact chain_no_repeat nodes i h b a hlt2 (dist_min nodes i h a ha.2) hab2.symm
  have hcard := Finset.card_le_card_of_injOn (fun k => iterParent nodes k i)
    (fun k hk => by
      simp only [Finset.mem_Ico] at hk
      exact hmem k hk.1 hk.2) hinj
  rw [Nat.card_Ico] at hcard
  rw [Int.card_Ico] at hcard
  have hcard2 : ((nodes.length : ℤ) - 1).toNat = nodes.length - 1 := by omega
  rw [hcard2] at hcard
  omega

lemma ancestor_of_parent (nodes : List DNode) (a i : ℤ) (hi : i ≠ NullId)
    (h : isAncestor nodes a (getNode nodes i).parentId) : isAncestor nodes a i := by
  obtain ⟨k, hk⟩ := h
  refine ⟨k + 1, ?_⟩
  show (if i = NullId then NullId else iterParent nodes k (getNode nodes i).parentId) = a
  rw [if_neg hi]
  exact hk

lemma ancestor_null (nodes : List DNode) (c : ℤ) (hc : c ≠ NullId)
    (h : isAncestor nodes c NullId) : False := by
  obtain ⟨k, hk⟩ := h
  rw [iterParent_null] at hk
  exact hc hk.symm

lemma equalize_eq_iterParent (nodes : List DNode)
    (hs : (getNode nodes NullId).parentId = NullId) :
    ∀ (k : ℕ) (i : ℤ), equalize nodes k i = iterParent nodes k i := by
  intro k
  induction k with
  | zero => intro i; rfl
  | succ n ih =>
    intro i
    show (if (getNode nodes i).parentId = NullId then NullId
      else equalize nodes n (getNode nodes i).parentId) = _
    by_cases hi : i = NullId
    · subst hi
      rw [if_pos hs, iterParent_null]
    · show _ = (if i = NullId then NullId
        else iterParent nodes n (getNode nodes i).parentId)
      rw [if_neg hi]
      by_cases hp : (getNode nodes i).parentId = NullId
      · rw [if_pos hp, hp, iterParent_null]
      · rw [if_neg hp]
        exact ih _

lemma getDepth_eq (nodes : List DNode) (i : ℤ) (h : Terminates nodes i) (hi : i ≠ NullId)
    (hlen : 1 ≤ nodes.length) (hrange : ParentsInRange nodes) :
    getDepth nodes i = dist nodes i h := by
  unfold getDepth
  rw [getDepthGo_eq nodes (nodes.length + 1) i 0 h hi
    (le_trans (dist_le_length nodes i h hlen hrange) (by omega))]
  omega

lemma fcaGo_sound (nodes : List DNode) : ∀ (fuel : ℕ) (m1 m2 : ℤ),
    fcaGo nodes fuel m1 m2 ≠ NullId →
    isAncestor nodes (fcaGo nodes fuel m1 m2) m1
    ∧ isAncestor nodes (fcaGo nodes fuel m1 m2) m2 := by
  intro fuel
  induction fuel with
  | zero => intro m1 m2 h; exact absurd rfl h
  | succ n ih =>
    intro m1 m2 h
    by_cases h0 : m1 = NullId ∨ m2 = NullId
    · rw [show fcaGo nodes (n + 1) m1 m2 = NullId by simp [fcaGo, h0]] at h
      exact absurd rfl h
    · push_neg at h0
      by_cases h1 : m1 = m2
      · have he : fcaGo nodes (n + 1) m1 m2 = m1 := by
          simp [fcaGo, h0.1, h0.2, h1]
        rw [he]
        exact ⟨isAncestor_refl nodes m1, h1 ▸ isAncestor_refl nodes m1⟩
      · have he : fcaGo nodes (n + 1) m1 m2
            = fcaGo nodes n (getNode nodes m1).parentId (getNode nodes m2).parentId := by
          simp [fcaGo, h0.1, h0.2, h1]
        rw [he] at h ⊢
        obtain ⟨ha1, ha2⟩ := ih _ _ h
        exact ⟨ancestor_of_parent nodes _ m1 h0.1 ha1,
          ancestor_of_parent nodes _ m2 h0.2 ha2⟩

lemma fcaGo_complete (nodes : List DNode) : ∀ (fuel : ℕ) (m1 m2 : ℤ)
    (h1 : Terminates nodes m1) (h2 : Terminates nodes m2),
    dist nodes m1 h1 = dist nodes m2 h2 →
    dist nodes m1 h1 + 1 ≤ fuel →
    (∃ c, c ≠ NullId ∧ isAncestor nodes c m1 ∧ isAncestor nodes c m2) →
    fcaGo nodes fuel m1 m2 ≠ NullId := by
  intro fuel
  induction fuel with
  | zero => intro m1 m2 h1 h2 _ hf _; omega
  | succ n ih =>
    intro m1 m2 h1 h2 hdist hf hc
    obtain ⟨c, hcn, hc1, hc2⟩ := hc
    have hm1 : m1 ≠ NullId := by
      intro h
      subst h
      exact ancestor_null nodes c hcn hc1
    have hm2 : m2 ≠ NullId := by
      intro h
      subst h
      exact ancestor_null nodes c hcn hc2
    by_cases heq : m1 = m2
    · simp [fcaGo, hm1, hm2, heq]
    · have he : fcaGo nodes (n + 1) m1 m2
          = fcaGo nodes n (getNode nodes m1).parentId (getNode nodes m2).parentId := by
        simp [fcaGo, hm1, hm2, heq]
      rw [he]
      obtain ⟨k1, hk1⟩ := hc1
      obtain ⟨k2, hk2⟩ := hc2
      have hterm_c : Terminates nodes c := by
        have := terminates_iter nodes m1 h1 k1
        rwa [hk1] at this
      have hd1 := dist_of_ancestor nodes c m1 h1 hterm_c k1 hk1 hcn
      have hd2 := dist_of_ancestor nodes c m2 h2 hterm_c k2 hk2 hcn
      have hk1pos : 1 ≤ k1 := by
        by_contra hk0
        push_neg at hk0
        interval_cases k1
        · rw [show iterParent nodes 0 m1 = m1 from rfl] at hk1
          subst hk1
          have hkk : k2 = 0 := by omega
        
          subst hkk
          rw [show iterParent nodes 0 m2 = m2 from rfl] at hk2
          exact heq hk2.symm
      have hk2pos : 1 ≤ k2 := by
        by_contra hk0
        push_neg at hk0
        interval_cases k2
        · rw [show iterParent nodes 0 m2 = m2 from rfl] at hk2
          subst hk2
          have hkk : k1 = 0 := by omega
          subst hkk
          rw [show iterParent nodes 0 m1 = m1 from rfl] at hk1
          exact heq hk1
      have hp1 : Terminates nodes (getNode nodes m1).parentId := terminates_parent nodes m1 h1 hm1
      have hp2 : Terminates nodes (getNode nodes m2).parentId := terminates_parent nodes m2 h2 hm2
      have hdp1 := dist_parent nodes m1 h1 hm1 hp1
      have hdp2 := dist_parent nodes m2 h2 hm2 hp2
      apply ih _ _ hp1 hp2 (by omega) (by omega)
      refine ⟨c, hcn, ⟨k1 - 1, ?_⟩, ⟨k2 - 1, ?_⟩⟩
      · have h5 : iterParent nodes k1 m1
            = iterParent nodes (k1 - 1) (getNode nodes m1).parentId := by
          have h7 : iterParent nodes 1 m1 = (getNode nodes m1).parentId := by
            show (if m1 = NullId then NullId
              else iterParent nodes 0 (getNode nodes m1).parentId) = _
            rw [if_neg hm1]
            rfl
          have h6 : k1 = 1 + (k1 - 1) := by omega
          rw [h6, iterParent_add, h7]
          congr 1
          omega
        rw [← h5]
        exact hk1
      · have h5 : iterParent nodes k2 m2
            = iterParent nodes (k2 - 1) (getNode nodes m2).parentId := by
          have h7 : iterParent nodes 1 m2 = (getNode nodes m2).parentId := by
            show (if m2 = NullId then NullId
              else iterParent nodes 0 (getNode nodes m2).parentId) = _
            rw [if_neg hm2]
            rfl
          have h6 : k2 = 1 + (k2 - 1) := by omega
          rw [h6, iterParent_add, h7]
          congr 1
          omega
        rw [← h5]
        exact hk2

/-- The two peaks share an ancestor (are connected in the forest). -/
def CommonAncestor (nodes : List DNode) (p1 p2 : ℤ) : Prop :=
  ∃ c, c ≠ NullId ∧ isAncestor nodes c p1 ∧ isAncestor nodes c p2

lemma isAncestor_trans_iter (nodes : List DNode) (c i : ℤ) (a : ℕ)
    (h : isAncestor nodes c (iterParent nodes a i)) : isAncestor nodes c i := by
  obtain ⟨k, hk⟩ := h
  refine ⟨a + k, ?_⟩
  rw [iterParent_add]
  exact hk

lemma isAncestor_iter_down (nodes : List DNode) (c i : ℤ) (k a : ℕ)
    (hk : iterParent nodes k i = c) (ha : a ≤ k) :
    isAncestor nodes c (iterParent nodes a i) := by
  refine ⟨k - a, ?_⟩
  rw [← iterParent_add]
  have h1 : a + (k - a) = k := by omega
  rw [h1]
  exact hk

lemma fca_spec (nodes : List DNode)
    (hs : (getNode nodes NullId).parentId = NullId)
    (hlen : 1 ≤ nodes.length) (hrange : ParentsInRange nodes) (hforest : Forest nodes)
    (p1 p2 : ℤ) (hp1 : p1 ≠ NullId) (hp2 : p2 ≠ NullId) :
    (findCommonAncestor nodes p1 p2 ≠ NullId →
      isAncestor nodes (findCommonAncestor nodes p1 p2) p1
      ∧ isAncestor nodes (findCommonAncestor nodes p1 p2) p2)
    ∧ (findCommonAncestor nodes p1 p2 = NullId ↔ ¬ CommonAncestor nodes p1 p2) := by
  have h1 := hforest p1
  have h2 := hforest p2
  have hdg1 := getDepth_eq nodes p1 h1 hp1 hlen hrange
  have hdg2 := getDepth_eq nodes p2 h2 hp2 hlen hrange
  have hm1eq : (if getDepth nodes p2 < getDepth nodes p1 then
      equalize nodes (getDepth nodes p1 - getDepth nodes p2) p1 else p1)
      = iterParent nodes (dist nodes p1 h1 - dist nodes p2 h2) p1 := by
    rw [hdg1, hdg2]
    by_cases hc : dist nodes p2 h2 < dist nodes p1 h1
    · rw [if_pos hc, equalize_eq_iterParent nodes hs]
    · rw [if_neg hc]
      have h3 : dist nodes p1 h1 - dist nodes p2 h2 = 0 := by omega
      rw [h3]
      rfl
  have hm2eq : (if getDepth nodes p1 < getDepth nodes p2 then
      equalize nodes (getDepth nodes p2 - getDepth nodes p1) p2 else p2)
      = iterParent nodes (dist nodes p2 h2 - dist nodes p1 h1) p2 := by
    rw [hdg1, hdg2]
    by_cases hc : dist nodes p1 h1 < dist nodes p2 h2
    · rw [if_pos hc, equalize_eq_iterParent nodes hs]
    · rw [if_neg hc]
      have h3 : dist nodes p2 h2 - dist nodes p1 h1 = 0 := by omega
      rw [h3]
      rfl
  have hfca : findCommonAncestor nodes p1 p2
      = fcaGo nodes (nodes.length + 1)
          (iterParent nodes (dist nodes p1 h1 - dist nodes p2 h2) p1)
          (iterParent nodes (dist nodes p2 h2 - dist nodes p1 h1) p2) := by
    show fcaGo nodes (nodes.length + 1)
        (if getDepth nodes p2 < getDepth nodes p1 then
          equalize nodes (getDepth nodes p1 - getDepth nodes p2) p1 else p1)
        (if getDepth nodes p1 < getDepth nodes p2 then
          equalize nodes (getDepth nodes p2 - getDepth nodes p1) p2 else p2) = _
    rw [hm1eq, hm2eq]
  have ht1 := terminates_iter nodes p1 h1 (dist nodes p1 h1 - dist nodes p2 h2)
  have ht2 := terminates_iter nodes p2 h2 (dist nodes p2 h2 - dist nodes p1 h1)
  have hd1 := dist_iter nodes p1 h1 (dist nodes p1 h1 - dist nodes p2 h2) (by omega)
  have hd2 := dist_iter nodes p2 h2 (dist nodes p2 h2 - dist nodes p1 h1) (by omega)
  have hddeq : dist nodes _ ht1 = dist nodes _ ht2 := by
    rw [hd1, hd2]
    omega
  have hca_iff : CommonAncestor nodes p1 p2 ↔
      (∃ c, c ≠ NullId
        ∧ isAncestor nodes c (iterParent nodes (dist nodes p1 h1 - dist nodes p2 h2) p1)
        ∧ isAncestor nodes c (iterParent nodes (dist nodes p2 h2 - dist nodes p1 h1) p2)) := by
    constructor
    · rintro ⟨c, hcn, ⟨k1, hk1⟩, ⟨k2, hk2⟩⟩
      have hterm_c : Terminates nodes c := by
        have := terminates_iter nodes p1 h1 k1
        rwa [hk1] at this
      have ha1 := dist_of_ancestor nodes c p1 h1 hterm_c k1 hk1 hcn
      have ha2 := dist_of_ancestor nodes c p2 h2 hterm_c k2 hk2 hcn
      refine ⟨c, hcn, isAncestor_iter_down nodes c p1 k1 _ hk1 (by omega),
        isAncestor_iter_down nodes c p2 k2 _ hk2 (by omega)⟩
    · rintro ⟨c, hcn, ha1, ha2⟩
      exact ⟨c, hcn, isAncestor_trans_iter nodes c p1 _ ha1,
        isAncestor_trans_iter nodes c p2 _ ha2⟩
  constructor
  · intro hne
    rw [hfca] at hne ⊢
    obtain ⟨ha1, ha2⟩ := fcaGo_sound nodes (nodes.length + 1) _ _ hne
    exact ⟨isAncestor_trans_iter nodes _ p1 _ ha1, isAncestor_trans_iter nodes _ p2 _ ha2⟩
  · constructor
    · intro hnull hca
      rw [hca_iff] at hca
      have := fcaGo_complete nodes (nodes.length + 1) _ _ ht1 ht2 hddeq
        (by
          rw [hd1]
          have := dist_le_length nodes p1 h1 hlen hrange
          omega) hca
      rw [hfca] at hnull
      exact this hnull
    · intro hnca
      by_contra hne
      rw [hfca] at hne
      obtain ⟨ha1, ha2⟩ := fcaGo_sound nodes (nodes.length + 1) _ _ hne
      apply hnca
      rw [hca_iff]
      exact ⟨_, hne, ha1, ha2⟩

/-- The nodes walked by `findLowestSaddleOnPath` from `c` up to (and
excluding) the ancestor `a`. -/
def pathList (nodes : List DNode) : ℕ → ℤ → ℤ → List ℤ
  | 0, _, _ => []
  | fuel + 1, c, a => if c = a then [] else c :: pathList nodes fuel (getNode nodes c).parentId a

/-- The running-minimum fold performed by `findLowestSaddleOnPath`. -/
def lowestFold (t : DivideTree) (lowest : ℤ) (path : List ℤ) : ℤ :=
  path.foldl (fun low j => if nodeSaddleElev t j < nodeSaddleElev t low then j else low) lowest

lemma lowestFold_cons (t : DivideTree) (lowest j : ℤ) (rest : List ℤ) :
    lowestFold t lowest (j :: rest)
      = lowestFold t (if nodeSaddleElev t j < nodeSaddleElev t lowest then j else lowest) rest :=
  rfl

lemma lowestFold_mem (t : DivideTree) : ∀ (path : List ℤ) (lowest : ℤ),
    lowestFold t lowest path = lowest ∨ lowestFold t lowest path ∈ path := by
  intro path
  induction path with
  | nil => intro lowest; exact Or.inl rfl
  | cons j rest ih =>
    intro lowest
    rw [lowestFold_cons]
    by_cases hc : nodeSaddleElev t j < nodeSaddleElev t lowest
    · rw [if_pos hc]
      rcases ih j with h | h
      · exact Or.inr (by rw [h]; exact List.mem_cons_self j rest)
      · exact Or.inr (List.mem_cons_of_mem j h)
    · rw [if_neg hc]
      rcases ih lowest with h | h
      · exact Or.inl h
      · exact Or.inr (List.mem_cons_of_mem j h)

lemma lowestFold_min (t : DivideTree) : ∀ (path : List ℤ) (lowest : ℤ),
    nodeSaddleElev t (lowestFold t lowest path) ≤ nodeSaddleElev t lowest
    ∧ ∀ j ∈ path, nodeSaddleElev t (lowestFold t lowest path) ≤ nodeSaddleElev t j := by
  intro path
  induction path with
  | nil => intro lowest; exact ⟨le_refl _, by simp⟩
  | cons j rest ih =>
    intro lowest
    rw [lowestFold_cons]
    by_cases hc : nodeSaddleElev t j < nodeSaddleElev t lowest
    · rw [if_pos hc]
      obtain ⟨ih1, ih2⟩ := ih j
      refine ⟨le_trans ih1 (le_of_lt hc), ?_⟩
      intro j2 hj2
      rcases List.mem_cons.mp hj2 with rfl | hj2
      · exact ih1
      · exact ih2 j2 hj2
    · rw [if_neg hc]
      obtain ⟨ih1, ih2⟩ := ih lowest
      refine ⟨ih1, ?_⟩
      intro j2 hj2
      rcases List.mem_cons.mp hj2 with rfl | hj2
      · exact le_trans ih1 (not_lt.mp hc)
      · exact ih2 j2 hj2

lemma flspGo_eq (t : DivideTree) : ∀ (fuel : ℕ) (c a lowest : ℤ) (K : ℕ),
    iterParent t.nodes K c = a → a ≠ NullId → K < fuel →
    flspGo t fuel c a lowest = lowestFold t lowest (pathList t.nodes fuel c a) := by
  intro fuel
  induction fuel with
  | zero => intro c a lowest K hK ha hf; omega
  | succ n ih =>
    intro c a lowest K hK ha hf
    by_cases hc : c = a
    · show (if c = a then lowest else _) = _
      rw [if_pos hc]
      show _ = lowestFold t lowest (if c = a then [] else _)
      rw [if_pos hc]
      rfl
    · have hcn : c ≠ NullId := by
        intro h
        subst h
        rw [iterParent_null] at hK
        exact ha hK.symm
      have hK0 : K ≠ 0 := by
        intro h
        subst h
        exact hc hK
      have hKp : iterParent t.nodes (K - 1) (getNode t.nodes c).parentId = a := by
        have h6 : K = 1 + (K - 1) := by omega
        rw [h6, iterParent_add] at hK
        have h7 : iterParent t.nodes 1 c = (getNode t.nodes c).parentId := by
          show (if c = NullId then NullId else iterParent t.nodes 0 (getNode t.nodes c).parentId) = _
          rw [if_neg hcn]
          rfl
        rwa [h7] at hK
      have hpn : (getNode t.nodes c).parentId ≠ NullId := by
        intro h
        rw [h, iterParent_null] at hKp
        exact ha hKp.symm
      show (if c = a then lowest else if (getNode t.nodes c).parentId = NullId then NullId
        else flspGo t n (getNode t.nodes c).parentId a
          (if nodeSaddleElev t c < nodeSaddleElev t lowest then c else lowest)) = _
      rw [if_neg hc, if_neg hpn]
      rw [ih _ _ _ (K - 1) hKp ha (by omega)]
      show _ = lowestFold t lowest (if c = a then [] else _)
      rw [if_neg hc]
      rfl

lemma pathList_nonnull (nodes : List DNode) : ∀ (fuel : ℕ) (c a : ℤ) (K : ℕ),
    iterParent nodes K c = a → a ≠ NullId →
    ∀ j ∈ pathList nodes fuel c a, j ≠ NullId ∧ (getNode nodes j).parentId ≠ NullId := by
  intro fuel
  induction fuel with
  | zero => intro c a K hK ha j hj; simp [pathList] at hj
  | succ n ih =>
    intro c a K hK ha j hj
    by_cases hc : c = a
    · rw [show pathList nodes (n + 1) c a = [] by simp [pathList, hc]] at hj
      simp at hj
    · rw [show pathList nodes (n + 1) c a
        = c :: pathList nodes n (getNode nodes c).parentId a by simp [pathList, hc]] at hj
      have hcn : c ≠ NullId := by
        intro h
        subst h
        rw [iterParent_null] at hK
        exact ha hK.symm
      have hK0 : K ≠ 0 := by
        intro h
        subst h
        exact hc hK
      have hKp : iterParent nodes (K - 1) (getNode nodes c).parentId = a := by
        have h7 : iterParent nodes 1 c = (getNode nodes c).parentId := by
          show (if c = NullId then NullId
            else iterParent nodes 0 (getNode nodes c).parentId) = _
          rw [if_neg hcn]
          rfl
        have h6 : K = 1 + (K - 1) := by omega
        rw [h6, iterParent_add, h7] at hK
        exact hK
      have hpn : (getNode nodes c).parentId ≠ NullId := by
        intro h
        rw [h, iterParent_null] at hKp
        exact ha hKp.symm
      rcases List.mem_cons.mp hj with rfl | hj
      · exact ⟨hcn, hpn⟩
      · exact ih _ a (K - 1) hKp ha j hj

lemma pathList_cons (nodes : List DNode) (fuel : ℕ) (c a : ℤ) (hc : c ≠ a) :
    pathList nodes (fuel + 1) c a = c :: pathList nodes fuel (getNode nodes c).parentId a := by
  simp [pathList, hc]

lemma flsp_spec (t : DivideTree) (c a : ℤ) (K : ℕ)
    (hK : iterParent t.nodes K c = a) (ha : a ≠ NullId) (hc : c ≠ a)
    (hKf : K < t.nodes.length + 1) :
    findLowestSaddleOnPath t c a ∈ pathList t.nodes (t.nodes.length + 1) c a
    ∧ ∀ j ∈ pathList t.nodes (t.nodes.length + 1) c a,
        nodeSaddleElev t (findLowestSaddleOnPath t c a) ≤ nodeSaddleElev t j := by
  have he : findLowestSaddleOnPath t c a
      = lowestFold t c (pathList t.nodes (t.nodes.length + 1) c a) := by
    unfold findLowestSaddleOnPath
    rw [if_neg hc]
    exact flspGo_eq t (t.nodes.length + 1) c a c K hK ha hKf
  have hne : t.nodes.length + 1 = t.nodes.length + 1 := rfl
  have hcons := pathList_cons t.nodes t.nodes.length c a hc
  constructor
  · rw [he]
    rcases lowestFold_mem t (pathList t.nodes (t.nodes.length + 1) c a) c with h | h
    · rw [h, hcons]
      exact List.mem_cons_self c _
    · exact h
  · intro j hj
    rw [he]
    exact (lowestFold_min t (pathList t.nodes (t.nodes.length + 1) c a) c).2 j hj

/-- Saddle ids of nodes with parents are valid 1-based saddle indices. -/
def SaddlesValid (t : DivideTree) : Prop :=
  ∀ j : ℤ, (getNode t.nodes j).parentId ≠ NullId →
    1 ≤ (getNode t.nodes j).saddleId ∧ (getNode t.nodes j).saddleId ≤ (t.saddles.length : ℤ)

/-- The would-be cycle created by an edge `peak1 - peak2`: the walked path
from each peak up to their common ancestor. -/
def cyclePath (t : DivideTree) (p1 p2 : ℤ) : List ℤ :=
  pathList t.nodes (t.nodes.length + 1) p1 (findCommonAncestor t.nodes p1 p2)
    ++ pathList t.nodes (t.nodes.length + 1) p2 (findCommonAncestor t.nodes p1 p2)

lemma flsp_self (t : DivideTree) (a : ℤ) : findLowestSaddleOnPath t a a = NullId := by
  simp [findLowestSaddleOnPath]

lemma getNode_null (nodes : List DNode) : getNode nodes NullId = getNode nodes 0 := rfl

lemma pathList_self (nodes : List DNode) (fuel : ℕ) (a : ℤ) : pathList nodes fuel a a = [] := by
  cases fuel with
  | zero => rfl
  | succ n => simp [pathList]

/-- Claim C2: for every call `maybeAddEdge(peak1, peak2, saddle)` on a
well-formed tree (sentinel node 0, in-range parent links, valid saddle ids
on edges, forest): if the two peaks have no common ancestor, the tree of
`peak1` is re-rooted at `peak1`, the edge `peak1 -> peak2` through the given
saddle is added, and `Null` is returned; if they are connected, the lowest
saddle `m` on the would-be cycle (the two walked paths to the common
ancestor) decides: when the proposed saddle is strictly lower than `m`'s
saddle, the proposed edge is discarded and the proposed saddle id is
returned, and otherwise the edge at `m` is broken (parent and saddle
cleared), the new edge is added after re-rooting `peak1`, and the broken
edge's saddle id is returned. -/
theorem maybeAddEdge_spec (t : DivideTree)
    (hsent : getNode t.nodes 0 = ⟨NullId, NullId⟩)
    (hlen : 1 ≤ t.nodes.length) (hrange : ParentsInRange t.nodes)
    (hsaddle : SaddlesValid t) (hforest : Forest t.nodes)
    (p1 p2 s : ℤ) (hp1a : 1 ≤ p1) (hp2a : 1 ≤ p2) (hne : p1 ≠ p2) :
    (¬ CommonAncestor t.nodes p1 p2 →
      maybeAddEdge t p1 p2 s
        = ({ t with nodes := setNode (makeNodeIntoRoot t.nodes p1) p1 ⟨p2, s⟩ }, NullId))
    ∧ (CommonAncestor t.nodes p1 p2 →
      isAncestor t.nodes (findCommonAncestor t.nodes p1 p2) p1
      ∧ isAncestor t.nodes (findCommonAncestor t.nodes p1 p2) p2
      ∧ ∃ m ∈ cyclePath t p1 p2,
          (∀ j ∈ cyclePath t p1 p2, nodeSaddleElev t m ≤ nodeSaddleElev t j)
          ∧ ((getSaddle t s).elevation < nodeSaddleElev t m →
              maybeAddEdge t p1 p2 s = (t, s))
          ∧ (¬ (getSaddle t s).elevation < nodeSaddleElev t m →
              maybeAddEdge t p1 p2 s
                = ({ t with nodes := (setNode
                      (makeNodeIntoRoot (setNode t.nodes m ⟨NullId, NullId⟩) p1)
                      p1 ⟨p2, s⟩) },
                    (getNode t.nodes m).saddleId))) := by
  have hp1n : p1 ≠ NullId := by unfold NullId; omega
  have hp2n : p2 ≠ NullId := by unfold NullId; omega
  have hsent2 : (getNode t.nodes NullId).parentId = NullId := by
    rw [getNode_null, hsent]
  obtain ⟨hfca_sound, hfca_null⟩ := fca_spec t.nodes hsent2 hlen hrange hforest p1 p2 hp1n hp2n
  constructor
  · intro hnca
    have hca : findCommonAncestor t.nodes p1 p2 = NullId := hfca_null.mpr hnca
    simp only [maybeAddEdge, hca, if_pos]
  · intro hca
    have hcane : findCommonAncestor t.nodes p1 p2 ≠ NullId := by
      intro h
      exact (hfca_null.mp h) hca
    obtain ⟨ha1, ha2⟩ := hfca_sound hcane
    refine ⟨ha1, ha2, ?_⟩
    rw [CommonAncestor] at hca
    obtain ⟨K1, hK1⟩ := ha1
    obtain ⟨K2, hK2⟩ := ha2
    have htca : Terminates t.nodes (findCommonAncestor t.nodes p1 p2) := by
      have h0 := terminates_iter t.nodes p1 (hforest p1) K1
      rwa [hK1] at h0
    have hKb1 : K1 < t.nodes.length + 1 := by
      have h3 := (dist_of_ancestor t.nodes _ p1 (hforest p1) htca K1 hK1 hcane).1
      have h4 := dist_le_length t.nodes p1 (hforest p1) hlen hrange
      omega
    have hKb2 : K2 < t.nodes.length + 1 := by
      have h3 := (dist_of_ancestor t.nodes _ p2 (hforest p2) htca K2 hK2 hcane).1
      have h4 := dist_le_length t.nodes p2 (hforest p2) hlen hrange
      omega
    unfold cyclePath
    set ca := findCommonAncestor t.nodes p1 p2 with hcadef
    by_cases hc1 : p1 = ca
    · -- peak1 is the common ancestor itself: path1 empty, l1 = Null, swap occurs
      have hc2 : p2 ≠ ca := by
        intro h
        exact hne (hc1.trans h.symm)
      have hl1 : findLowestSaddleOnPath t p1 ca = NullId := by
        rw [hc1]
        exact flsp_self t _
      have hpath1 : pathList t.nodes (t.nodes.length + 1) p1 ca = [] := by
        rw [hc1]
        exact pathList_self t.nodes _ _
      obtain ⟨hm_mem, hm_min⟩ := flsp_spec t p2 _ K2 hK2 hcane hc2 hKb2
      have hm0ne : findLowestSaddleOnPath t p2 ca ≠ NullId :=
        (pathList_nonnull t.nodes _ p2 ca K2 hK2 hcane _ hm_mem).1
      refine ⟨findLowestSaddleOnPath t p2 ca, ?_, ?_, ?_, ?_⟩
      · rw [hpath1]
        simpa using hm_mem
      · intro j hj
        rw [hpath1] at hj
        simp only [List.nil_append] at hj
        exact hm_min j hj
      · intro hcomp
        have hsw : (NullId = NullId ∨ (getNode t.nodes NullId).saddleId = NullId) := Or.inl rfl
        have hsel : ¬ (findLowestSaddleOnPath t p2 ca = NullId
            ∨ (NullId ≠ NullId ∧ nodeSaddleElev t NullId
                < nodeSaddleElev t (findLowestSaddleOnPath t p2 ca))) := by
          simp [hm0ne]
        simp only [maybeAddEdge, ← hcadef]
        rw [if_neg hcane, hl1]
        simp only [eq_self_iff_true, true_or, if_true, ite_true, if_neg hsel]
        rw [if_pos hcomp]
      · intro hcomp
        have hsw : (NullId = NullId ∨ (getNode t.nodes NullId).saddleId = NullId) := Or.inl rfl
        have hsel : ¬ (findLowestSaddleOnPath t p2 ca = NullId
            ∨ (NullId ≠ NullId ∧ nodeSaddleElev t NullId
                < nodeSaddleElev t (findLowestSaddleOnPath t p2 ca))) := by
          simp [hm0ne]
        simp only [maybeAddEdge, ← hcadef]
        rw [if_neg hcane, hl1]
        simp only [eq_self_iff_true, true_or, if_true, ite_true, if_neg hsel]
        rw [if_neg hcomp]
    · -- peak1 is not the common ancestor: its path is nonempty and has a valid lowest saddle
      obtain ⟨hl1_mem, hl1_min⟩ := flsp_spec t p1 _ K1 hK1 hcane hc1 hKb1
      have hl1n : findLowestSaddleOnPath t p1 ca ≠ NullId :=
        (pathList_nonnull t.nodes _ p1 ca K1 hK1 hcane _ hl1_mem).1
      have hl1p : (getNode t.nodes (findLowestSaddleOnPath t p1 ca)).parentId ≠ NullId :=
        (pathList_nonnull t.nodes _ p1 ca K1 hK1 hcane _ hl1_mem).2
      have hl1s : (getNode t.nodes (findLowestSaddleOnPath t p1 ca)).saddleId ≠ NullId := by
        intro h
        have h1 := (hsaddle _ hl1p).1
        rw [h] at h1
        unfold NullId at h1
        omega
      have hswF : ¬ (findLowestSaddleOnPath t p1 ca = NullId
          ∨ (getNode t.nodes (findLowestSaddleOnPath t p1 ca)).saddleId = NullId) := by
        rintro (h | h)
        · exact hl1n h
        · exact hl1s h
      by_cases hc2 : p2 = ca
      · -- peak2 is the common ancestor: path2 empty, the saddle on path1 is lowest
        have hl2 : findLowestSaddleOnPath t p2 ca = NullId := by
          rw [hc2]
          exact flsp_self t _
        have hpath2 : pathList t.nodes (t.nodes.length + 1) p2 ca = [] := by
          rw [hc2]
          exact pathList_self t.nodes _ _
        refine ⟨findLowestSaddleOnPath t p1 ca, ?_, ?_, ?_, ?_⟩
        · rw [hpath2]
          simpa using hl1_mem
        · intro j hj
          rw [hpath2] at hj
          simp only [List.append_nil] at hj
          exact hl1_min j hj
        · intro hcomp
          simp only [maybeAddEdge, ← hcadef]
          rw [if_neg hcane, hl2]
          simp only [if_neg hswF]
          simp only [ne_eq, eq_self_iff_true, not_true, false_and, and_false, or_false]
          simp only [if_neg hl1n]
          rw [if_pos hcomp]
        · intro hcomp
          simp only [maybeAddEdge, ← hcadef]
          rw [if_neg hcane, hl2]
          simp only [if_neg hswF]
          simp only [ne_eq, eq_self_iff_true, not_true, false_and, and_false, or_false]
          simp only [if_neg hl1n]
          rw [if_neg hcomp]
      · -- both paths nonempty: the lower of the two path minima wins, ties go to path1
        obtain ⟨hl2_mem, hl2_min⟩ := flsp_spec t p2 _ K2 hK2 hcane hc2 hKb2
        have hl2n : findLowestSaddleOnPath t p2 ca ≠ NullId :=
          (pathList_nonnull t.nodes _ p2 ca K2 hK2 hcane _ hl2_mem).1
        by_cases helev : nodeSaddleElev t (findLowestSaddleOnPath t p2 ca)
            < nodeSaddleElev t (findLowestSaddleOnPath t p1 ca)
        · have hselT : (findLowestSaddleOnPath t p1 ca = NullId
              ∨ (findLowestSaddleOnPath t p2 ca ≠ NullId
                  ∧ nodeSaddleElev t (findLowestSaddleOnPath t p2 ca)
                    < nodeSaddleElev t (findLowestSaddleOnPath t p1 ca))) :=
            Or.inr ⟨hl2n, helev⟩
          refine ⟨findLowestSaddleOnPath t p2 ca, ?_, ?_, ?_, ?_⟩
          · exact List.mem_append_right _ hl2_mem
          · intro j hj
            rcases List.mem_append.mp hj with hj | hj
            · exact le_trans (le_of_lt helev) (hl1_min j hj)
            · exact hl2_min j hj
          · intro hcomp
            simp only [maybeAddEdge, ← hcadef]
            rw [if_neg hcane]
            simp only [if_neg hswF]
            simp only [if_pos hselT]
            rw [if_pos hcomp]
          · intro hcomp
            simp only [maybeAddEdge, ← hcadef]
            rw [if_neg hcane]
            simp only [if_neg hswF]
            simp only [if_pos hselT]
            rw [if_neg hcomp]
        · have hselF : ¬ (findLowestSaddleOnPath t p1 ca = NullId
              ∨ (findLowestSaddleOnPath t p2 ca ≠ NullId
                  ∧ nodeSaddleElev t (findLowestSaddleOnPath t p2 ca)
                    < nodeSaddleElev t (findLowestSaddleOnPath t p1 ca))) := by
            rintro (h | ⟨_, h⟩)
            · exact hl1n h
            · exact helev h
          refine ⟨findLowestSaddleOnPath t p1 ca, ?_, ?_, ?_, ?_⟩
          · exact List.mem_append_left _ hl1_mem
          · intro j hj
            rcases List.mem_append.mp hj with hj | hj
            · exact hl1_min j hj
            · exact le_trans (not_lt.mp helev) (hl2_min j hj)
          · intro hcomp
            simp only [maybeAddEdge, ← hcadef]
            rw [if_neg hcane]
            simp only [if_neg hswF]
            simp only [if_neg hselF]
            rw [if_pos hcomp]
          · intro hcomp
            simp only [maybeAddEdge, ← hcadef]
            rw [if_neg hcane]
            simp only [if_neg hswF]
            simp only [if_neg hselF]
            rw [if_neg hcomp]

/-! ### A concrete tree for exercising maybeAddEdge -/

/-- A concrete three-node divide tree: peak 2 hangs off peak 1 via saddle 1. -/
def witnessTree : DivideTree :=
  { peaks := [⟨⟨0, 0⟩, 100⟩, ⟨⟨1, 0⟩, 90⟩]
  , saddles := [⟨⟨0, 0⟩, 10, SaddleType.prom⟩, ⟨⟨1, 1⟩, 5, SaddleType.prom⟩]
  , runoffs := []
  , nodes := [⟨NullId, NullId⟩, ⟨NullId, NullId⟩, ⟨1, 1⟩]
  , runoffEdges := [] }

lemma witnessTree_parent (i : ℤ) (h : i.toNat ≠ 2) :
    (getNode witnessTree.nodes i).parentId = NullId := by
  show (witnessTree.nodes.getD i.toNat default).parentId = NullId
  have h3 : i.toNat = 0 ∨ i.toNat = 1 ∨ 3 ≤ i.toNat := by omega
  rcases h3 with h3 | h3 | h3
  · rw [h3]; rfl
  · rw [h3]; rfl
  · rw [List.getD_eq_default _ _ (by simpa [witnessTree] using h3)]
    rfl

lemma witnessTree_parent2 (i : ℤ) (h : i.toNat = 2) :
    (getNode witnessTree.nodes i).parentId = 1 := by
  show (witnessTree.nodes.getD i.toNat default).parentId = 1
  rw [h]; rfl

lemma witnessTree_saddleId2 (i : ℤ) (h : i.toNat = 2) :
    (getNode witnessTree.nodes i).saddleId = 1 := by
  show (witnessTree.nodes.getD i.toNat default).saddleId = 1
  rw [h]; rfl

lemma witnessTree_range : ParentsInRange witnessTree.nodes := by
  intro j
  by_cases h2 : j.toNat = 2
  · right
    rw [witnessTree_parent2 j h2]
    constructor <;> decide
  · left
    exact witnessTree_parent j h2

lemma witnessTree_saddles : SaddlesValid witnessTree := by
  intro j hj
  by_cases h2 : j.toNat = 2
  · rw [witnessTree_saddleId2 j h2]
    constructor <;> decide
  · exact absurd (witnessTree_parent j h2) hj

lemma witnessTree_forest : Forest witnessTree.nodes := by
  intro i
  refine ⟨2, ?_⟩
  show (if i = NullId then NullId
    else iterParent witnessTree.nodes 1 (getNode witnessTree.nodes i).parentId) = NullId
  by_cases h0 : i = NullId
  · rw [if_pos h0]
  · rw [if_neg h0]
    by_cases h2 : i.toNat = 2
    · rw [witnessTree_parent2 i h2]
      decide
    · rw [witnessTree_parent i h2]
      decide

/-- Witness: the concrete tree `witnessTree` with connected peaks 2 and 1,
all well-formedness hypotheses discharged by computation. -/
theorem maybeAddEdge_spec_witness :
    (¬ CommonAncestor witnessTree.nodes 2 1 →
      maybeAddEdge witnessTree 2 1 2
        = ({ witnessTree with
              nodes := setNode (makeNodeIntoRoot witnessTree.nodes 2) 2 ⟨1, 2⟩ }, NullId))
    ∧ (CommonAncestor witnessTree.nodes 2 1 →
      isAncestor witnessTree.nodes (findCommonAncestor witnessTree.nodes 2 1) 2
      ∧ isAncestor witnessTree.nodes (findCommonAncestor witnessTree.nodes 2 1) 1
      ∧ ∃ m ∈ cyclePath witnessTree 2 1,
          (∀ j ∈ cyclePath witnessTree 2 1,
              nodeSaddleElev witnessTree m ≤ nodeSaddleElev witnessTree j)
          ∧ ((getSaddle witnessTree 2).elevation < nodeSaddleElev witnessTree m →
              maybeAddEdge witnessTree 2 1 2 = (witnessTree, 2))
          ∧ (¬ (getSaddle witnessTree 2).elevation < nodeSaddleElev witnessTree m →
              maybeAddEdge witnessTree 2 1 2
                = ({ witnessTree with
                      nodes := (setNode
                        (makeNodeIntoRoot (setNode witnessTree.nodes m ⟨NullId, NullId⟩) 2)
                        2 ⟨1, 2⟩) },
                    (getNode witnessTree.nodes m).saddleId))) :=
  maybeAddEdge_spec witnessTree (by decide) (by decide)
    witnessTree_range witnessTree_saddles witnessTree_forest
    2 1 2 (by decide) (by decide) (by decide)


/-! ### removePeak and spliceTwoRunoffs (divide_tree.cpp) -/

instance : Inhabited Runoff := ⟨⟨⟨0, 0⟩, 0, false, 0⟩⟩

/-- The search loop of `DivideTree::removePeak` for the highest neighboring
saddle: scans node ids `1 .. size-1`, tracking the accumulator
`(highestSaddleElevation, neighborPeakId, saddleOwnerIsChild)`. -/
def rpScan (t : DivideTree) (peakId : ℤ) (init : Elevation × ℤ × Bool) :
    Elevation × ℤ × Bool :=
  (List.range' 1 (t.nodes.length - 1)).foldl
    (fun acc nodeId =>
      if (getNode t.nodes (nodeId : ℤ)).parentId = peakId then
        if acc.1 < (getSaddle t (getNode t.nodes (nodeId : ℤ)).saddleId).elevation then
          ((getSaddle t (getNode t.nodes (nodeId : ℤ)).saddleId).elevation, ((nodeId : ℤ), true))
        else acc
      else acc) init

/-- The branchy first half of `DivideTree::removePeak`: the removed saddle
id, the node array after the conditional reparenting of the saddle owner,
and the final `neighborPeakId`. -/
def rpCore (t : DivideTree) (peakId neighborPeakId : ℤ) : ℤ × List DNode × ℤ :=
  if (getNode t.nodes peakId).parentId ≠ neighborPeakId then
    let nbOwner :=
      if (getNode t.nodes neighborPeakId).parentId ≠ peakId then
        let init :=
          if (getNode t.nodes peakId).parentId ≠ NullId then
            ((getSaddle t (getNode t.nodes peakId).saddleId).elevation,
              ((getNode t.nodes peakId).parentId, false))
          else ((0 : Elevation), (neighborPeakId, true))
        (rpScan t peakId init).2
      else (neighborPeakId, true)
    if nbOwner.2 then
      ((getNode t.nodes nbOwner.1).saddleId,
        setNode t.nodes nbOwner.1
          ⟨(getNode t.nodes peakId).parentId, (getNode t.nodes peakId).saddleId⟩,
        nbOwner.1)
    else ((getNode t.nodes peakId).saddleId, t.nodes, nbOwner.1)
  else ((getNode t.nodes peakId).saddleId, t.nodes, neighborPeakId)

/-- `DivideTree::removePeak`, with the removed-peak and removed-saddle
index sets carried explicitly (C++ `mRemovedPeakIndices`,
`mRemovedSaddleIndices`). -/
def removePeak (t : DivideTree) (rp rs : Finset ℕ) (peakId neighborPeakId : ℤ) :
    DivideTree × Finset ℕ × Finset ℕ :=
  let c := rpCore t peakId neighborPeakId
  ({ t with
      nodes := c.2.1.map
        (fun nd => if nd.parentId = peakId then { nd with parentId := c.2.2 } else nd),
      runoffEdges := t.runoffEdges.map (fun e => if e = peakId then c.2.2 else e),
      runoffs := (t.runoffs.zip t.runoffEdges).map
        (fun pr => if pr.2 = peakId then { pr.1 with insidePeakArea := false } else pr.1) },
    insert (peakId - 1).toNat rp, insert (c.1 - 1).toNat rs)

/-- The saddle synthesized by `spliceTwoRunoffs` at runoff `i`'s location
and elevation (C++ `Saddle(loc, elev)` defaults to type `PROM`). -/
def stSynth (t : DivideTree) (i : ℕ) : DivideTree :=
  { t with saddles := t.saddles ++
      [⟨(t.runoffs.getD i default).location,
        (t.runoffs.getD i default).elevation, SaddleType.prom⟩] }

/-- The edge-adding step of `spliceTwoRunoffs`: call `maybeAddEdge` with the
just-pushed saddle (1-based id = new saddle count) and mark a returned
basin saddle `BASIN`. -/
def stEdge (t : DivideTree) (p1 p2 : ℤ) : DivideTree :=
  let r := maybeAddEdge t p1 p2 (t.saddles.length : ℤ)
  if r.2 ≠ NullId then
    { r.1 with saddles := (r.1.saddles.set (r.2 - 1).toNat
        ({ r.1.saddles.getD (r.2 - 1).toNat default with saddleType := SaddleType.basin })) }
  else r.1

/-- The peak-dependent first half of `DivideTree::spliceTwoRunoffs`:
synthesis, edge add, basin marking and conditional `removePeak`, performed
only when the two runoffs point at different peaks. -/
def stFirst (t : DivideTree) (rp rs : Finset ℕ) (index1 index2 : ℕ) :
    DivideTree × Finset ℕ × Finset ℕ :=
  let peak1 := t.runoffEdges.getD index1 0
  let peak2 := t.runoffEdges.getD index2 0
  if peak1 ≠ peak2 then
    let tb := stEdge (stSynth t index1) peak1 peak2
    if (tb.runoffs.getD index1 default).insidePeakArea then
      removePeak tb rp rs (tb.runoffEdges.getD index1 0) (tb.runoffEdges.getD index2 0)
    else if (tb.runoffs.getD index2 default).insidePeakArea then
      removePeak tb rp rs (tb.runoffEdges.getD index2 0) (tb.runoffEdges.getD index1 0)
    else (tb, rp, rs)
  else (t, rp, rs)

/-- `DivideTree::spliceTwoRunoffs`: returns the updated tree and the
removed-peak, removed-saddle and removed-runoff index sets. -/
def spliceTwoRunoffs (t : DivideTree) (rp rs : Finset ℕ) (index1 index2 : ℕ)
    (removedRunoffs : Finset ℕ) : DivideTree × Finset ℕ × Finset ℕ × Finset ℕ :=
  let was1 := (t.runoffs.getD index1 default).insidePeakArea
  let was2 := (t.runoffs.getD index2 default).insidePeakArea
  let f := stFirst t rp rs index1 index2
  let t1 := f.1
  let rr1 := insert index1 removedRunoffs
  let newFQ := (t1.runoffs.getD index2 default).filledQuadrants
      + (t1.runoffs.getD index1 default).filledQuadrants
  let t2 := { t1 with runoffs := (t1.runoffs.set index2
      ({ t1.runoffs.getD index2 default with filledQuadrants := newFQ })) }
  if 4 ≤ newFQ then (t2, f.2.1, f.2.2, insert index2 rr1)
  else
    ({ t2 with runoffs := (t2.runoffs.set index2
        ({ t2.runoffs.getD index2 default with insidePeakArea := was2 && was1 })) },
      f.2.1, f.2.2, rr1)

lemma maybeAddEdge_fields (t : DivideTree) (p1 p2 s : ℤ) :
    (maybeAddEdge t p1 p2 s).1.peaks = t.peaks
    ∧ (maybeAddEdge t p1 p2 s).1.saddles = t.saddles
    ∧ (maybeAddEdge t p1 p2 s).1.runoffs = t.runoffs
    ∧ (maybeAddEdge t p1 p2 s).1.runoffEdges = t.runoffEdges := by
  simp only [maybeAddEdge]
  split_ifs <;> exact ⟨rfl, rfl, rfl, rfl⟩


lemma removePeak_saddles (t : DivideTree) (rp rs : Finset ℕ) (p n : ℤ) :
    (removePeak t rp rs p n).1.saddles = t.saddles := rfl

lemma removePeak_runoffs (t : DivideTree) (rp rs : Finset ℕ) (p n : ℤ)
    (hre : t.runoffEdges.length = t.runoffs.length) :
    (removePeak t rp rs p n).1.runoffs.length = t.runoffs.length
    ∧ ∀ k : ℕ,
        ((removePeak t rp rs p n).1.runoffs.getD k default).location
            = (t.runoffs.getD k default).location
        ∧ ((removePeak t rp rs p n).1.runoffs.getD k default).elevation
            = (t.runoffs.getD k default).elevation
        ∧ ((removePeak t rp rs p n).1.runoffs.getD k default).filledQuadrants
            = (t.runoffs.getD k default).filledQuadrants := by
  have hlen : (removePeak t rp rs p n).1.runoffs.length = t.runoffs.length := by
    show ((t.runoffs.zip t.runoffEdges).map _).length = _
    simp [hre]
  refine ⟨hlen, ?_⟩
  intro k
  by_cases hk : k < t.runoffs.length
  · have hk3 : k < (t.runoffs.zip t.runoffEdges).length := by
      simp only [List.length_zip, hre]
      omega
    have hkE : k < t.runoffEdges.length := by omega
    have hstep : (removePeak t rp rs p n).1.runoffs.getD k default
        = if t.runoffEdges[k] = p then { t.runoffs[k] with insidePeakArea := false }
          else t.runoffs[k] := by
      show ((t.runoffs.zip t.runoffEdges).map _).getD k default = _
      rw [List.getD_eq_getElem?_getD, List.getElem?_map, List.getElem?_eq_getElem hk3]
      simp [List.getElem_zip]
    rw [hstep, List.getD_eq_getElem _ _ hk]
    by_cases he : t.runoffEdges[k] = p <;> simp [he]
  · rw [List.getD_eq_default _ _ (by omega), List.getD_eq_default _ _ (by omega)]
    exact ⟨rfl, rfl, rfl⟩

lemma stEdge_runoffs (t : DivideTree) (p1 p2 : ℤ) : (stEdge t p1 p2).runoffs = t.runoffs := by
  simp only [stEdge]
  split_ifs <;> exact (maybeAddEdge_fields t p1 p2 (t.saddles.length : ℤ)).2.2.1

lemma stEdge_runoffEdges (t : DivideTree) (p1 p2 : ℤ) :
    (stEdge t p1 p2).runoffEdges = t.runoffEdges := by
  simp only [stEdge]
  split_ifs <;> exact (maybeAddEdge_fields t p1 p2 (t.saddles.length : ℤ)).2.2.2

lemma set_mark_getD (s : List Saddle) (idx m : ℕ) :
    ((s.set idx ({ s.getD idx default with saddleType := SaddleType.basin })).getD m
        default).location
        = (s.getD m default).location
    ∧ ((s.set idx ({ s.getD idx default with saddleType := SaddleType.basin })).getD m
        default).elevation
        = (s.getD m default).elevation := by
  by_cases him : idx = m
  · subst him
    by_cases hi : idx < s.length
    · rw [List.getD_eq_getElem?_getD, List.getElem?_set_eq_of_lt _ hi]
      rw [List.getD_eq_getElem _ _ hi]
      constructor <;> rfl
    · rw [List.getD_eq_default _ _ (by simp; omega), List.getD_eq_default _ _ (by omega)]
      exact ⟨rfl, rfl⟩
  · rw [List.getD_eq_getElem?_getD, List.getElem?_set_ne him, ← List.getD_eq_getElem?_getD]
    exact ⟨rfl, rfl⟩

lemma stEdge_saddles (t : DivideTree) (p1 p2 : ℤ) :
    (stEdge t p1 p2).saddles.length = t.saddles.length
    ∧ ∀ m : ℕ,
        ((stEdge t p1 p2).saddles.getD m default).location
            = (t.saddles.getD m default).location
        ∧ ((stEdge t p1 p2).saddles.getD m default).elevation
            = (t.saddles.getD m default).elevation := by
  simp only [stEdge]
  have hs := (maybeAddEdge_fields t p1 p2 (t.saddles.length : ℤ)).2.1
  split_ifs with h
  · rw [hs]
    constructor
    · simp
    · intro m
      exact set_mark_getD t.saddles _ m
  · rw [hs]
    exact ⟨rfl, fun m => ⟨rfl, rfl⟩⟩

lemma stFirst_pres (t : DivideTree) (rp rs : Finset ℕ) (i j : ℕ)
    (hre : t.runoffEdges.length = t.runoffs.length) :
    (stFirst t rp rs i j).1.runoffs.length = t.runoffs.length
    ∧ ∀ k : ℕ,
        ((stFirst t rp rs i j).1.runoffs.getD k default).location
            = (t.runoffs.getD k default).location
        ∧ ((stFirst t rp rs i j).1.runoffs.getD k default).elevation
            = (t.runoffs.getD k default).elevation
        ∧ ((stFirst t rp rs i j).1.runoffs.getD k default).filledQuadrants
            = (t.runoffs.getD k default).filledQuadrants := by
  have htb_r : (stEdge (stSynth t i) (t.runoffEdges.getD i 0) (t.runoffEdges.getD j 0)).runoffs
      = t.runoffs := stEdge_runoffs _ _ _
  have htb_e :
      (stEdge (stSynth t i) (t.runoffEdges.getD i 0) (t.runoffEdges.getD j 0)).runoffEdges
      = t.runoffEdges := stEdge_runoffEdges _ _ _
  have hre2 : (stEdge (stSynth t i) (t.runoffEdges.getD i 0)
        (t.runoffEdges.getD j 0)).runoffEdges.length
      = (stEdge (stSynth t i) (t.runoffEdges.getD i 0) (t.runoffEdges.getD j 0)).runoffs.length := by
    rw [htb_r, htb_e]
    exact hre
  simp only [stFirst]
  split_ifs with hp h1 h2
  · obtain ⟨ha, hb⟩ := removePeak_runoffs _ rp rs _ _ hre2
    rw [htb_r] at ha hb
    exact ⟨ha, hb⟩
  · obtain ⟨ha, hb⟩ := removePeak_runoffs _ rp rs _ _ hre2
    rw [htb_r] at ha hb
    exact ⟨ha, hb⟩
  · rw [htb_r]
    exact ⟨rfl, fun k => ⟨rfl, rfl, rfl⟩⟩
  · exact ⟨rfl, fun k => ⟨rfl, rfl, rfl⟩⟩


lemma stFirst_eq (t : DivideTree) (rp rs : Finset ℕ) (i j : ℕ)
    (h : t.runoffEdges.getD i 0 = t.runoffEdges.getD j 0) :
    stFirst t rp rs i j = (t, rp, rs) := by
  simp only [stFirst]
  rw [if_neg (not_not_intro h)]

lemma stFirst_saddles_ne (t : DivideTree) (rp rs : Finset ℕ) (i j : ℕ)
    (h : t.runoffEdges.getD i 0 ≠ t.runoffEdges.getD j 0) :
    (stFirst t rp rs i j).1.saddles.length = t.saddles.length + 1
    ∧ ((stFirst t rp rs i j).1.saddles.getD t.saddles.length default).location
        = (t.runoffs.getD i default).location
    ∧ ((stFirst t rp rs i j).1.saddles.getD t.saddles.length default).elevation
        = (t.runoffs.getD i default).elevation := by
  obtain ⟨hl, hm⟩ := stEdge_saddles (stSynth t i) (t.runoffEdges.getD i 0) (t.runoffEdges.getD j 0)
  have hsyn_len : (stSynth t i).saddles.length = t.saddles.length + 1 := by simp [stSynth]
  have hsyn_getD : ((stSynth t i).saddles.getD t.saddles.length default)
      = ⟨(t.runoffs.getD i default).location, (t.runoffs.getD i default).elevation,
          SaddleType.prom⟩ := by
    show ((t.saddles ++ [_]).getD t.saddles.length default) = _
    rw [List.getD_eq_getElem?_getD, List.getElem?_append_right (le_refl _)]
    simp
  simp only [stFirst]
  split_ifs with hp h1
  · rw [removePeak_saddles]
    refine ⟨by rw [hl, hsyn_len], ?_, ?_⟩
    · rw [(hm t.saddles.length).1, hsyn_getD]
    · rw [(hm t.saddles.length).2, hsyn_getD]
  · rw [removePeak_saddles]
    refine ⟨by rw [hl, hsyn_len], ?_, ?_⟩
    · rw [(hm t.saddles.length).1, hsyn_getD]
    · rw [(hm t.saddles.length).2, hsyn_getD]
  · refine ⟨by rw [hl, hsyn_len], ?_, ?_⟩
    · rw [(hm t.saddles.length).1, hsyn_getD]
    · rw [(hm t.saddles.length).2, hsyn_getD]

lemma getD_set_self {α : Type} [Inhabited α] (l : List α) (k : ℕ) (v : α)
    (hk : k < l.length) : (l.set k v).getD k default = v := by
  rw [List.getD_eq_getElem?_getD, List.getElem?_set_eq_of_lt _ hk]
  rfl

/-- Claim C5: in every call `spliceTwoRunoffs(index1, index2)` on a tree
with as many runoff edges as runoffs: the removed-runoff set always gains
`index1`, and gains `index2` exactly when the two runoffs' original
`filledQuadrants` sum to at least 4; when runoff `index2` survives, its
`filledQuadrants` is that sum and its `insidePeakArea` is the AND of the
two pre-call values; when the two runoffs point at the same peak nothing
else changes (no saddle is synthesized, no edge is added, no peak is
removed); when they point at different peaks, exactly one saddle is
appended, carrying runoff `index1`'s location and elevation. -/
theorem spliceTwoRunoffs_spec (t : DivideTree) (rp rs rr : Finset ℕ) (index1 index2 : ℕ)
    (hi : index1 < t.runoffs.length) (hj : index2 < t.runoffs.length)
    (hre : t.runoffEdges.length = t.runoffs.length) :
    (spliceTwoRunoffs t rp rs index1 index2 rr).2.2.2
      = (if 4 ≤ (t.runoffs.getD index2 default).filledQuadrants
              + (t.runoffs.getD index1 default).filledQuadrants
          then insert index2 (insert index1 rr) else insert index1 rr)
    ∧ index1 ∈ (spliceTwoRunoffs t rp rs index1 index2 rr).2.2.2
    ∧ (¬ 4 ≤ (t.runoffs.getD index2 default).filledQuadrants
            + (t.runoffs.getD index1 default).filledQuadrants →
        ((spliceTwoRunoffs t rp rs index1 index2 rr).1.runoffs.getD index2
              default).filledQuadrants
          = (t.runoffs.getD index2 default).filledQuadrants
            + (t.runoffs.getD index1 default).filledQuadrants
        ∧ ((spliceTwoRunoffs t rp rs index1 index2 rr).1.runoffs.getD index2
              default).insidePeakArea
          = ((t.runoffs.getD index2 default).insidePeakArea
              && (t.runoffs.getD index1 default).insidePeakArea))
    ∧ (t.runoffEdges.getD index1 0 = t.runoffEdges.getD index2 0 →
        (spliceTwoRunoffs t rp rs index1 index2 rr).1.saddles = t.saddles
        ∧ (spliceTwoRunoffs t rp rs index1 index2 rr).1.nodes = t.nodes
        ∧ (spliceTwoRunoffs t rp rs index1 index2 rr).2.1 = rp
        ∧ (spliceTwoRunoffs t rp rs index1 index2 rr).2.2.1 = rs)
    ∧ (t.runoffEdges.getD index1 0 ≠ t.runoffEdges.getD index2 0 →
        (spliceTwoRunoffs t rp rs index1 index2 rr).1.saddles.length = t.saddles.length + 1
        ∧ ((spliceTwoRunoffs t rp rs index1 index2 rr).1.saddles.getD t.saddles.length
              default).location
          = (t.runoffs.getD index1 default).location
        ∧ ((spliceTwoRunoffs t rp rs index1 index2 rr).1.saddles.getD t.saddles.length
              default).elevation
          = (t.runoffs.getD index1 default).elevation) := by
  obtain ⟨hlen, hfields⟩ := stFirst_pres t rp rs index1 index2 hre
  have hfq2 : ((stFirst t rp rs index1 index2).1.runoffs.getD index2
        default).filledQuadrants
      = (t.runoffs.getD index2 default).filledQuadrants := (hfields index2).2.2
  have hfq1 : ((stFirst t rp rs index1 index2).1.runoffs.getD index1
        default).filledQuadrants
      = (t.runoffs.getD index1 default).filledQuadrants := (hfields index1).2.2
  have hlen2 : index2 < (stFirst t rp rs index1 index2).1.runoffs.length := by
    rw [hlen]
    exact hj
  refine ⟨?_, ?_, ?_, ?_, ?_⟩
  · simp only [spliceTwoRunoffs]
    rw [hfq2, hfq1]
    split_ifs with h <;> rfl
  · simp only [spliceTwoRunoffs]
    split_ifs with h <;> simp
  · intro h
    simp only [spliceTwoRunoffs]
    rw [hfq2, hfq1, if_neg h]
    rw [getD_set_self _ index2 _ (by rw [List.length_set]; exact hlen2)]
    rw [getD_set_self _ index2 _ hlen2]
    exact ⟨rfl, rfl⟩
  · intro h
    have hFe := stFirst_eq t rp rs index1 index2 h
    simp only [spliceTwoRunoffs, hFe]
    split_ifs with hq <;> exact ⟨rfl, rfl, rfl, rfl⟩
  · intro h
    obtain ⟨hA, hB, hC⟩ := stFirst_saddles_ne t rp rs index1 index2 h
    simp only [spliceTwoRunoffs]
    split_ifs with hq <;> exact ⟨hA, hB, hC⟩


/-- A concrete tree with two runoffs pointing at different peaks, for
exercising `spliceTwoRunoffs`. -/
def spliceWitnessTree : DivideTree :=
  { peaks := [⟨⟨0, 0⟩, 100⟩, ⟨⟨4, 0⟩, 90⟩]
  , saddles := [⟨⟨2, 0⟩, 10, SaddleType.prom⟩]
  , runoffs := [⟨⟨0, 5⟩, 7, false, 2⟩, ⟨⟨4, 5⟩, 6, true, 1⟩]
  , nodes := [⟨NullId, NullId⟩, ⟨NullId, NullId⟩, ⟨1, 1⟩]
  , runoffEdges := [1, 2] }

/-- Witness: splicing the two runoffs of `spliceWitnessTree`, with all
hypotheses discharged by computation. -/
theorem spliceTwoRunoffs_spec_witness :
    (spliceTwoRunoffs spliceWitnessTree ∅ ∅ 0 1 ∅).2.2.2
      = (if 4 ≤ (spliceWitnessTree.runoffs.getD 1 default).filledQuadrants
              + (spliceWitnessTree.runoffs.getD 0 default).filledQuadrants
          then insert 1 (insert 0 ∅) else insert 0 ∅)
    ∧ 0 ∈ (spliceTwoRunoffs spliceWitnessTree ∅ ∅ 0 1 ∅).2.2.2
    ∧ (¬ 4 ≤ (spliceWitnessTree.runoffs.getD 1 default).filledQuadrants
            + (spliceWitnessTree.runoffs.getD 0 default).filledQuadrants →
        ((spliceTwoRunoffs spliceWitnessTree ∅ ∅ 0 1 ∅).1.runoffs.getD 1
              default).filledQuadrants
          = (spliceWitnessTree.runoffs.getD 1 default).filledQuadrants
            + (spliceWitnessTree.runoffs.getD 0 default).filledQuadrants
        ∧ ((spliceTwoRunoffs spliceWitnessTree ∅ ∅ 0 1 ∅).1.runoffs.getD 1
              default).insidePeakArea
          = ((spliceWitnessTree.runoffs.getD 1 default).insidePeakArea
              && (spliceWitnessTree.runoffs.getD 0 default).insidePeakArea))
    ∧ (spliceWitnessTree.runoffEdges.getD 0 0 = spliceWitnessTree.runoffEdges.getD 1 0 →
        (spliceTwoRunoffs spliceWitnessTree ∅ ∅ 0 1 ∅).1.saddles = spliceWitnessTree.saddles
        ∧ (spliceTwoRunoffs spliceWitnessTree ∅ ∅ 0 1 ∅).1.nodes = spliceWitnessTree.nodes
        ∧ (spliceTwoRunoffs spliceWitnessTree ∅ ∅ 0 1 ∅).2.1 = ∅
        ∧ (spliceTwoRunoffs spliceWitnessTree ∅ ∅ 0 1 ∅).2.2.1 = ∅)
    ∧ (spliceWitnessTree.runoffEdges.getD 0 0 ≠ spliceWitnessTree.runoffEdges.getD 1 0 →
        (spliceTwoRunoffs spliceWitnessTree ∅ ∅ 0 1 ∅).1.saddles.length
          = spliceWitnessTree.saddles.length + 1
        ∧ ((spliceTwoRunoffs spliceWitnessTree ∅ ∅ 0 1 ∅).1.saddles.getD
              spliceWitnessTree.saddles.length default).location
          = (spliceWitnessTree.runoffs.getD 0 default).location
        ∧ ((spliceTwoRunoffs spliceWitnessTree ∅ ∅ 0 1 ∅).1.saddles.getD
              spliceWitnessTree.saddles.length default).elevation
          = (spliceWitnessTree.runoffs.getD 0 default).elevation) :=
  spliceTwoRunoffs_spec spliceWitnessTree ∅ ∅ ∅ 0 1 (by decide) (by decide) (by decide)


/-! ### findRunoffs (tree_builder.cpp) -/

/-- The mutable state of the border walk in `TreeBuilder::findRunoffs`. -/
structure WalkState where
  x : ℤ
  y : ℤ
  dx : ℤ
  dy : ℤ
  risingOrFlat : Bool
  lastElevation : Elevation
  runoffs : List Runoff
  deriving Repr

/-- The rise/fall bookkeeping at the top of each border-walk iteration:
returns the new `risingOrFlat` flag and the runoff list, to which a
2-quadrant runoff at the previous point is appended on a fall after a
rise. -/
def frRise (t : Tile) (s : WalkState) : Bool × List Runoff :=
  let elev := t.get s.x s.y
  if elev ≠ NODATA_ELEVATION ∧ (s.lastElevation = NODATA_ELEVATION ∨ s.lastElevation < elev) then
    (true, s.runoffs)
  else if s.risingOrFlat ∧ (elev = NODATA_ELEVATION ∨ elev < s.lastElevation) then
    (false, s.runoffs ++ [⟨⟨s.x - s.dx, s.y - s.dy⟩, s.lastElevation, false, 2⟩])
  else (s.risingOrFlat, s.runoffs)

/-- One pass of the `while (true)` border walk of `TreeBuilder::findRunoffs`
(fuel-based; the C++ loop `break`s at the lower-right corner while
traveling right). -/
def frGo (t : Tile) : ℕ → WalkState → List Runoff
  | 0, s => s.runoffs
  | fuel + 1, s =>
    let elev := t.get s.x s.y
    let rr := frRise t s
    if s.x = (t.width : ℤ) - 1 ∧ s.y = 0 then
      let rr2 := if elev ≠ NODATA_ELEVATION then
          (false, rr.2 ++ [⟨⟨s.x, s.y⟩, elev, false, 1⟩])
        else rr
      frGo t fuel ⟨s.x, s.y + 1, 0, 1, rr2.1, elev, rr2.2⟩
    else if s.x = (t.width : ℤ) - 1 ∧ s.y = (t.height : ℤ) - 1 then
      if s.dx = 1 then rr.2
      else
        let rr2 := if elev ≠ NODATA_ELEVATION then rr.2 ++ [⟨⟨s.x, s.y⟩, elev, false, 1⟩]
          else rr.2
        frGo t fuel ⟨0, 1, 0, 1, false, t.get 0 0, rr2⟩
    else if s.x = 0 ∧ s.y = (t.height : ℤ) - 1 then
      let rr2 := if elev ≠ NODATA_ELEVATION then
          (false, rr.2 ++ [⟨⟨s.x, s.y⟩, elev, false, 1⟩])
        else rr
      frGo t fuel ⟨s.x + 1, s.y, 1, 0, rr2.1, elev, rr2.2⟩
    else
      frGo t fuel ⟨s.x + s.dx, s.y + s.dy, s.dx, s.dy, rr.1, elev, rr.2⟩

/-- `TreeBuilder::findRunoffs`: the border walk (starting with the
upper-left corner runoff when its sample is valid), followed by the
`insidePeakArea` pass over the domain map, abstracted as the predicate
`domainPos` (C++ `mDomainMap.get(runoff.location) > 0`). -/
def findRunoffs (t : Tile) (domainPos : OffsetsXY → Bool) : List Runoff :=
  let elev := t.get 0 0
  let init : List Runoff :=
    if elev ≠ NODATA_ELEVATION then [⟨⟨0, 0⟩, elev, false, 1⟩] else []
  (frGo t (2 * (t.width + t.height) + 4) ⟨0, 0, 1, 0, false, elev, init⟩).map
    (fun r => { r with insidePeakArea := domainPos r.location })

lemma frRise_mono (t : Tile) (s : WalkState) (r : Runoff) (h : r ∈ s.runoffs) :
    r ∈ (frRise t s).2 := by
  simp only [frRise]
  split_ifs <;> simp [h]

lemma frGo_mono (t : Tile) :
    ∀ (fuel : ℕ) (s : WalkState) (r : Runoff), r ∈ s.runoffs → r ∈ frGo t fuel s := by
  intro fuel
  induction fuel with
  | zero => intro s r h; exact h
  | succ n ih =>
    intro s r h
    have h1 : r ∈ (frRise t s).2 := frRise_mono t s r h
    simp only [frGo]
    split_ifs <;>
      first
        | exact h1
        | exact ih _ r h1
        | exact ih _ r (by simp [h1])


lemma frGo_LL (t : Tile) (hw : 2 ≤ t.width)
    (hnd : t.get 0 ((t.height : ℤ) - 1) ≠ NODATA_ELEVATION) :
    ∀ (k : ℕ) (fuel : ℕ) (s : WalkState),
      s.x = 0 → s.dx = 0 → s.dy = 1 → s.y = (t.height : ℤ) - 1 - k →
      1 ≤ s.y → k + 1 ≤ fuel →
      (⟨⟨0, (t.height : ℤ) - 1⟩, t.get 0 ((t.height : ℤ) - 1), false, 1⟩ : Runoff)
        ∈ frGo t fuel s := by
  have hW2 : (2 : ℤ) ≤ (t.width : ℤ) := by exact_mod_cast hw
  intro k
  induction k with
  | zero =>
    intro fuel s hx hdx hdy hy hy1 hf
    obtain ⟨n, rfl⟩ : ∃ n, fuel = n + 1 := ⟨fuel - 1, by omega⟩
    have hy2 : s.y = (t.height : ℤ) - 1 := by rw [hy]; norm_num
    simp only [frGo]
    rw [hx, hy2]
    have hc1 : ¬ ((0 : ℤ) = (t.width : ℤ) - 1 ∧ (t.height : ℤ) - 1 = 0) := by
      rintro ⟨h1, _⟩
      omega
    have hc2 : ¬ ((0 : ℤ) = (t.width : ℤ) - 1 ∧ (t.height : ℤ) - 1 = (t.height : ℤ) - 1) := by
      rintro ⟨h1, _⟩
      omega
    rw [if_neg hc1, if_neg hc2, if_pos ⟨rfl, rfl⟩, if_pos hnd]
    exact frGo_mono t n _ _ (by simp)
  | succ m ih =>
    intro fuel s hx hdx hdy hy hy1 hf
    obtain ⟨n, rfl⟩ : ∃ n, fuel = n + 1 := ⟨fuel - 1, by omega⟩
    have hyv : s.y = (t.height : ℤ) - 1 - (m + 1) := by rw [hy]; push_cast; ring
    simp only [frGo]
    have hc1 : ¬ (s.x = (t.width : ℤ) - 1 ∧ s.y = 0) := by
      rintro ⟨h1, _⟩
      rw [hx] at h1
      omega
    have hc2 : ¬ (s.x = (t.width : ℤ) - 1 ∧ s.y = (t.height : ℤ) - 1) := by
      rintro ⟨h1, _⟩
      rw [hx] at h1
      omega
    have hc3 : ¬ (s.x = 0 ∧ s.y = (t.height : ℤ) - 1) := by
      rintro ⟨_, h2⟩
      rw [hyv] at h2
      omega
    rw [if_neg hc1, if_neg hc2, if_neg hc3]
    refine ih n _ ?_ ?_ ?_ ?_ ?_ ?_
    · show s.x + s.dx = 0
      rw [hx, hdx]
      norm_num
    · exact hdx
    · exact hdy
    · show s.y + s.dy = (t.height : ℤ) - 1 - m
      rw [hyv, hdy]
      push_cast
      ring
    · show 1 ≤ s.y + s.dy
      rw [hdy]
      omega
    · omega

lemma frGo_LR (t : Tile) (hh : 2 ≤ t.height)
    (hnd : t.get ((t.width : ℤ) - 1) ((t.height : ℤ) - 1) ≠ NODATA_ELEVATION) :
    ∀ (k : ℕ) (fuel : ℕ) (s : WalkState),
      s.x = (t.width : ℤ) - 1 → s.dx = 0 → s.dy = 1 → s.y = (t.height : ℤ) - 1 - k →
      1 ≤ s.y → k + 1 ≤ fuel →
      (⟨⟨(t.width : ℤ) - 1, (t.height : ℤ) - 1⟩,
          t.get ((t.width : ℤ) - 1) ((t.height : ℤ) - 1), false, 1⟩ : Runoff)
        ∈ frGo t fuel s := by
  have hH2 : (2 : ℤ) ≤ (t.height : ℤ) := by exact_mod_cast hh
  intro k
  induction k with
  | zero =>
    intro fuel s hx hdx hdy hy hy1 hf
    obtain ⟨n, rfl⟩ : ∃ n, fuel = n + 1 := ⟨fuel - 1, by omega⟩
    have hy2 : s.y = (t.height : ℤ) - 1 := by rw [hy]; norm_num
    simp only [frGo]
    rw [hx, hy2]
    have hc1 : ¬ ((t.width : ℤ) - 1 = (t.width : ℤ) - 1 ∧ (t.height : ℤ) - 1 = 0) := by
      rintro ⟨_, h2⟩
      omega
    rw [if_neg hc1, if_pos ⟨rfl, rfl⟩, if_neg (by rw [hdx]; norm_num), if_pos hnd]
    exact frGo_mono t n _ _ (by simp)
  | succ m ih =>
    intro fuel s hx hdx hdy hy hy1 hf
    obtain ⟨n, rfl⟩ : ∃ n, fuel = n + 1 := ⟨fuel - 1, by omega⟩
    have hyv : s.y = (t.height : ℤ) - 1 - (m + 1) := by rw [hy]; push_cast; ring
    simp only [frGo]
    have hc1 : ¬ (s.x = (t.width : ℤ) - 1 ∧ s.y = 0) := by
      rintro ⟨_, h2⟩
      rw [hyv] at h2
      omega
    have hc2 : ¬ (s.x = (t.width : ℤ) - 1 ∧ s.y = (t.height : ℤ) - 1) := by
      rintro ⟨_, h2⟩
      rw [hyv] at h2
      omega
    have hc3 : ¬ (s.x = 0 ∧ s.y = (t.height : ℤ) - 1) := by
      rintro ⟨_, h2⟩
      rw [hyv] at h2
      omega
    rw [if_neg hc1, if_neg hc2, if_neg hc3]
    refine ih n _ ?_ ?_ ?_ ?_ ?_ ?_
    · show s.x + s.dx = (t.width : ℤ) - 1
      rw [hx, hdx]
      ring
    · exact hdx
    · exact hdy
    · show s.y + s.dy = (t.height : ℤ) - 1 - m
      rw [hyv, hdy]
      push_cast
      ring
    · show 1 ≤ s.y + s.dy
      rw [hdy]
      omega
    · omega

lemma frGo_rcLL (t : Tile) (hw : 2 ≤ t.width) (hh : 2 ≤ t.height)
    (hnd : t.get 0 ((t.height : ℤ) - 1) ≠ NODATA_ELEVATION) :
    ∀ (k : ℕ) (fuel : ℕ) (s : WalkState),
      s.x = (t.width : ℤ) - 1 → s.dx = 0 → s.dy = 1 → s.y = (t.height : ℤ) - 1 - k →
      1 ≤ s.y → k + t.height ≤ fuel →
      (⟨⟨0, (t.height : ℤ) - 1⟩, t.get 0 ((t.height : ℤ) - 1), false, 1⟩ : Runoff)
        ∈ frGo t fuel s := by
  have hH2 : (2 : ℤ) ≤ (t.height : ℤ) := by exact_mod_cast hh
  intro k
  induction k with
  | zero =>
    intro fuel s hx hdx hdy hy hy1 hf
    obtain ⟨n, rfl⟩ : ∃ n, fuel = n + 1 := ⟨fuel - 1, by omega⟩
    have hy2 : s.y = (t.height : ℤ) - 1 := by rw [hy]; norm_num
    simp only [frGo]
    rw [hx, hy2]
    have hc1 : ¬ ((t.width : ℤ) - 1 = (t.width : ℤ) - 1 ∧ (t.height : ℤ) - 1 = 0) := by
      rintro ⟨_, h2⟩
      omega
    rw [if_neg hc1, if_pos ⟨rfl, rfl⟩, if_neg (by rw [hdx]; norm_num)]
    refine frGo_LL t hw hnd (t.height - 2) n _ rfl rfl rfl ?_ ?_ ?_
    · show (1 : ℤ) = (t.height : ℤ) - 1 - ((t.height - 2 : ℕ) : ℤ)
      omega
    · show (1 : ℤ) ≤ 1
      omega
    · omega
  | succ m ih =>
    intro fuel s hx hdx hdy hy hy1 hf
    obtain ⟨n, rfl⟩ : ∃ n, fuel = n + 1 := ⟨fuel - 1, by omega⟩
    have hyv : s.y = (t.height : ℤ) - 1 - (m + 1) := by rw [hy]; push_cast; ring
    simp only [frGo]
    have hc1 : ¬ (s.x = (t.width : ℤ) - 1 ∧ s.y = 0) := by
      rintro ⟨_, h2⟩
      rw [hyv] at h2
      omega
    have hc2 : ¬ (s.x = (t.width : ℤ) - 1 ∧ s.y = (t.height : ℤ) - 1) := by
      rintro ⟨_, h2⟩
      rw [hyv] at h2
      omega
    have hc3 : ¬ (s.x = 0 ∧ s.y = (t.height : ℤ) - 1) := by
      rintro ⟨_, h2⟩
      rw [hyv] at h2
      omega
    rw [if_neg hc1, if_neg hc2, if_neg hc3]
    refine ih n _ ?_ ?_ ?_ ?_ ?_ ?_
    · show s.x + s.dx = (t.width : ℤ) - 1
      rw [hx, hdx]
      ring
    · exact hdx
    · exact hdy
    · show s.y + s.dy = (t.height : ℤ) - 1 - m
      rw [hyv, hdy]
      push_cast
      ring
    · show 1 ≤ s.y + s.dy
      rw [hdy]
      omega
    · omega


lemma frGo_topUR (t : Tile) (hh : 2 ≤ t.height)
    (hnd : t.get ((t.width : ℤ) - 1) 0 ≠ NODATA_ELEVATION) :
    ∀ (k : ℕ) (fuel : ℕ) (s : WalkState),
      s.y = 0 → s.dx = 1 → s.dy = 0 → s.x = (t.width : ℤ) - 1 - k → k + 1 ≤ fuel →
      (⟨⟨(t.width : ℤ) - 1, 0⟩, t.get ((t.width : ℤ) - 1) 0, false, 1⟩ : Runoff)
        ∈ frGo t fuel s := by
  have hH2 : (2 : ℤ) ≤ (t.height : ℤ) := by exact_mod_cast hh
  intro k
  induction k with
  | zero =>
    intro fuel s hy hdx hdy hx hf
    obtain ⟨n, rfl⟩ : ∃ n, fuel = n + 1 := ⟨fuel - 1, by omega⟩
    have hx2 : s.x = (t.width : ℤ) - 1 := by rw [hx]; norm_num
    simp only [frGo]
    rw [hx2, hy]
    rw [if_pos ⟨rfl, rfl⟩, if_pos hnd]
    exact frGo_mono t n _ _ (by simp)
  | succ m ih =>
    intro fuel s hy hdx hdy hx hf
    obtain ⟨n, rfl⟩ : ∃ n, fuel = n + 1 := ⟨fuel - 1, by omega⟩
    have hxv : s.x = (t.width : ℤ) - 1 - (m + 1) := by rw [hx]; push_cast; ring
    simp only [frGo]
    have hc1 : ¬ (s.x = (t.width : ℤ) - 1 ∧ s.y = 0) := by
      rintro ⟨h1, _⟩
      rw [hxv] at h1
      omega
    have hc2 : ¬ (s.x = (t.width : ℤ) - 1 ∧ s.y = (t.height : ℤ) - 1) := by
      rintro ⟨h1, _⟩
      rw [hxv] at h1
      omega
    have hc3 : ¬ (s.x = 0 ∧ s.y = (t.height : ℤ) - 1) := by
      rintro ⟨_, h2⟩
      rw [hy] at h2
      omega
    rw [if_neg hc1, if_neg hc2, if_neg hc3]
    refine ih n _ ?_ ?_ ?_ ?_ ?_
    · show s.y + s.dy = 0
      rw [hy, hdy]
      norm_num
    · exact hdx
    · exact hdy
    · show s.x + s.dx = (t.width : ℤ) - 1 - m
      rw [hxv, hdx]
      push_cast
      ring
    · omega

lemma frGo_topLR (t : Tile) (hh : 2 ≤ t.height)
    (hnd : t.get ((t.width : ℤ) - 1) ((t.height : ℤ) - 1) ≠ NODATA_ELEVATION) :
    ∀ (k : ℕ) (fuel : ℕ) (s : WalkState),
      s.y = 0 → s.dx = 1 → s.dy = 0 → s.x = (t.width : ℤ) - 1 - k →
      k + t.height + 1 ≤ fuel →
      (⟨⟨(t.width : ℤ) - 1, (t.height : ℤ) - 1⟩,
          t.get ((t.width : ℤ) - 1) ((t.height : ℤ) - 1), false, 1⟩ : Runoff)
        ∈ frGo t fuel s := by
  have hH2 : (2 : ℤ) ≤ (t.height : ℤ) := by exact_mod_cast hh
  intro k
  induction k with
  | zero =>
    intro fuel s hy hdx hdy hx hf
    obtain ⟨n, rfl⟩ : ∃ n, fuel = n + 1 := ⟨fuel - 1, by omega⟩
    have hx2 : s.x = (t.width : ℤ) - 1 := by rw [hx]; norm_num
    simp only [frGo]
    rw [hx2, hy]
    rw [if_pos ⟨rfl, rfl⟩]
    refine frGo_LR t hh hnd (t.height - 2) n _ rfl rfl rfl ?_ ?_ ?_
    · show (0 : ℤ) + 1 = (t.height : ℤ) - 1 - ((t.height - 2 : ℕ) : ℤ)
      omega
    · show (1 : ℤ) ≤ 0 + 1
      omega
    · omega
  | succ m ih =>
    intro fuel s hy hdx hdy hx hf
    obtain ⟨n, rfl⟩ : ∃ n, fuel = n + 1 := ⟨fuel - 1, by omega⟩
    have hxv : s.x = (t.width : ℤ) - 1 - (m + 1) := by rw [hx]; push_cast; ring
    simp only [frGo]
    have hc1 : ¬ (s.x = (t.width : ℤ) - 1 ∧ s.y = 0) := by
      rintro ⟨h1, _⟩
      rw [hxv] at h1
      omega
    have hc2 : ¬ (s.x = (t.width : ℤ) - 1 ∧ s.y = (t.height : ℤ) - 1) := by
      rintro ⟨h1, _⟩
      rw [hxv] at h1
      omega
    have hc3 : ¬ (s.x = 0 ∧ s.y = (t.height : ℤ) - 1) := by
      rintro ⟨_, h2⟩
      rw [hy] at h2
      omega
    rw [if_neg hc1, if_neg hc2, if_neg hc3]
    refine ih n _ ?_ ?_ ?_ ?_ ?_
    · show s.y + s.dy = 0
      rw [hy, hdy]
      norm_num
    · exact hdx
    · exact hdy
    · show s.x + s.dx = (t.width : ℤ) - 1 - m
      rw [hxv, hdx]
      push_cast
      ring
    · omega

lemma frGo_topLL (t : Tile) (hw : 2 ≤ t.width) (hh : 2 ≤ t.height)
    (hnd : t.get 0 ((t.height : ℤ) - 1) ≠ NODATA_ELEVATION) :
    ∀ (k : ℕ) (fuel : ℕ) (s : WalkState),
      s.y = 0 → s.dx = 1 → s.dy = 0 → s.x = (t.width : ℤ) - 1 - k →
      k + 2 * t.height ≤ fuel →
      (⟨⟨0, (t.height : ℤ) - 1⟩, t.get 0 ((t.height : ℤ) - 1), false, 1⟩ : Runoff)
        ∈ frGo t fuel s := by
  have hH2 : (2 : ℤ) ≤ (t.height : ℤ) := by exact_mod_cast hh
  intro k
  induction k with
  | zero =>
    intro fuel s hy hdx hdy hx hf
    obtain ⟨n, rfl⟩ : ∃ n, fuel = n + 1 := ⟨fuel - 1, by omega⟩
    have hx2 : s.x = (t.width : ℤ) - 1 := by rw [hx]; norm_num
    simp only [frGo]
    rw [hx2, hy]
    rw [if_pos ⟨rfl, rfl⟩]
    refine frGo_rcLL t hw hh hnd (t.height - 2) n _ rfl rfl rfl ?_ ?_ ?_
    · show (0 : ℤ) + 1 = (t.height : ℤ) - 1 - ((t.height - 2 : ℕ) : ℤ)
      omega
    · show (1 : ℤ) ≤ 0 + 1
      omega
    · omega
  | succ m ih =>
    intro fuel s hy hdx hdy hx hf
    obtain ⟨n, rfl⟩ : ∃ n, fuel = n + 1 := ⟨fuel - 1, by omega⟩
    have hxv : s.x = (t.width : ℤ) - 1 - (m + 1) := by rw [hx]; push_cast; ring
    simp only [frGo]
    have hc1 : ¬ (s.x = (t.width : ℤ) - 1 ∧ s.y = 0) := by
      rintro ⟨h1, _⟩
      rw [hxv] at h1
      omega
    have hc2 : ¬ (s.x = (t.width : ℤ) - 1 ∧ s.y = (t.height : ℤ) - 1) := by
      rintro ⟨h1, _⟩
      rw [hxv] at h1
      omega
    have hc3 : ¬ (s.x = 0 ∧ s.y = (t.height : ℤ) - 1) := by
      rintro ⟨_, h2⟩
      rw [hy] at h2
      omega
    rw [if_neg hc1, if_neg hc2, if_neg hc3]
    refine ih n _ ?_ ?_ ?_ ?_ ?_
    · show s.y + s.dy = 0
      rw [hy, hdy]
      norm_num
    · exact hdx
    · exact hdy
    · show s.x + s.dx = (t.width : ℤ) - 1 - m
      rw [hxv, hdx]
      push_cast
      ring
    · omega


lemma mem_findRunoffs_of_walk (t : Tile) (domainPos : OffsetsXY → Bool) (r : Runoff)
    (h : r ∈ frGo t (2 * (t.width + t.height) + 4)
        ⟨0, 0, 1, 0, false, t.get 0 0,
          if t.get 0 0 ≠ NODATA_ELEVATION then [⟨⟨0, 0⟩, t.get 0 0, false, 1⟩] else []⟩) :
    ∃ r2 ∈ findRunoffs t domainPos,
      r2.location = r.location ∧ r2.elevation = r.elevation
      ∧ r2.filledQuadrants = r.filledQuadrants := by
  refine ⟨{ r with insidePeakArea := domainPos r.location }, ?_, rfl, rfl, rfl⟩
  simp only [findRunoffs]
  exact List.mem_map_of_mem _ h

/-- Claim C7 (amended): on every tile at least 2 samples wide and high, the
border walk emits a runoff with `filledQuadrants = 1`, carrying the
corner's location and elevation, at each of the four tile corners whose
elevation sample is not NODATA; a corner whose sample is NODATA gets no
such runoff. -/
theorem findRunoffs_spec (t : Tile) (domainPos : OffsetsXY → Bool)
    (hw : 2 ≤ t.width) (hh : 2 ≤ t.height) :
    (t.get 0 0 ≠ NODATA_ELEVATION → ∃ r ∈ findRunoffs t domainPos,
        r.location = ⟨0, 0⟩ ∧ r.elevation = t.get 0 0 ∧ r.filledQuadrants = 1)
    ∧ (t.get ((t.width : ℤ) - 1) 0 ≠ NODATA_ELEVATION → ∃ r ∈ findRunoffs t domainPos,
        r.location = ⟨(t.width : ℤ) - 1, 0⟩
        ∧ r.elevation = t.get ((t.width : ℤ) - 1) 0 ∧ r.filledQuadrants = 1)
    ∧ (t.get 0 ((t.height : ℤ) - 1) ≠ NODATA_ELEVATION → ∃ r ∈ findRunoffs t domainPos,
        r.location = ⟨0, (t.height : ℤ) - 1⟩
        ∧ r.elevation = t.get 0 ((t.height : ℤ) - 1) ∧ r.filledQuadrants = 1)
    ∧ (t.get ((t.width : ℤ) - 1) ((t.height : ℤ) - 1) ≠ NODATA_ELEVATION →
        ∃ r ∈ findRunoffs t domainPos,
        r.location = ⟨(t.width : ℤ) - 1, (t.height : ℤ) - 1⟩
        ∧ r.elevation = t.get ((t.width : ℤ) - 1) ((t.height : ℤ) - 1)
        ∧ r.filledQuadrants = 1) := by
  refine ⟨?_, ?_, ?_, ?_⟩
  · intro hnd
    apply mem_findRunoffs_of_walk t domainPos ⟨⟨0, 0⟩, t.get 0 0, false, 1⟩
    apply frGo_mono
    show _ ∈ (if t.get 0 0 ≠ NODATA_ELEVATION then [(⟨⟨0, 0⟩, t.get 0 0, false, 1⟩ : Runoff)]
      else [])
    rw [if_pos hnd]
    simp
  · intro hnd
    apply mem_findRunoffs_of_walk t domainPos
      ⟨⟨(t.width : ℤ) - 1, 0⟩, t.get ((t.width : ℤ) - 1) 0, false, 1⟩
    refine frGo_topUR t hh hnd (t.width - 1) _ _ rfl rfl rfl ?_ ?_
    · show (0 : ℤ) = (t.width : ℤ) - 1 - ((t.width - 1 : ℕ) : ℤ)
      omega
    · omega
  · intro hnd
    apply mem_findRunoffs_of_walk t domainPos
      ⟨⟨0, (t.height : ℤ) - 1⟩, t.get 0 ((t.height : ℤ) - 1), false, 1⟩
    refine frGo_topLL t hw hh hnd (t.width - 1) _ _ rfl rfl rfl ?_ ?_
    · show (0 : ℤ) = (t.width : ℤ) - 1 - ((t.width - 1 : ℕ) : ℤ)
      omega
    · omega
  · intro hnd
    apply mem_findRunoffs_of_walk t domainPos
      ⟨⟨(t.width : ℤ) - 1, (t.height : ℤ) - 1⟩,
        t.get ((t.width : ℤ) - 1) ((t.height : ℤ) - 1), false, 1⟩
    refine frGo_topLR t hh hnd (t.width - 1) _ _ rfl rfl rfl ?_ ?_
    · show (0 : ℤ) = (t.width : ℤ) - 1 - ((t.width - 1 : ℕ) : ℤ)
      omega
    · omega

/-- A 2x2 tile whose samples are all NODATA. -/
def frCxTile : Tile :=
  ⟨2, 2, [NODATA_ELEVATION, NODATA_ELEVATION, NODATA_ELEVATION, NODATA_ELEVATION]⟩

/-- Counterexample to the unconditional corner claim: on an all-NODATA
tile the border walk emits no runoff at all, in particular none at the
upper-left corner. -/
theorem findRunoffs_counterexample :
    2 ≤ frCxTile.width ∧ 2 ≤ frCxTile.height
    ∧ findRunoffs frCxTile (fun _ => false) = []
    ∧ ¬ ∃ r ∈ findRunoffs frCxTile (fun _ => false), r.location = ⟨0, 0⟩ := by
  have hempty : findRunoffs frCxTile (fun _ => false) = [] := by
    decide
  exact ⟨by norm_num [frCxTile], by norm_num [frCxTile], hempty, by simp [hempty]⟩


/-- A 2x2 tile with valid data everywhere. -/
def frWitTile : Tile := ⟨2, 2, [1, 2, 3, 4]⟩

/-- Witness: the corner-runoff theorem applied to a concrete 2x2 tile. -/
theorem findRunoffs_spec_witness :
    (frWitTile.get 0 0 ≠ NODATA_ELEVATION → ∃ r ∈ findRunoffs frWitTile (fun _ => false),
        r.location = ⟨0, 0⟩ ∧ r.elevation = frWitTile.get 0 0 ∧ r.filledQuadrants = 1)
    ∧ (frWitTile.get ((frWitTile.width : ℤ) - 1) 0 ≠ NODATA_ELEVATION →
        ∃ r ∈ findRunoffs frWitTile (fun _ => false),
        r.location = ⟨(frWitTile.width : ℤ) - 1, 0⟩
        ∧ r.elevation = frWitTile.get ((frWitTile.width : ℤ) - 1) 0 ∧ r.filledQuadrants = 1)
    ∧ (frWitTile.get 0 ((frWitTile.height : ℤ) - 1) ≠ NODATA_ELEVATION →
        ∃ r ∈ findRunoffs frWitTile (fun _ => false),
        r.location = ⟨0, (frWitTile.height : ℤ) - 1⟩
        ∧ r.elevation = frWitTile.get 0 ((frWitTile.height : ℤ) - 1) ∧ r.filledQuadrants = 1)
    ∧ (frWitTile.get ((frWitTile.width : ℤ) - 1) ((frWitTile.height : ℤ) - 1)
          ≠ NODATA_ELEVATION →
        ∃ r ∈ findRunoffs frWitTile (fun _ => false),
        r.location = ⟨(frWitTile.width : ℤ) - 1, (frWitTile.height : ℤ) - 1⟩
        ∧ r.elevation = frWitTile.get ((frWitTile.width : ℤ) - 1) ((frWitTile.height : ℤ) - 1)
        ∧ r.filledQuadrants = 1) :=
  findRunoffs_spec frWitTile (fun _ => false) (by decide) (by decide)


/-! ### LineTree (line_tree.cpp) -/

def HUGE_ELEVATION : Elevation := 32000

def UNDEFINED_ELEVATION : Elevation := -10000

/-- `LineTree::Node`. -/
structure LTNode where
  parentId : ℤ
  childId : ℤ
  saddleId : ℤ
  lowestElevationSaddleChildDir : Elevation
  lowestElevationSaddleParentDir : Elevation
  runoffId : ℤ
  deriving Repr, DecidableEq

instance : Inhabited LTNode := ⟨⟨0, 0, 0, 0, 0, 0⟩⟩

/-- The line tree's mutable state: node array and per-saddle prominence
array (`mSaddleInfo`, each entry just an `Elevation`). -/
structure LTState where
  nodes : List LTNode
  saddleInfo : List Elevation
  deriving Repr, DecidableEq

def ltGetNode (nodes : List LTNode) (i : ℤ) : LTNode := nodes.getD i.toNat default

def ltSetNode (nodes : List LTNode) (i : ℤ) (n : LTNode) : List LTNode := nodes.set i.toNat n

/-- `LineTree::getSaddleForPeakId`. -/
def getSaddleForPeakId (t : DivideTree) (peakId : ℤ) : Saddle :=
  getSaddle t (getNode t.nodes peakId).saddleId

/-- `LineTree::peakIdForRunoff`. -/
def peakIdForRunoff (t : DivideTree) (runoffId : ℕ) : ℤ := t.runoffEdges.getD runoffId 0

/-- `LineTree::getRunoff`. -/
def ltGetRunoff (t : DivideTree) (runoffId : ℤ) : Runoff := t.runoffs.getD runoffId.toNat default

/-- The initialization at the top of `LineTree::build`: node 0 is
value-initialized to all zeroes by `resize`, nodes 1.. copy the divide
tree's parent links, and every saddle prominence starts UNDEFINED. -/
def ltInit (t : DivideTree) : LTState :=
  { nodes := (List.range t.nodes.length).map (fun i =>
      if i = 0 then ⟨0, 0, 0, 0, 0, 0⟩
      else ⟨(getNode t.nodes (i : ℤ)).parentId, NullId, (i : ℤ),
        UNDEFINED_ELEVATION, UNDEFINED_ELEVATION, NullId⟩)
  , saddleInfo := List.replicate t.saddles.length UNDEFINED_ELEVATION }

/-- The climb-to-root loop of `computeOffMapSaddleProminence`, tracking
`(nodeId, lowestSaddleOwner, lowestSaddleElevation)`. -/
def offWalk (t : DivideTree) (nodes : List LTNode) : ℕ → ℤ → ℤ → Elevation → ℤ × ℤ × Elevation
  | 0, nodeId, owner, lowest => (nodeId, owner, lowest)
  | fuel + 1, nodeId, owner, lowest =>
    let node := ltGetNode nodes nodeId
    if node.parentId = NullId then (nodeId, owner, lowest)
    else
      let saddleElevation := (getSaddleForPeakId t node.saddleId).elevation
      if saddleElevation < lowest then offWalk t nodes fuel node.parentId nodeId saddleElevation
      else offWalk t nodes fuel node.parentId owner lowest

/-- The saddle-marking loop of `computeOffMapSaddleProminence`: saddles at
or below the lowest runoff elevation get the HUGE sentinel (first writer
wins). -/
def offMark (t : DivideTree) (nodes : List LTNode) (lowest : Elevation) :
    ℕ → ℤ → ℤ → List Elevation → List Elevation
  | 0, _, _, si => si
  | fuel + 1, nid, stopId, si =>
    if nid = stopId then si
    else
      let saddleOwnerId := (ltGetNode nodes nid).saddleId
      let saddleElevation := (getSaddleForPeakId t saddleOwnerId).elevation
      let idx := ((getNode t.nodes saddleOwnerId).saddleId - 1).toNat
      let si2 := if saddleElevation ≤ lowest ∧ si.getD idx 0 = UNDEFINED_ELEVATION
        then si.set idx HUGE_ELEVATION else si
      offMark t nodes lowest fuel (ltGetNode nodes nid).parentId stopId si2

/-- The link-reversing loop of `LineTree::reversePath`. -/
def ltReverseGo : ℕ → List LTNode → ℤ → ℤ → ℤ → ℤ → List LTNode
  | 0, nodes, _, _, _, _ => nodes
  | fuel + 1, nodes, peakId, parentId, saddleOwnerId, endId =>
    if peakId = endId then nodes
    else
      let grandparentId := (ltGetNode nodes parentId).parentId
      let temp := (ltGetNode nodes parentId).saddleId
      let nodes2 := ltSetNode nodes parentId
        ({ ltGetNode nodes parentId with parentId := peakId, saddleId := saddleOwnerId })
      ltReverseGo fuel nodes2 parentId grandparentId temp endId

/-- `LineTree::reversePath`. -/
def ltReversePath (nodes : List LTNode) (startId endId : ℤ) : List LTNode :=
  if startId ≠ endId then
    let saddleOwnerId := (ltGetNode nodes startId).saddleId
    let nodes1 := ltSetNode nodes startId
      ({ ltGetNode nodes startId with saddleId := (ltGetNode nodes endId).saddleId })
    ltReverseGo (nodes.length + 1) nodes1 startId (ltGetNode nodes1 startId).parentId
      saddleOwnerId endId
  else nodes

/-- The body of the runoff loop in
`LineTree::computeOffMapSaddleProminence`. -/
def offMapStep (t : DivideTree) (st : LTState) (runoffIndex : ℕ) : LTState :=
  let peakId := peakIdForRunoff t runoffIndex
  if peakId = NullId then st
  else
    let w := offWalk t st.nodes (st.nodes.length + 1) peakId NullId
      (ltGetRunoff t (runoffIndex : ℤ)).elevation
    let rootId := w.1
    let res :=
      if (ltGetNode st.nodes rootId).runoffId = NullId then (rootId, st.saddleInfo)
      else
        let runoff2 := ltGetRunoff t (ltGetNode st.nodes rootId).runoffId
        let ol := if runoff2.elevation < w.2.2 then (rootId, runoff2.elevation)
          else (w.2.1, w.2.2)
        (ol.1, offMark t st.nodes ol.2 (st.nodes.length + 1) peakId rootId st.saddleInfo)
    if res.1 ≠ NullId then
      { nodes := ltSetNode (ltReversePath st.nodes peakId res.1) peakId
          ({ ltGetNode (ltReversePath st.nodes peakId res.1) peakId with
              runoffId := (runoffIndex : ℤ), parentId := NullId }),
        saddleInfo := res.2 }
    else { st with saddleInfo := res.2 }

/-- `LineTree::computeOffMapSaddleProminence`. -/
def computeOffMapSaddleProminence (t : DivideTree) (st : LTState) : LTState :=
  (List.range t.runoffs.length).foldl (offMapStep t) st

/-- The result of the do-while climb in
`computeOnMapSaddleProminence`. -/
structure OnWalkRes where
  nodes : List LTNode
  nodeId : ℤ
  owner : ℤ
  lowest : Elevation
  runoffIdx : ℤ
  deriving Repr

/-- The do-while climb of `computeOnMapSaddleProminence`: stops at the
root (recording a runoff if one points there) or at the first strictly
higher ancestor peak. -/
def onWalkGo (t : DivideTree) (startId : ℤ) :
    ℕ → List LTNode → ℤ → ℤ → Elevation → ℤ → OnWalkRes
  | 0, nodes, nodeId, owner, lowest, rIdx => ⟨nodes, nodeId, owner, lowest, rIdx⟩
  | fuel + 1, nodes, nodeId, owner, lowest, rIdx =>
    let node := ltGetNode nodes nodeId
    if node.parentId = NullId then
      if node.runoffId = NullId then ⟨nodes, nodeId, nodeId, lowest, rIdx⟩
      else
        let r := ltGetRunoff t node.runoffId
        if r.elevation < lowest then ⟨nodes, nodeId, nodeId, r.elevation, node.runoffId⟩
        else ⟨nodes, nodeId, owner, lowest, node.runoffId⟩
    else
      let nodes1 := ltSetNode nodes nodeId
        ⟨node.parentId, node.childId, node.saddleId, lowest, -HUGE_ELEVATION, node.runoffId⟩
      let nodes2 := ltSetNode nodes1 node.parentId
        ({ ltGetNode nodes1 node.parentId with childId := nodeId })
      let saddleElev := (getSaddleForPeakId t node.saddleId).elevation
      let ol := if saddleElev < lowest then (nodeId, saddleElev) else (owner, lowest)
      if (getPeak t node.parentId).elevation < (getPeak t startId).elevation then
        onWalkGo t startId fuel nodes2 node.parentId ol.1 ol.2 rIdx
      else ⟨nodes2, node.parentId, ol.1, ol.2, rIdx⟩

/-- The loop of `LineTree::propagateLowestInterveningSaddle`. -/
def ltPropagate (t : DivideTree) : ℕ → List LTNode → ℤ → Elevation → List LTNode
  | 0, nodes, _, _ => nodes
  | fuel + 1, nodes, nodeId, elev =>
    let neighborId := (ltGetNode nodes nodeId).childId
    if neighborId = NullId then nodes
    else
      let saddleOwnerPeakId :=
        if neighborId = (getNode t.nodes nodeId).parentId then nodeId else neighborId
      let saddleElev := (getSaddleForPeakId t saddleOwnerPeakId).elevation
      let elev2 := min elev saddleElev
      if elev2 ≤ (ltGetNode nodes neighborId).lowestElevationSaddleParentDir then nodes
      else
        let nb := ltGetNode nodes neighborId
        let nodes2 := ltSetNode nodes neighborId
          ({ nb with lowestElevationSaddleParentDir := max nb.lowestElevationSaddleParentDir elev2 })
        ltPropagate t fuel nodes2 neighborId elev2

/-- `LineTree::propagateLowestInterveningSaddle`. -/
def propagateLowestInterveningSaddle (t : DivideTree) (nodes : List LTNode) (originId : ℤ) :
    List LTNode :=
  ltPropagate t (nodes.length + 1) nodes originId
    (ltGetNode nodes originId).lowestElevationSaddleParentDir

/-- The saddle-marking loop of `computeOnMapSaddleProminence`: saddles on
the walked path get prominence `startElev - saddleElev` if not already
defined. -/
def onMark (t : DivideTree) (nodes : List LTNode) (startElev : Elevation) :
    ℕ → ℤ → ℤ → List Elevation → List Elevation
  | 0, _, _, si => si
  | fuel + 1, nid, stopId, si =>
    if nid = stopId then si
    else
      let saddleOwnerId := (ltGetNode nodes nid).saddleId
      let lowest := min (ltGetNode nodes nid).lowestElevationSaddleChildDir
        (ltGetNode nodes (ltGetNode nodes nid).parentId).lowestElevationSaddleParentDir
      let saddleElev := (getSaddleForPeakId t saddleOwnerId).elevation
      let idx := ((getNode t.nodes saddleOwnerId).saddleId - 1).toNat
      let si2 := if saddleElev ≤ lowest ∧ si.getD idx 0 = UNDEFINED_ELEVATION
        then si.set idx (startElev - saddleElev) else si
      onMark t nodes startElev fuel (ltGetNode nodes nid).parentId stopId si2

/-- The body of the sorted-peak loop in
`LineTree::computeOnMapSaddleProminence`. -/
def onMapStep (t : DivideTree) (st : LTState) (i : ℕ) : LTState :=
  let startId : ℤ := (i : ℤ) + 1
  let nodes0 := ltSetNode st.nodes startId ({ ltGetNode st.nodes startId with childId := NullId })
  let w := onWalkGo t startId (nodes0.length + 1) nodes0 startId NullId HUGE_ELEVATION NullId
  let res :=
    if w.nodeId ≠ NullId then
      let nodes1 := ltSetNode w.nodes w.nodeId
        ({ ltGetNode w.nodes w.nodeId with lowestElevationSaddleParentDir :=
            (if w.runoffIdx = NullId then HUGE_ELEVATION
              else (ltGetRunoff t w.runoffIdx).elevation) })
      let nodes2 := propagateLowestInterveningSaddle t nodes1 w.nodeId
      let si2 := onMark t nodes2 (getPeak t startId).elevation (nodes2.length + 1)
        startId w.nodeId st.saddleInfo
      (nodes2, si2)
    else (w.nodes, st.saddleInfo)
  if startId ≠ w.nodeId then
    let nodes4 := ltReversePath res.1 startId w.owner
    let nodes5 := ltSetNode nodes4 startId ({ ltGetNode nodes4 startId with parentId := w.nodeId })
    let nodes6 := if w.nodeId = w.owner then
        ltSetNode nodes5 w.nodeId ({ ltGetNode nodes5 w.nodeId with parentId := NullId })
      else nodes5
    ⟨nodes6, res.2⟩
  else ⟨res.1, res.2⟩

/-- Insertion into a list of peak indices kept in decreasing elevation
order. -/
def ltInsert (t : DivideTree) (i : ℕ) : List ℕ → List ℕ
  | [] => [i]
  | j :: rest =>
    if (getPeak t ((j : ℤ) + 1)).elevation < (getPeak t ((i : ℤ) + 1)).elevation then
      i :: j :: rest
    else j :: ltInsert t i rest

/-- The peak indices `0 .. size-1` sorted by strictly decreasing
elevation; the C++ `std::sort` with comparator
`elevation(i1+1) > elevation(i2+1)` leaves the order of equal-elevation
peaks unspecified, refined here to a stable insertion sort. -/
def ltSortedPeakIndices (t : DivideTree) : List ℕ :=
  (List.range t.peaks.length).foldr (ltInsert t) []

/-- `LineTree::computeOnMapSaddleProminence`. -/
def computeOnMapSaddleProminence (t : DivideTree) (st : LTState) : LTState :=
  (ltSortedPeakIndices t).foldl (onMapStep t) st

/-- `LineTree::build` (minus the topology resize, folded into `ltInit`). -/
def ltBuild (t : DivideTree) : LTState :=
  computeOnMapSaddleProminence t (computeOffMapSaddleProminence t (ltInit t))

/-- `LineTree::saddleHasMinProminence`. -/
def saddleHasMinProminence (st : LTState) (saddleId : ℤ) (minProminence : Elevation) : Bool :=
  decide (minProminence ≤ st.saddleInfo.getD (saddleId - 1).toNat 0)


lemma getD_set_or (si : List Elevation) (i k : ℕ) (v : Elevation) :
    (si.set i v).getD k 0 = si.getD k 0 ∨ (si.set i v).getD k 0 = v := by
  by_cases h : i = k
  · subst h
    by_cases hk : i < si.length
    · right
      rw [List.getD_eq_getElem?_getD, List.getElem?_set_eq_of_lt _ hk]
      rfl
    · left
      rw [List.getD_eq_default _ _ (by simp only [List.length_set]; omega),
        List.getD_eq_default _ _ (by omega)]
  · left
    rw [List.getD_eq_getElem?_getD, List.getElem?_set_ne h, ← List.getD_eq_getElem?_getD]

lemma getD_set_pres (si : List Elevation) (i k : ℕ) (v : Elevation)
    (h : si.getD k 0 ≠ UNDEFINED_ELEVATION)
    (hguard : si.getD i 0 = UNDEFINED_ELEVATION) :
    (si.set i v).getD k 0 = si.getD k 0 := by
  have hik : i ≠ k := by
    rintro rfl
    exact h hguard
  rw [List.getD_eq_getElem?_getD, List.getElem?_set_ne hik, ← List.getD_eq_getElem?_getD]

/-- The saddle-prominence array holds only UNDEFINED or the HUGE
sentinel. -/
def SIOnlyHuge (si : List Elevation) : Prop :=
  ∀ k : ℕ, k < si.length →
    si.getD k 0 = UNDEFINED_ELEVATION ∨ si.getD k 0 = HUGE_ELEVATION

lemma offMark_onlyHuge (t : DivideTree) (nodes : List LTNode) (lowest : Elevation) :
    ∀ (fuel : ℕ) (nid stopId : ℤ) (si : List Elevation), SIOnlyHuge si →
    SIOnlyHuge (offMark t nodes lowest fuel nid stopId si) := by
  intro fuel
  induction fuel with
  | zero => intro _ _ si h; exact h
  | succ n ih =>
    intro nid stopId si h
    simp only [offMark]
    split_ifs with h1 h2
    · exact h
    · apply ih
      intro k hk
      rw [List.length_set] at hk
      rcases getD_set_or si _ k HUGE_ELEVATION with he | he
      · rw [he]
        exact h k hk
      · rw [he]
        right
        rfl
    · exact ih _ _ _ h

lemma offMapStep_onlyHuge (t : DivideTree) (st : LTState) (i : ℕ)
    (h : SIOnlyHuge st.saddleInfo) : SIOnlyHuge (offMapStep t st i).saddleInfo := by
  simp only [offMapStep]
  split_ifs <;> first
    | exact h
    | exact offMark_onlyHuge t _ _ _ _ _ _ h

lemma offMap_onlyHuge (t : DivideTree) (st : LTState) (h : SIOnlyHuge st.saddleInfo) :
    SIOnlyHuge (computeOffMapSaddleProminence t st).saddleInfo := by
  unfold computeOffMapSaddleProminence
  generalize List.range t.runoffs.length = l
  induction l generalizing st with
  | nil => exact h
  | cons a as ih => exact ih _ (offMapStep_onlyHuge t st a h)

lemma ltInit_onlyHuge (t : DivideTree) : SIOnlyHuge (ltInit t).saddleInfo := by
  intro k hk
  left
  show (List.replicate t.saddles.length UNDEFINED_ELEVATION).getD k 0 = _
  simp only [ltInit, List.length_replicate] at hk
  rw [List.getD_eq_getElem _ _ (by simpa using hk)]
  simp

lemma onMark_pres (t : DivideTree) (nodes : List LTNode) (startElev : Elevation) :
    ∀ (fuel : ℕ) (nid stopId : ℤ) (si : List Elevation) (k : ℕ),
    si.getD k 0 ≠ UNDEFINED_ELEVATION →
    (onMark t nodes startElev fuel nid stopId si).getD k 0 = si.getD k 0 := by
  intro fuel
  induction fuel with
  | zero => intro _ _ si k _; rfl
  | succ n ih =>
    intro nid stopId si k h
    simp only [onMark]
    split_ifs with h1 h2
    · rfl
    · rw [ih _ _ _ k (by rwa [getD_set_pres _ _ _ _ h h2.2]),
        getD_set_pres _ _ _ _ h h2.2]
    · exact ih _ _ _ k h

lemma onMapStep_pres (t : DivideTree) (st : LTState) (i : ℕ) (k : ℕ)
    (h : st.saddleInfo.getD k 0 ≠ UNDEFINED_ELEVATION) :
    (onMapStep t st i).saddleInfo.getD k 0 = st.saddleInfo.getD k 0 := by
  simp only [onMapStep]
  split_ifs <;> first
    | rfl
    | exact onMark_pres t _ _ _ _ _ _ k h

lemma onMap_pres (t : DivideTree) (st : LTState) (k : ℕ)
    (h : st.saddleInfo.getD k 0 ≠ UNDEFINED_ELEVATION) :
    (computeOnMapSaddleProminence t st).saddleInfo.getD k 0 = st.saddleInfo.getD k 0 := by
  unfold computeOnMapSaddleProminence
  generalize ltSortedPeakIndices t = l
  induction l generalizing st with
  | nil => rfl
  | cons a as ih =>
    show (List.foldl (onMapStep t) (onMapStep t st a) as).saddleInfo.getD k 0 = _
    rw [ih _ (by rw [onMapStep_pres t st a k h]; exact h), onMapStep_pres t st a k h]


/-- Claim C4 (amended): the off-map prominence pass writes only the HUGE
sentinel (32000), the on-map pass never overwrites an already-defined
entry, and for a saddle whose built prominence is the HUGE sentinel,
`saddleHasMinProminence` returns true exactly for thresholds up to
`HUGE_ELEVATION` (so not for every finite threshold). -/
theorem lineTree_spec (t : DivideTree) :
    (∀ k : ℕ, k < (computeOffMapSaddleProminence t (ltInit t)).saddleInfo.length →
      (computeOffMapSaddleProminence t (ltInit t)).saddleInfo.getD k 0 = UNDEFINED_ELEVATION
      ∨ (computeOffMapSaddleProminence t (ltInit t)).saddleInfo.getD k 0 = HUGE_ELEVATION)
    ∧ (∀ k : ℕ,
        (computeOffMapSaddleProminence t (ltInit t)).saddleInfo.getD k 0
          ≠ UNDEFINED_ELEVATION →
        (ltBuild t).saddleInfo.getD k 0
          = (computeOffMapSaddleProminence t (ltInit t)).saddleInfo.getD k 0)
    ∧ (∀ (sid : ℤ) (minProm : Elevation),
        (ltBuild t).saddleInfo.getD (sid - 1).toNat 0 = HUGE_ELEVATION →
        (saddleHasMinProminence (ltBuild t) sid minProm = true ↔ minProm ≤ HUGE_ELEVATION)) := by
  refine ⟨offMap_onlyHuge t (ltInit t) (ltInit_onlyHuge t), ?_, ?_⟩
  · intro k h
    exact onMap_pres t _ k h
  · intro sid minProm h
    unfold saddleHasMinProminence
    rw [h]
    exact decide_eq_true_iff

/-- A divide tree with two peaks, one saddle between them, and two
runoffs, arranged so that the off-map pass marks the saddle HUGE. -/
def ltCxTree : DivideTree :=
  { peaks := [⟨⟨0, 0⟩, 30⟩, ⟨⟨1, 0⟩, 20⟩]
  , saddles := [⟨⟨2, 0⟩, 3, SaddleType.prom⟩]
  , runoffs := [⟨⟨0, 1⟩, 5, false, 2⟩, ⟨⟨1, 1⟩, 6, false, 2⟩]
  , nodes := [⟨NullId, NullId⟩, ⟨NullId, NullId⟩, ⟨1, 1⟩]
  , runoffEdges := [1, 2] }

/-- Counterexample to the absolute-sentinel reading: a saddle whose built
prominence is the HUGE sentinel passes a threshold of 32000 but fails the
finite threshold 32001, because `HUGE_ELEVATION` is the finite value
32000. -/
theorem lineTree_counterexample :
    (ltBuild ltCxTree).saddleInfo.getD 0 0 = HUGE_ELEVATION
    ∧ saddleHasMinProminence (ltBuild ltCxTree) 1 32000 = true
    ∧ saddleHasMinProminence (ltBuild ltCxTree) 1 32001 = false := by
  refine ⟨by decide, by decide, by decide⟩

/-- Witness: the HUGE-marked saddle of `ltCxTree` passes thresholds up to
32000. -/
theorem lineTree_spec_witness :
    (ltBuild ltCxTree).saddleInfo.getD ((1 : ℤ) - 1).toNat 0 = HUGE_ELEVATION
    ∧ (saddleHasMinProminence (ltBuild ltCxTree) 1 5 = true ↔ (5 : Elevation) ≤ HUGE_ELEVATION) :=
  ⟨by decide, (lineTree_spec ltCxTree).2.2 1 5 (by decide)⟩


/-! ### writeToFile / readFromFile (divide_tree.cpp) -/

/-- Rounding of an elevation printed with `%.2f`. -/
def r2 (q : ℚ) : ℚ := (round (q * 100) : ℚ) / 100

/-- Rounding of a floating-point field printed with `%f` (6 decimals). -/
def r6 (q : ℚ) : ℚ := (round (q * 1000000) : ℚ) / 1000000

/-- The two coordinate systems of the code base
(`DegreeCoordinateSystem`, `UtmCoordinateSystem`), by their serialized
fields. -/
inductive CoordinateSystem where
  | degree (minLat minLng : ℚ) (samplesPerLat samplesPerLng : ℤ) (maxLat maxLng : ℚ)
  | utm (zone minX minY maxX maxY : ℤ) (metersPerSample : ℚ)
  deriving Repr, DecidableEq

/-- The first real line of a divide-tree file, as the values printed by
`toString` of the coordinate system (tag `G` or `U`). -/
inductive CoordSysLine where
  | degreeL (minLat minLng : ℚ) (samplesPerLat samplesPerLng : ℤ) (maxLat maxLng : ℚ)
  | utmL (zone minX minY maxX maxY : ℤ) (metersPerSample : ℚ)
  deriving Repr, DecidableEq

/-- `DegreeCoordinateSystem::toString` / `UtmCoordinateSystem::toString`:
floating-point fields go through `%f` (6 decimals), integer fields are
exact. -/
def csWrite : CoordinateSystem → CoordSysLine
  | .degree a b spl spg c d => .degreeL (r6 a) (r6 b) spl spg (r6 c) (r6 d)
  | .utm z x0 y0 x1 y1 mps => .utmL z x0 y0 x1 y1 (r6 mps)

/-- Modelled from the spec: the `CoordinateSystem::fromString` dispatcher
(absent from the sources) selects the variant by the line's leading tag;
the per-variant parsing follows `DegreeCoordinateSystem::fromString`
(which rejects a non-positive `samplesPerLat` or `samplesPerLng`) and
`UtmCoordinateSystem::fromString` (which rejects a non-positive
`metersPerSample`). -/
def csRead : CoordSysLine → Option CoordinateSystem
  | .degreeL a b spl spg c d =>
    if spl ≤ 0 ∨ spg ≤ 0 then none else some (.degree a b spl spg c d)
  | .utmL z x0 y0 x1 y1 mps =>
    if mps ≤ 0 then none else some (.utm z x0 y0 x1 y1 mps)

/-- One data line of a divide-tree file, as the values printed by
`DivideTree::writeToFile` (tags `P`, `S`, `R`, `N`, `E`). -/
inductive FileRecord where
  | peakR (index x y : ℤ) (elev : ℚ)
  | saddleR (index : ℤ) (saddleType : SaddleType) (x y : ℤ) (elev : ℚ)
  | runoffR (index x y : ℤ) (elev : ℚ) (filledQuadrants insideFlag : ℤ)
  | nodeR (index parentId saddleId : ℤ)
  | edgeR (index peakId : ℤ)
  deriving Repr, DecidableEq

def writePeaks : ℤ → List Peak → List FileRecord
  | _, [] => []
  | idx, p :: rest =>
    .peakR idx p.location.x p.location.y (r2 p.elevation) :: writePeaks (idx + 1) rest

def writeSaddles : ℤ → List Saddle → List FileRecord
  | _, [] => []
  | idx, s :: rest =>
    .saddleR idx s.saddleType s.location.x s.location.y (r2 s.elevation)
      :: writeSaddles (idx + 1) rest

def writeRunoffs : ℤ → List Runoff → List FileRecord
  | _, [] => []
  | idx, r :: rest =>
    .runoffR idx r.location.x r.location.y (r2 r.elevation) r.filledQuadrants
        (if r.insidePeakArea then 1 else 0)
      :: writeRunoffs (idx + 1) rest

def writeNodes : ℤ → List DNode → List FileRecord
  | _, [] => []
  | idx, nd :: rest => .nodeR idx nd.parentId nd.saddleId :: writeNodes (idx + 1) rest

def writeEdges : ℤ → List ℤ → List FileRecord
  | _, [] => []
  | idx, e :: rest => .edgeR idx e :: writeEdges (idx + 1) rest

/-- `DivideTree::writeToFile`: the coordinate-system line followed by the
P, S, R, N and E records (P and S indices are 1-based, the rest
0-based). -/
def writeToFile (t : DivideTree) (cs : CoordinateSystem) :
    CoordSysLine × List FileRecord :=
  (csWrite cs,
    writePeaks 1 t.peaks ++ writeSaddles 1 t.saddles ++ writeRunoffs 0 t.runoffs
      ++ writeNodes 0 t.nodes ++ writeEdges 0 t.runoffEdges)

/-- The record-accumulating state of `DivideTree::readFromFile`. -/
structure ParseAcc where
  peaks : List Peak
  saddles : List Saddle
  runoffs : List Runoff
  nodes : List DNode
  runoffEdges : List ℤ
  deriving Repr, DecidableEq

/-- One `switch` dispatch of `DivideTree::readFromFile`; note that an `N`
record with a parent but no saddle is dropped (only logged). -/
def readRecord (acc : ParseAcc) : FileRecord → ParseAcc
  | .peakR _ x y e => { acc with peaks := acc.peaks ++ [⟨⟨x, y⟩, e⟩] }
  | .saddleR _ ty x y e => { acc with saddles := acc.saddles ++ [⟨⟨x, y⟩, e, ty⟩] }
  | .runoffR _ x y e fq flag =>
    { acc with runoffs := acc.runoffs ++ [⟨⟨x, y⟩, e, decide (flag = 1), fq⟩] }
  | .nodeR _ p sid =>
    if p ≠ NullId ∧ sid = NullId then acc
    else { acc with nodes := acc.nodes ++ [⟨p, sid⟩] }
  | .edgeR _ e => { acc with runoffEdges := acc.runoffEdges ++ [e] }

/-- `DivideTree::readFromFile`: `none` models the C++ `nullptr` when the
coordinate-system line does not parse. -/
def readFromFile (f : CoordSysLine × List FileRecord) :
    Option (CoordinateSystem × DivideTree) :=
  (csRead f.1).map (fun cs =>
    let a := f.2.foldl readRecord ⟨[], [], [], [], []⟩
    (cs, ⟨a.peaks, a.saddles, a.runoffs, a.nodes, a.runoffEdges⟩))

/-- The coordinate-system fields survive `%f` serialization and pass the
parsers' positivity checks. -/
def csExact : CoordinateSystem → Prop
  | .degree a b spl spg c d =>
    r6 a = a ∧ r6 b = b ∧ r6 c = c ∧ r6 d = d ∧ 0 < spl ∧ 0 < spg
  | .utm _ _ _ _ _ mps => r6 mps = mps ∧ 0 < mps

lemma csRead_write (cs : CoordinateSystem) (h : csExact cs) : csRead (csWrite cs) = some cs := by
  cases cs with
  | degree a b spl spg c d =>
    obtain ⟨h1, h2, h3, h4, h5, h6⟩ := h
    simp only [csWrite, csRead, h1, h2, h3, h4]
    rw [if_neg (by omega)]
  | utm z x0 y0 x1 y1 mps =>
    obtain ⟨h1, h2⟩ := h
    simp only [csWrite, csRead, h1]
    rw [if_neg (by exact not_le.mpr h2)]


lemma fold_writePeaks (ps : List Peak) :
    ∀ (idx : ℤ) (acc : ParseAcc), (∀ p ∈ ps, r2 p.elevation = p.elevation) →
    (writePeaks idx ps).foldl readRecord acc = { acc with peaks := acc.peaks ++ ps } := by
  induction ps with
  | nil => intro idx acc _; simp [writePeaks]
  | cons p rest ih =>
    intro idx acc h
    simp only [writePeaks, List.foldl_cons]
    rw [ih (idx + 1) _ (fun q hq => h q (by simp [hq]))]
    simp only [readRecord]
    rw [h p (by simp)]
    simp [List.append_assoc]

lemma fold_writeSaddles (ss : List Saddle) :
    ∀ (idx : ℤ) (acc : ParseAcc), (∀ q ∈ ss, r2 q.elevation = q.elevation) →
    (writeSaddles idx ss).foldl readRecord acc = { acc with saddles := acc.saddles ++ ss } := by
  induction ss with
  | nil => intro idx acc _; simp [writeSaddles]
  | cons q rest ih =>
    intro idx acc h
    simp only [writeSaddles, List.foldl_cons]
    rw [ih (idx + 1) _ (fun q2 hq => h q2 (by simp [hq]))]
    simp only [readRecord]
    rw [h q (by simp)]
    simp [List.append_assoc]

lemma fold_writeRunoffs (rs : List Runoff) :
    ∀ (idx : ℤ) (acc : ParseAcc), (∀ q ∈ rs, r2 q.elevation = q.elevation) →
    (writeRunoffs idx rs).foldl readRecord acc = { acc with runoffs := acc.runoffs ++ rs } := by
  induction rs with
  | nil => intro idx acc _; simp [writeRunoffs]
  | cons q rest ih =>
    intro idx acc h
    simp only [writeRunoffs, List.foldl_cons]
    rw [ih (idx + 1) _ (fun q2 hq => h q2 (by simp [hq]))]
    simp only [readRecord]
    rw [h q (by simp)]
    have hflag : decide ((if q.insidePeakArea then (1 : ℤ) else 0) = 1) = q.insidePeakArea := by
      cases hb : q.insidePeakArea <;> rfl
    rw [hflag]
    simp [List.append_assoc]

lemma fold_writeNodes (ns : List DNode) :
    ∀ (idx : ℤ) (acc : ParseAcc),
    (∀ nd ∈ ns, nd.parentId = NullId ∨ nd.saddleId ≠ NullId) →
    (writeNodes idx ns).foldl readRecord acc = { acc with nodes := acc.nodes ++ ns } := by
  induction ns with
  | nil => intro idx acc _; simp [writeNodes]
  | cons nd rest ih =>
    intro idx acc h
    simp only [writeNodes, List.foldl_cons]
    rw [ih (idx + 1) _ (fun q2 hq => h q2 (by simp [hq]))]
    simp only [readRecord]
    have hg : ¬ (nd.parentId ≠ NullId ∧ nd.saddleId = NullId) := by
      rcases h nd (by simp) with h1 | h1
      · rintro ⟨h2, _⟩
        exact h2 h1
      · rintro ⟨_, h2⟩
        exact h1 h2
    rw [if_neg hg]
    simp [List.append_assoc]

lemma fold_writeEdges (es : List ℤ) :
    ∀ (idx : ℤ) (acc : ParseAcc),
    (writeEdges idx es).foldl readRecord acc
      = { acc with runoffEdges := acc.runoffEdges ++ es } := by
  induction es with
  | nil => intro idx acc; simp [writeEdges]
  | cons e rest ih =>
    intro idx acc
    simp only [writeEdges, List.foldl_cons]
    rw [ih (idx + 1)]
    simp only [readRecord]
    simp [List.append_assoc]

/-- Claim C6 (amended): writing a divide tree and reading it back yields
the identical tree, provided every peak, saddle and runoff elevation is a
multiple of 0.01 (the `%.2f` serialization granularity), the coordinate
system's floating-point fields are multiples of 0.000001 and it passes
the parsers' positivity checks (positive meters-per-sample for UTM,
positive samples-per-degree counts for degree systems), and no node
combines a live parent with a Null saddle (such N records are dropped on
read). -/
theorem writeToFile_readFromFile (t : DivideTree) (cs : CoordinateSystem)
    (hpe : ∀ p ∈ t.peaks, r2 p.elevation = p.elevation)
    (hse : ∀ q ∈ t.saddles, r2 q.elevation = q.elevation)
    (hre : ∀ q ∈ t.runoffs, r2 q.elevation = q.elevation)
    (hn : ∀ nd ∈ t.nodes, nd.parentId = NullId ∨ nd.saddleId ≠ NullId)
    (hcs : csExact cs) :
    readFromFile (writeToFile t cs) = some (cs, t) := by
  simp only [writeToFile, readFromFile]
  rw [csRead_write cs hcs]
  rw [Option.map_some']
  show some (cs, _) = some (cs, t)
  rw [List.foldl_append, List.foldl_append, List.foldl_append, List.foldl_append]
  rw [fold_writePeaks _ _ _ hpe, fold_writeSaddles _ _ _ hse, fold_writeRunoffs _ _ _ hre,
    fold_writeNodes _ _ _ hn, fold_writeEdges]
  simp

/-- A tree whose only peak has elevation 1/1000, finer than the `%.2f`
format. -/
def rtCxTree : DivideTree :=
  { peaks := [⟨⟨0, 0⟩, 1 / 1000⟩]
  , saddles := []
  , runoffs := []
  , nodes := [⟨NullId, NullId⟩, ⟨NullId, NullId⟩]
  , runoffEdges := [] }

def rtCxCs : CoordinateSystem := .degree 0 0 1 1 1 1

/-- Counterexample: the 1/1000 elevation is rounded to 0 by `%.2f`, so the
read-back tree differs from the written one. -/
theorem roundtrip_counterexample :
    readFromFile (writeToFile rtCxTree rtCxCs) ≠ some (rtCxCs, rtCxTree)
    ∧ readFromFile (writeToFile rtCxTree rtCxCs)
      = some (rtCxCs, { rtCxTree with peaks := [⟨⟨0, 0⟩, 0⟩] }) := by
  refine ⟨by with_unfolding_all decide, by with_unfolding_all decide⟩

/-- A tree with 0.01-granular elevations (including fractional ones). -/
def rtWitTree : DivideTree :=
  { peaks := [⟨⟨0, 0⟩, 100⟩, ⟨⟨1, 0⟩, (3 : ℚ) / 4⟩]
  , saddles := [⟨⟨2, 0⟩, (1 : ℚ) / 2, SaddleType.basin⟩]
  , runoffs := [⟨⟨0, 1⟩, 5, true, 2⟩]
  , nodes := [⟨NullId, NullId⟩, ⟨NullId, NullId⟩, ⟨1, 1⟩]
  , runoffEdges := [1] }

def rtWitCs : CoordinateSystem := .degree (-1 / 2) 0 1200 1200 1 1

/-- Witness: the roundtrip theorem applied to a concrete tree and degree
coordinate system. -/
theorem writeToFile_readFromFile_witness :
    readFromFile (writeToFile rtWitTree rtWitCs) = some (rtWitCs, rtWitTree) :=
  writeToFile_readFromFile rtWitTree rtWitCs (by with_unfolding_all decide)
    (by with_unfolding_all decide) (by with_unfolding_all decide) (by decide)
    ⟨by with_unfolding_all decide, by with_unfolding_all decide, by with_unfolding_all decide,
      by with_unfolding_all decide⟩


/-! ### IslandTree (island_tree.cpp) -/

/-- `IslandTree::Node::UnknownProminence`. -/
def UnknownProminence : Elevation := -32767

/-- `std::numeric_limits<Elevation>::max()` for `Elevation = float`. -/
def ELEVATION_MAX : Elevation := 2 ^ 128 - 2 ^ 104

/-- `IslandTree::Node`. -/
structure INode where
  parentId : ℤ
  saddlePeakId : ℤ
  prominence : Elevation
  keySaddleId : ℤ
  deriving Repr, DecidableEq

instance : Inhabited INode := ⟨⟨0, 0, 0, 0⟩⟩

def iGetNode (nodes : List INode) (i : ℤ) : INode := nodes.getD i.toNat default

def iSetNode (nodes : List INode) (i : ℤ) (n : INode) : List INode := nodes.set i.toNat n

/-- `IslandTree::point2IsHigher`: the total elevation order with ties
broken by id. -/
def point2IsHigher (e1 : Elevation) (i1 : ℤ) (e2 : Elevation) (i2 : ℤ) : Prop :=
  e1 < e2 ∨ (e1 = e2 ∧ i1 < i2)

instance (e1 : Elevation) (i1 : ℤ) (e2 : Elevation) (i2 : ℤ) :
    Decidable (point2IsHigher e1 i1 e2 i2) := by
  unfold point2IsHigher
  infer_instance

/-- Peak `j` is higher than peak `i` in the `point2IsHigher` order. -/
def peakHigher (t : DivideTree) (i j : ℤ) : Prop :=
  point2IsHigher (getPeak t i).elevation i (getPeak t j).elevation j

lemma peakHigher_irrefl (t : DivideTree) (i : ℤ) : ¬ peakHigher t i i := by
  rintro (h | ⟨_, h⟩)
  · exact absurd h (lt_irrefl _)
  · omega

lemma peakHigher_trans (t : DivideTree) (a b c : ℤ)
    (h1 : peakHigher t a b) (h2 : peakHigher t b c) : peakHigher t a c := by
  rcases h1 with h1 | ⟨h1, h1b⟩ <;> rcases h2 with h2 | ⟨h2, h2b⟩
  · exact Or.inl (lt_trans h1 h2)
  · exact Or.inl (h2 ▸ h1)
  · exact Or.inl (h1 ▸ h2)
  · exact Or.inr ⟨h1.trans h2, by omega⟩

lemma peakHigher_total (t : DivideTree) (a b : ℤ) (hne : a ≠ b) :
    peakHigher t a b ∨ peakHigher t b a := by
  rcases lt_trichotomy (getPeak t a).elevation (getPeak t b).elevation with h | h | h
  · exact Or.inl (Or.inl h)
  · rcases lt_or_gt_of_ne hne with h2 | h2
    · exact Or.inl (Or.inr ⟨h, h2⟩)
    · exact Or.inr (Or.inr ⟨h.symm, h2⟩)
  · exact Or.inr (Or.inl h)

/-! #### Generic parent-chain machinery -/

/-- Follow an abstract parent function for `k` steps. -/
def gIter (par : ℤ → ℤ) : ℕ → ℤ → ℤ
  | 0, i => i
  | k + 1, i => if i = NullId then NullId else gIter par k (par i)

/-- The chain from `i` reaches `Null`. -/
def GTerm (par : ℤ → ℤ) (i : ℤ) : Prop := ∃ k, gIter par k i = NullId

def gdist (par : ℤ → ℤ) (i : ℤ) (h : GTerm par i) : ℕ := Nat.find h

lemma gIter_null (par : ℤ → ℤ) (k : ℕ) : gIter par k NullId = NullId := by
  cases k with
  | zero => rfl
  | succ n => simp [gIter]

lemma gIter_add (par : ℤ → ℤ) (a b : ℕ) (i : ℤ) :
    gIter par (a + b) i = gIter par b (gIter par a i) := by
  induction a generalizing i with
  | zero => simp [gIter]
  | succ n ih =>
    by_cases hi : i = NullId
    · subst hi
      rw [gIter_null, gIter_null, gIter_null]
    · have h1 : n + 1 + b = (n + b) + 1 := by omega
      rw [h1]
      show (if i = NullId then NullId else gIter par (n + b) (par i)) = _
      rw [if_neg hi, ih]
      show _ = gIter par b (if i = NullId then NullId else gIter par n (par i))
      rw [if_neg hi]

lemma gIter_one (par : ℤ → ℤ) (i : ℤ) (h : i ≠ NullId) : gIter par 1 i = par i := by
  show (if i = NullId then NullId else gIter par 0 (par i)) = par i
  rw [if_neg h]
  rfl

lemma gdist_spec (par : ℤ → ℤ) (i : ℤ) (h : GTerm par i) :
    gIter par (gdist par i h) i = NullId := Nat.find_spec h

lemma gdist_min (par : ℤ → ℤ) (i : ℤ) (h : GTerm par i) (k : ℕ) (hk : k < gdist par i h) :
    gIter par k i ≠ NullId := Nat.find_min h hk

lemma gdist_congr (par : ℤ → ℤ) (i : ℤ) (h1 h2 : GTerm par i) :
    gdist par i h1 = gdist par i h2 := rfl

lemma gdist_pos (par : ℤ → ℤ) (i : ℤ) (h : GTerm par i) (hi : i ≠ NullId) :
    1 ≤ gdist par i h := by
  by_contra hc
  have h0 : gdist par i h = 0 := by omega
  have := gdist_spec par i h
  rw [h0] at this
  exact hi this

lemma gterm_parent (par : ℤ → ℤ) (i : ℤ) (h : GTerm par i) (hi : i ≠ NullId) :
    GTerm par (par i) := by
  obtain ⟨k, hk⟩ := h
  cases k with
  | zero => exact absurd hk hi
  | succ n =>
    refine ⟨n, ?_⟩
    have : gIter par (n + 1) i = gIter par n (par i) := by
      show (if i = NullId then NullId else gIter par n (par i)) = _
      rw [if_neg hi]
    rwa [this] at hk

lemma gterm_step (par : ℤ → ℤ) (i : ℤ) (h : GTerm par (par i)) : GTerm par i := by
  by_cases hi : i = NullId
  · exact ⟨0, hi⟩
  · obtain ⟨k, hk⟩ := h
    refine ⟨k + 1, ?_⟩
    show (if i = NullId then NullId else gIter par k (par i)) = NullId
    rw [if_neg hi]
    exact hk

lemma gIter_succ_left (par : ℤ → ℤ) (m : ℕ) (i : ℤ) (hi : i ≠ NullId) :
    gIter par (m + 1) i = gIter par m (par i) := by
  show (if i = NullId then NullId else gIter par m (par i)) = _
  rw [if_neg hi]

lemma gdist_parent (par : ℤ → ℤ) (i : ℤ) (h : GTerm par i) (hi : i ≠ NullId)
    (hp : GTerm par (par i)) : gdist par i h = gdist par (par i) hp + 1 := by
  have hub : gdist par i h ≤ gdist par (par i) hp + 1 :=
    Nat.find_le (by rw [gIter_succ_left par _ i hi]; exact gdist_spec par (par i) hp)
  have hlb : ¬ gdist par i h ≤ gdist par (par i) hp := by
    intro hc
    have h4 : 1 ≤ gdist par i h := gdist_pos par i h hi
    have h5 : gIter par (gdist par i h - 1) (par i) = NullId := by
      rw [← gIter_succ_left par _ i hi]
      have heq : gdist par i h - 1 + 1 = gdist par i h := by omega
      rw [heq]
      exact gdist_spec par i h
    exact gdist_min par (par i) hp _ (by omega) h5
  omega

lemma gdist_eq_of_eq (par : ℤ → ℤ) (a b : ℤ) (hab : a = b) (ha : GTerm par a) :
    gdist par a ha = gdist par b (hab ▸ ha) := by
  subst hab
  rfl

lemma gIter_stable (par : ℤ → ℤ) (i : ℤ) (h : GTerm par i) (k : ℕ)
    (hk : gdist par i h ≤ k) : gIter par k i = NullId := by
  have : k = gdist par i h + (k - gdist par i h) := by omega
  rw [this, gIter_add, gdist_spec, gIter_null]

lemma gterm_iter (par : ℤ → ℤ) (i : ℤ) (h : GTerm par i) (k : ℕ) :
    GTerm par (gIter par k i) := by
  obtain ⟨m, hm⟩ := h
  by_cases hk : k ≤ m
  · refine ⟨m - k, ?_⟩
    rw [← gIter_add]
    have : k + (m - k) = m := by omega
    rw [this]
    exact hm
  · refine ⟨0, ?_⟩
    show gIter par k i = NullId
    exact gIter_stable par i ⟨m, hm⟩ k (le_trans (Nat.find_le hm) (by omega))

lemma gdist_iter (par : ℤ → ℤ) (i : ℤ) (h : GTerm par i) (k : ℕ)
    (hk : k ≤ gdist par i h) :
    gdist par (gIter par k i) (gterm_iter par i h k) = gdist par i h - k := by
  induction k with
  | zero => rfl
  | succ n ih =>
    have hn : n ≤ gdist par i h := by omega
    have hne : gIter par n i ≠ NullId := gdist_min par i h n (by omega)
    have hgp : GTerm par (par (gIter par n i)) :=
      gterm_parent par _ (gterm_iter par i h n) hne
    have h2 := gdist_parent par (gIter par n i) (gterm_iter par i h n) hne hgp
    rw [ih hn] at h2
    have he : gIter par (n + 1) i = par (gIter par n i) := by
      rw [gIter_add par n 1 i, gIter_one par _ hne]
    have h4 := gdist_eq_of_eq par _ _ he (gterm_iter par i h (n + 1))
    rw [h4]
    have h5 : gdist par (par (gIter par n i)) (he ▸ gterm_iter par i h (n + 1))
        = gdist par (par (gIter par n i)) hgp := rfl
    rw [h5]
    omega

lemma gterm_no_selfloop (par : ℤ → ℤ) (i : ℤ) (h : GTerm par i) (hi : i ≠ NullId) :
    par i ≠ i := by
  intro hc
  have hall : ∀ k, gIter par k i = i := by
    intro k
    induction k with
    | zero => rfl
    | succ n ih =>
      show (if i = NullId then NullId else gIter par n (par i)) = i
      rw [if_neg hi, hc, ih]
  obtain ⟨k, hk⟩ := h
  rw [hall k] at hk
  exact hi hk

lemma chain_dist_le (par : ℤ → ℤ) (i x : ℤ) (hi : GTerm par i) (k : ℕ)
    (hk : gIter par k i = x) (hx : x ≠ NullId) :
    ∃ hx2 : GTerm par x, k ≤ gdist par i hi ∧ gdist par x hx2 = gdist par i hi - k := by
  have hkb : k ≤ gdist par i hi := by
    by_contra hc
    have := gIter_stable par i hi k (by omega)
    rw [hk] at this
    exact hx this
  refine ⟨by rw [← hk]; exact gterm_iter par i hi k, hkb, ?_⟩
  have h3 := gdist_iter par i hi k hkb
  have h4 := gdist_eq_of_eq par _ _ hk (gterm_iter par i hi k)
  rw [← h4, h3]


lemma gchain_inj (par : ℤ → ℤ) (i : ℤ) (h : GTerm par i) (a b : ℕ)
    (ha : a < gdist par i h) (hb : b < gdist par i h)
    (heq : gIter par a i = gIter par b i) : a = b := by
  have hxa : gIter par a i ≠ NullId := gdist_min par i h a ha
  obtain ⟨hta, hka, hda⟩ := chain_dist_le par i (gIter par a i) h a rfl hxa
  obtain ⟨htb, hkb, hdb⟩ := chain_dist_le par i (gIter par b i) h b rfl (heq ▸ hxa)
  have h4 := gdist_eq_of_eq par _ _ heq hta
  rw [hda] at h4
  have h5 : gdist par (gIter par b i) (heq ▸ hta) = gdist par (gIter par b i) htb := rfl
  rw [h5, hdb] at h4
  omega

/-- Range condition on an abstract parent function over ids `1 .. N-1`. -/
def GRange (par : ℤ → ℤ) (N : ℕ) : Prop :=
  ∀ j : ℤ, 1 ≤ j → j < (N : ℤ) → par j = NullId ∨ (1 ≤ par j ∧ par j < (N : ℤ))

lemma gchain_mem (par : ℤ → ℤ) (N : ℕ) (hR : GRange par N) (i : ℤ)
    (hi1 : 1 ≤ i) (hi2 : i < (N : ℤ)) (h : GTerm par i) :
    ∀ k, k < gdist par i h → 1 ≤ gIter par k i ∧ gIter par k i < (N : ℤ) := by
  intro k
  induction k with
  | zero => intro _; exact ⟨hi1, hi2⟩
  | succ n ih =>
    intro hk
    have hn := ih (by omega)
    have hne : gIter par n i ≠ NullId := gdist_min par i h n (by omega)
    have hstep : gIter par (n + 1) i = par (gIter par n i) := by
      rw [gIter_add par n 1 i, gIter_one par _ hne]
    rcases hR _ hn.1 hn.2 with hr | hr
    · exact absurd (hstep ▸ hr) (gdist_min par i h (n + 1) hk)
    · rw [hstep]
      exact hr

lemma gdist_le_range (par : ℤ → ℤ) (N : ℕ) (hR : GRange par N) (i : ℤ)
    (hi1 : 1 ≤ i) (hi2 : i < (N : ℤ)) (h : GTerm par i) :
    gdist par i h ≤ N := by
  by_contra hgt
  push_neg at hgt
  have hinj : Set.InjOn (fun k => gIter par k i)
      ((Finset.range (gdist par i h)) : Finset ℕ) := by
    intro a ha b hb hab
    simp only [Finset.coe_range, Set.mem_Iio] at ha hb
    exact gchain_inj par i h a b ha hb hab
  have hcard := Finset.card_le_card_of_injOn (fun k => gIter par k i)
    (fun k hk => by
      simp only [Finset.mem_range] at hk
      have h2 := gchain_mem par N hR i hi1 hi2 h k hk
      rw [Finset.mem_Ico]
      exact h2) hinj
  rw [Finset.card_range, Int.card_Ico] at hcard
  have h3 : ((N : ℤ) - 1).toNat = N - 1 := by omega
  rw [h3] at hcard
  omega

/-! #### The IslandTree algorithm -/

/-- The parent function of an island-tree node array. -/
def iparF (nodes : List INode) : ℤ → ℤ := fun j => (iGetNode nodes j).parentId

/-- The initialization at the top of `IslandTree::build`: node 0 is
value-initialized to all zeroes by `resize`, nodes 1.. copy the divide
tree's parent links and start as their own prominence island. -/
def iInit (t : DivideTree) : List INode :=
  (List.range t.nodes.length).map (fun (i : ℕ) =>
    if i = 0 then ⟨0, 0, 0, 0⟩
    else ⟨(getNode t.nodes (i : ℤ)).parentId, (i : ℤ), UnknownProminence, NullId⟩)

/-- One iteration of the inner `while` loop of `IslandTree::uninvertPeak`:
conditionally rotate the parent under the child, then lift the child one
spot; returns the new node array and the new `parentId`
(the grandparent). -/
def upIter (t : DivideTree) (nodes : List INode) (currentId parentId : ℤ) :
    List INode × ℤ :=
  let grandparentId := (iGetNode nodes parentId).parentId
  let childSaddlePeakId := (iGetNode nodes currentId).saddlePeakId
  let parentSaddlePeakId := (iGetNode nodes parentId).saddlePeakId
  let childSaddleId := (getNode t.nodes childSaddlePeakId).saddleId
  let parentSaddleId := (getNode t.nodes parentSaddlePeakId).saddleId
  let nodes2 :=
    if grandparentId = NullId
        ∨ point2IsHigher (getSaddle t parentSaddleId).elevation parentSaddleId
            (getSaddle t childSaddleId).elevation childSaddleId then
      let pn := iGetNode nodes parentId
      let nodesA := iSetNode nodes parentId
        ⟨currentId, childSaddlePeakId, pn.prominence, pn.keySaddleId⟩
      let cn := iGetNode nodesA currentId
      iSetNode nodesA currentId ⟨cn.parentId, parentSaddlePeakId, cn.prominence, cn.keySaddleId⟩
    else nodes
  let cn2 := iGetNode nodes2 currentId
  (iSetNode nodes2 currentId ⟨grandparentId, cn2.saddlePeakId, cn2.prominence, cn2.keySaddleId⟩,
    grandparentId)

/-- The inner `while` loop of `IslandTree::uninvertPeak`: lift `currentId`
until its parent is higher (or it becomes a root). -/
def upInner (t : DivideTree) (currentId : ℤ) : ℕ → List INode → ℤ → List INode × ℤ
  | 0, nodes, parentId => (nodes, parentId)
  | fuel + 1, nodes, parentId =>
    if parentId = NullId then (nodes, parentId)
    else if point2IsHigher (getPeak t currentId).elevation currentId
        (getPeak t parentId).elevation parentId then (nodes, parentId)
    else
      let r := upIter t nodes currentId parentId
      upInner t currentId fuel r.1 r.2

/-- The explicit work stack of `IslandTree::uninvertPeak` always holds at
most one node: after lifting `currentId`, continue with the higher parent
where the lift stopped. -/
def upChain (t : DivideTree) : ℕ → List INode → ℤ → List INode
  | 0, nodes, _ => nodes
  | fuel + 1, nodes, currentId =>
    let r := upInner t currentId (nodes.length + 1) nodes (iGetNode nodes currentId).parentId
    if r.2 ≠ NullId then upChain t fuel r.1 r.2 else r.1

/-- `IslandTree::uninvertPeaks`. -/
def uninvertPeaks (t : DivideTree) (nodes0 : List INode) : List INode :=
  (List.range' 1 (nodes0.length - 1)).foldl
    (fun ns i => upChain t (ns.length + 1) ns (i : ℤ)) nodes0

/-- `IslandTree::uninvertSaddle` (the recursion is genuine in the C++). -/
def uninvertSaddleGo (t : DivideTree) : ℕ → List INode → ℤ → List INode
  | 0, nodes, _ => nodes
  | fuel + 1, nodes, nodeId =>
    let p := (iGetNode nodes nodeId).parentId
    if p = NullId then nodes
    else
      let g := (iGetNode nodes p).parentId
      if g = NullId then nodes
      else
        let childSaddlePeakId := (iGetNode nodes nodeId).saddlePeakId
        let parentSaddlePeakId := (iGetNode nodes p).saddlePeakId
        let childSaddleId := (getNode t.nodes childSaddlePeakId).saddleId
        let parentSaddleId := (getNode t.nodes parentSaddlePeakId).saddleId
        if point2IsHigher (getSaddle t parentSaddleId).elevation parentSaddleId
            (getSaddle t childSaddleId).elevation childSaddleId then nodes
        else
          let nodes2 := uninvertSaddleGo t fuel nodes p
          let cn := iGetNode nodes2 nodeId
          let nodes3 := iSetNode nodes2 nodeId ⟨g, cn.saddlePeakId, cn.prominence, cn.keySaddleId⟩
          uninvertSaddleGo t fuel nodes3 nodeId

/-- `IslandTree::uninvertSaddles`. -/
def uninvertSaddles (t : DivideTree) (nodes0 : List INode) : List INode :=
  (List.range' 1 (nodes0.length - 1)).foldl
    (fun ns i => uninvertSaddleGo t (ns.length + 1) ns (i : ℤ)) nodes0

/-- The first-higher-ancestor walk of `IslandTree::computeProminences`. -/
def cpWalk (t : DivideTree) (nodes : List INode) (elev : Elevation) (i : ℤ) :
    ℕ → ℤ → ℤ → ℤ × ℤ
  | 0, childNodeId, parentNodeId => (childNodeId, parentNodeId)
  | fuel + 1, childNodeId, parentNodeId =>
    if parentNodeId = NullId then (childNodeId, parentNodeId)
    else if point2IsHigher elev i (getPeak t parentNodeId).elevation parentNodeId then
      (childNodeId, parentNodeId)
    else cpWalk t nodes elev i fuel parentNodeId (iGetNode nodes parentNodeId).parentId

/-- `IslandTree::getSeaLevelValue`. -/
def getSeaLevelValue (t : DivideTree) (nodes : List INode) (isBathymetry : Bool) : Elevation :=
  if isBathymetry = true ∧ nodes ≠ [] then
    t.saddles.foldl (fun e s => min e s.elevation) ELEVATION_MAX
  else 0

/-- The body of the peak loop of `IslandTree::computeProminences`. -/
def cpStep (t : DivideTree) (isBathymetry : Bool) (nodes : List INode) (i : ℕ) : List INode :=
  let elev := (getPeak t (i : ℤ)).elevation
  let w := cpWalk t nodes elev (i : ℤ) (nodes.length + 1) (i : ℤ) (iGetNode nodes (i : ℤ)).parentId
  let n := iGetNode nodes (i : ℤ)
  if w.2 = NullId then
    iSetNode nodes (i : ℤ)
      ⟨n.parentId, n.saddlePeakId, elev - getSeaLevelValue t nodes isBathymetry, n.keySaddleId⟩
  else
    let saddlePeakId := (iGetNode nodes w.1).saddlePeakId
    let saddleId := (getNode t.nodes saddlePeakId).saddleId
    iSetNode nodes (i : ℤ)
      ⟨n.parentId, n.saddlePeakId, elev - (getSaddle t saddleId).elevation, saddleId⟩

/-- `IslandTree::computeProminences`. -/
def computeProminences (t : DivideTree) (isBathymetry : Bool) (nodes0 : List INode) :
    List INode :=
  (List.range' 1 (nodes0.length - 1)).foldl (cpStep t isBathymetry) nodes0

/-- `IslandTree::build`. -/
def iBuild (t : DivideTree) (isBathymetry : Bool) : List INode :=
  computeProminences t isBathymetry (uninvertSaddles t (uninvertPeaks t (iInit t)))


lemma iSetNode_length (nodes : List INode) (i : ℤ) (n : INode) :
    (iSetNode nodes i n).length = nodes.length := by
  simp [iSetNode]

lemma iGetNode_set_same (nodes : List INode) (i : ℤ) (n : INode) (h : i.toNat < nodes.length) :
    iGetNode (iSetNode nodes i n) i = n := by
  unfold iGetNode iSetNode
  rw [List.getD_eq_getElem?_getD, List.getElem?_set_eq_of_lt _ h]
  rfl

lemma iGetNode_set_ne (nodes : List INode) (i j : ℤ) (n : INode) (hij : i.toNat ≠ j.toNat) :
    iGetNode (iSetNode nodes i n) j = iGetNode nodes j := by
  unfold iGetNode iSetNode
  rw [List.getD_eq_getElem?_getD, List.getElem?_set_ne hij, ← List.getD_eq_getElem?_getD]

lemma upIter_spec (t : DivideTree) (nodes : List INode) (current parentId : ℤ)
    (hcur1 : 1 ≤ current) (hcur2 : current < (nodes.length : ℤ))
    (hp1 : 1 ≤ parentId) (hp2 : parentId < (nodes.length : ℤ))
    (hpc : parentId ≠ current) :
    (upIter t nodes current parentId).1.length = nodes.length
    ∧ (upIter t nodes current parentId).2 = (iGetNode nodes parentId).parentId
    ∧ (iGetNode (upIter t nodes current parentId).1 current).parentId
        = (iGetNode nodes parentId).parentId
    ∧ (iGetNode (upIter t nodes current parentId).1 current).prominence
        = (iGetNode nodes current).prominence
    ∧ (iGetNode (upIter t nodes current parentId).1 current).keySaddleId
        = (iGetNode nodes current).keySaddleId
    ∧ (∀ j : ℤ, j.toNat ≠ current.toNat → j.toNat ≠ parentId.toNat →
        iGetNode (upIter t nodes current parentId).1 j = iGetNode nodes j)
    ∧ (((iGetNode (upIter t nodes current parentId).1 parentId)
          = ⟨current, (iGetNode nodes current).saddlePeakId,
              (iGetNode nodes parentId).prominence, (iGetNode nodes parentId).keySaddleId⟩
        ∧ (iGetNode (upIter t nodes current parentId).1 current).saddlePeakId
          = (iGetNode nodes parentId).saddlePeakId)
      ∨ (iGetNode (upIter t nodes current parentId).1 parentId = iGetNode nodes parentId
        ∧ (iGetNode (upIter t nodes current parentId).1 current).saddlePeakId
          = (iGetNode nodes current).saddlePeakId
        ∧ (iGetNode nodes parentId).parentId ≠ NullId)) := by
  have hcN : current.toNat < nodes.length := by omega
  have hpN : parentId.toNat < nodes.length := by omega
  have hct : current.toNat ≠ parentId.toNat := by omega
  simp only [upIter]
  split_ifs with hrot
  · -- rotation branch
    refine ⟨by simp [iSetNode_length], trivial, ?_, ?_, ?_, ?_, ?_⟩
    · rw [iGetNode_set_same _ _ _ (by simp [iSetNode_length]; omega)]
    · rw [iGetNode_set_same _ _ _ (by simp [iSetNode_length]; omega)]
      show (iGetNode (iSetNode _ current _) current).prominence = _
      rw [iGetNode_set_same _ _ _ (by simp [iSetNode_length]; omega)]
      show (iGetNode (iSetNode nodes parentId _) current).prominence = _
      rw [iGetNode_set_ne _ _ _ _ (by omega)]
    · rw [iGetNode_set_same _ _ _ (by simp [iSetNode_length]; omega)]
      show (iGetNode (iSetNode _ current _) current).keySaddleId = _
      rw [iGetNode_set_same _ _ _ (by simp [iSetNode_length]; omega)]
      show (iGetNode (iSetNode nodes parentId _) current).keySaddleId = _
      rw [iGetNode_set_ne _ _ _ _ (by omega)]
    · intro j hj1 hj2
      rw [iGetNode_set_ne _ _ _ _ (by omega), iGetNode_set_ne _ _ _ _ (by omega),
        iGetNode_set_ne _ _ _ _ (by omega)]
    · left
      constructor
      · rw [iGetNode_set_ne _ _ _ _ (by omega)]
        rw [iGetNode_set_ne _ _ _ _ (by omega)]
        rw [iGetNode_set_same _ _ _ hpN]
      · rw [iGetNode_set_same _ _ _ (by simp [iSetNode_length]; omega)]
        show (iGetNode (iSetNode _ current _) current).saddlePeakId = _
        rw [iGetNode_set_same _ _ _ (by simp [iSetNode_length]; omega)]
  · -- no-rotation branch
    push_neg at hrot
    refine ⟨by simp [iSetNode_length], trivial, ?_, ?_, ?_, ?_, ?_⟩
    · rw [iGetNode_set_same _ _ _ hcN]
    · rw [iGetNode_set_same _ _ _ hcN]
    · rw [iGetNode_set_same _ _ _ hcN]
    · intro j hj1 hj2
      rw [iGetNode_set_ne _ _ _ _ (by omega)]
    · right
      refine ⟨?_, ?_, hrot.1⟩
      · rw [iGetNode_set_ne _ _ _ _ (by omega)]
      · rw [iGetNode_set_same _ _ _ hcN]


lemma gterm_null (par : ℤ → ℤ) : GTerm par NullId := ⟨0, rfl⟩

lemma gdist_nullv (par : ℤ → ℤ) (h : GTerm par NullId) : gdist par NullId h = 0 :=
  Nat.eq_zero_of_le_zero (Nat.find_le rfl)

lemma gterm_step_eq (par : ℤ → ℤ) (j q : ℤ) (hq : GTerm par q) (e : par j = q) :
    GTerm par j :=
  gterm_step par j (by rw [e]; exact hq)

lemma gdist_parent_eq (par : ℤ → ℤ) (j q : ℤ) (hj : GTerm par j) (hq : GTerm par q)
    (hjn : j ≠ NullId) (e : par j = q) : gdist par j hj = gdist par q hq + 1 := by
  have h1 := gdist_parent par j hj hjn (gterm_parent par j hj hjn)
  have h2 := gdist_eq_of_eq par (par j) q e (gterm_parent par j hj hjn)
  have h3 : gdist par q (e ▸ gterm_parent par j hj hjn) = gdist par q hq := rfl
  omega

/-- Peak `j`'s island-tree parent is `Null` or a strictly higher peak. -/
def IGood (t : DivideTree) (nodes : List INode) (j : ℤ) : Prop :=
  iparF nodes j = NullId ∨ peakHigher t j (iparF nodes j)

/-- Saddle validity of island nodes: a node with a live parent has a
`saddlePeakId` whose divide-tree saddle id is a valid 1-based saddle. -/
def ISaddleOK (t : DivideTree) (nodes : List INode) : Prop :=
  ∀ j : ℤ, 1 ≤ j → j < (nodes.length : ℤ) → iparF nodes j ≠ NullId →
    1 ≤ (getNode t.nodes (iGetNode nodes j).saddlePeakId).saddleId
    ∧ (getNode t.nodes (iGetNode nodes j).saddlePeakId).saddleId ≤ (t.saddles.length : ℤ)

/-- The structural invariant carried through `uninvertPeaks`. -/
def IState (t : DivideTree) (nodes : List INode) : Prop :=
  GRange (iparF nodes) nodes.length
  ∧ (∀ j : ℤ, 1 ≤ j → j < (nodes.length : ℤ) → GTerm (iparF nodes) j)
  ∧ ISaddleOK t nodes

lemma upIter_inv (t : DivideTree) (nodes : List INode) (current parentId : ℤ)
    (hst : IState t nodes)
    (hcur1 : 1 ≤ current) (hcur2 : current < (nodes.length : ℤ))
    (hlink : parentId = iparF nodes current)
    (hpn : parentId ≠ NullId)
    (hnh : ¬ peakHigher t current parentId) :
    (upIter t nodes current parentId).1.length = nodes.length
    ∧ IState t (upIter t nodes current parentId).1
    ∧ (upIter t nodes current parentId).2 = iparF (upIter t nodes current parentId).1 current
    ∧ (∀ j : ℤ, j ≠ current → IGood t nodes j → IGood t (upIter t nodes current parentId).1 j)
    ∧ (∀ hterm : GTerm (iparF nodes) current,
        ∃ hterm2 : GTerm (iparF (upIter t nodes current parentId).1) current,
          gdist (iparF (upIter t nodes current parentId).1) current hterm2
            < gdist (iparF nodes) current hterm) := by
  obtain ⟨hR, hT, hS⟩ := hst
  have hpr : 1 ≤ parentId ∧ parentId < (nodes.length : ℤ) := by
    rcases hR current hcur1 hcur2 with h | h
    · rw [← hlink] at h
      exact absurd h hpn
    · rw [← hlink] at h
      exact h
  have htc : GTerm (iparF nodes) current := hT current hcur1 hcur2
  have hpc : parentId ≠ current := by
    intro h
    have h2 := gterm_no_selfloop (iparF nodes) current htc (by omega)
    rw [← hlink] at h2
    exact h2 h
  obtain ⟨hlen, h2v, hcpar, hcprom, hckey, hother, hcases⟩ :=
    upIter_spec t nodes current parentId hcur1 hcur2 hpr.1 hpr.2 hpc
  set S2 := (upIter t nodes current parentId).1 with hS2
  set g := (iGetNode nodes parentId).parentId with hg
  have hgr : g = NullId ∨ (1 ≤ g ∧ g < (nodes.length : ℤ)) := hR parentId hpr.1 hpr.2
  have hpar2_cur : iparF S2 current = g := hcpar
  have hpar2_other : ∀ j : ℤ, j.toNat ≠ current.toNat → j.toNat ≠ parentId.toNat →
      iparF S2 j = iparF nodes j := by
    intro j h1 h2
    show (iGetNode S2 j).parentId = _
    rw [hother j h1 h2]
    rfl
  have hpar2_p : iparF S2 parentId = current ∨ iparF S2 parentId = iparF nodes parentId := by
    rcases hcases with ⟨h1, _⟩ | ⟨h1, _, _⟩
    · left
      show (iGetNode S2 parentId).parentId = current
      rw [h1]
    · right
      show (iGetNode S2 parentId).parentId = _
      rw [h1]
      rfl
  have htp : GTerm (iparF nodes) parentId := hT parentId hpr.1 hpr.2
  have hcne : current ≠ NullId := by
    intro hcc
    rw [hcc] at hcur1
    norm_num [NullId] at hcur1
  have hd_cur_p : gdist (iparF nodes) current htc = gdist (iparF nodes) parentId htp + 1 :=
    gdist_parent_eq (iparF nodes) current parentId htc htp hcne hlink.symm
  have hd_p_g : ∀ hgt : GTerm (iparF nodes) g,
      gdist (iparF nodes) parentId htp = gdist (iparF nodes) g hgt + 1 := by
    intro hgt
    exact gdist_parent_eq (iparF nodes) parentId g htp hgt (by omega) rfl
  -- termination in the new state, by strong induction on old distance
  have main : ∀ n : ℕ, ∀ j : ℤ, 1 ≤ j → j < (nodes.length : ℤ) →
      ∀ hj : GTerm (iparF nodes) j, gdist (iparF nodes) j hj = n → GTerm (iparF S2) j := by
    intro n
    induction n using Nat.strong_induction_on with
    | _ n ih =>
      intro j hj1 hj2 hj hjd
      by_cases hjc : j = current
      · have hdj : gdist (iparF nodes) j hj = gdist (iparF nodes) current htc :=
          gdist_eq_of_eq (iparF nodes) j current hjc hj
        rcases hgr with hgnull | hgrange
        · exact gterm_step_eq _ j g (by rw [hgnull]; exact gterm_null _)
            (by rw [hjc]; exact hpar2_cur)
        · have hgt := hT g hgrange.1 hgrange.2
          have hd2 := hd_p_g hgt
          have hih : GTerm (iparF S2) g :=
            ih (gdist (iparF nodes) g hgt) (by omega) g hgrange.1 hgrange.2 hgt rfl
          exact gterm_step_eq _ j g hih (by rw [hjc]; exact hpar2_cur)
      · by_cases hjp : j = parentId
        · have hdjp : gdist (iparF nodes) j hj = gdist (iparF nodes) parentId htp :=
            gdist_eq_of_eq (iparF nodes) j parentId hjp hj
          rcases hpar2_p with hL | hRr
          · have hc2 : GTerm (iparF S2) current := by
              rcases hgr with hgnull | hgrange
              · exact gterm_step_eq _ current g (by rw [hgnull]; exact gterm_null _) hpar2_cur
              · have hgt := hT g hgrange.1 hgrange.2
                have hd2 := hd_p_g hgt
                have hih : GTerm (iparF S2) g :=
                  ih (gdist (iparF nodes) g hgt) (by omega) g hgrange.1 hgrange.2 hgt rfl
                exact gterm_step_eq _ current g hih hpar2_cur
            exact gterm_step_eq _ j current hc2 (by rw [hjp]; exact hL)
          · rcases hgr with hgnull | hgrange
            · refine gterm_step_eq _ j NullId (gterm_null _) ?_
              rw [hjp, hRr]
              exact hgnull
            · have hgt := hT g hgrange.1 hgrange.2
              have hd2 := hd_p_g hgt
              have hih : GTerm (iparF S2) g :=
                ih (gdist (iparF nodes) g hgt) (by omega) g hgrange.1 hgrange.2 hgt rfl
              refine gterm_step_eq _ j g hih ?_
              rw [hjp, hRr]
              exact hg.symm
        · have hpj : iparF S2 j = iparF nodes j :=
            hpar2_other j (by omega) (by omega)
          rcases hR j hj1 hj2 with hq | hq
          · exact gterm_step_eq _ j NullId (gterm_null _) (by rw [hpj]; exact hq)
          · have hqt : GTerm (iparF nodes) (iparF nodes j) := hT _ hq.1 hq.2
            have hd3 := gdist_parent_eq (iparF nodes) j _ hj hqt
              (by intro hcc; rw [hcc] at hj1; norm_num [NullId] at hj1) rfl
            have hih : GTerm (iparF S2) (iparF nodes j) :=
              ih (gdist (iparF nodes) _ hqt) (by omega) _ hq.1 hq.2 hqt rfl
            exact gterm_step_eq _ j _ hih (by rw [hpj])
  have htermAll2 : ∀ j : ℤ, 1 ≤ j → j < (nodes.length : ℤ) → GTerm (iparF S2) j := by
    intro j h1 h2
    exact main (gdist (iparF nodes) j (hT j h1 h2)) j h1 h2 (hT j h1 h2) rfl
  -- distance strictly decreases at `current`
  have hdist_dec : ∀ hterm : GTerm (iparF nodes) current,
      ∃ hterm2 : GTerm (iparF S2) current,
        gdist (iparF S2) current hterm2 < gdist (iparF nodes) current hterm := by
    intro hterm
    have ht2 : GTerm (iparF S2) current := htermAll2 current hcur1 hcur2
    refine ⟨ht2, ?_⟩
    have hdeq : gdist (iparF nodes) current hterm = gdist (iparF nodes) current htc := rfl
    rcases hgr with hgnull | hgrange
    · have hdp2 : 1 ≤ gdist (iparF nodes) parentId htp := gdist_pos _ _ _ hpn
      have hnew : gdist (iparF S2) current ht2 = 1 := by
        have h7 := gdist_parent_eq (iparF S2) current NullId ht2 (gterm_null _) hcne
          (by rw [hpar2_cur, hgnull])
        rw [gdist_nullv] at h7
        omega
      omega
    · have hgt : GTerm (iparF nodes) g := hT g hgrange.1 hgrange.2
      have hd2 := hd_p_g hgt
      set dg := gdist (iparF nodes) g hgt with hdg
      have hchain : ∀ k : ℕ, k ≤ dg → gIter (iparF S2) k g = gIter (iparF nodes) k g := by
        intro k
        induction k with
        | zero => intro _; rfl
        | succ m ihm =>
          intro hm
          have hmlt : m < dg := by omega
          have hxne : gIter (iparF nodes) m g ≠ NullId := gdist_min _ _ _ m hmlt
          have hxmem := gchain_mem (iparF nodes) nodes.length hR g hgrange.1 hgrange.2 hgt m hmlt
          obtain ⟨hxt, hxk, hxd⟩ := chain_dist_le (iparF nodes) g _ hgt m rfl hxne
          have hxnc : gIter (iparF nodes) m g ≠ current := by
            intro hcc
            have h5 := gdist_eq_of_eq (iparF nodes) _ _ hcc hxt
            have h6 : gdist (iparF nodes) current (hcc ▸ hxt)
                = gdist (iparF nodes) current htc := rfl
            omega
          have hxnp : gIter (iparF nodes) m g ≠ parentId := by
            intro hcc
            have h5 := gdist_eq_of_eq (iparF nodes) _ _ hcc hxt
            have h6 : gdist (iparF nodes) parentId (hcc ▸ hxt)
                = gdist (iparF nodes) parentId htp := rfl
            omega
          have hstep2 : gIter (iparF S2) (m + 1) g
              = iparF S2 (gIter (iparF S2) m g) := by
            rw [gIter_add _ m 1 g, gIter_one]
            rw [ihm (by omega)]
            exact hxne
          have hstep1 : gIter (iparF nodes) (m + 1) g
              = iparF nodes (gIter (iparF nodes) m g) := by
            rw [gIter_add _ m 1 g, gIter_one _ _ hxne]
          rw [hstep2, hstep1, ihm (by omega)]
          exact hpar2_other _ (by omega) (by omega)
      have hnullhit : gIter (iparF S2) dg g = NullId := by
        rw [hchain dg (le_refl _)]
        exact gdist_spec _ _ _
      have hgt2 : GTerm (iparF S2) g := ⟨dg, hnullhit⟩
      have hgd2 : gdist (iparF S2) g hgt2 ≤ dg := Nat.find_le hnullhit
      have hnew := gdist_parent_eq (iparF S2) current g ht2 hgt2 hcne hpar2_cur
      omega
  refine ⟨hlen, ⟨?_, ?_, ?_⟩, ?_, ?_, hdist_dec⟩
  · -- GRange
    intro j hj1 hj2
    rw [hlen] at hj2
    by_cases hjc : j = current
    · rw [hlen, hjc, hpar2_cur]
      exact hgr
    · by_cases hjp : j = parentId
      · rw [hlen, hjp]
        rcases hpar2_p with hL | hRr
        · rw [hL]
          right
          exact ⟨hcur1, hcur2⟩
        · rw [hRr]
          exact hR parentId hpr.1 hpr.2
      · rw [hlen, hpar2_other j (by omega) (by omega)]
        exact hR j hj1 hj2
  · -- termination
    intro j hj1 hj2
    rw [hlen] at hj2
    exact htermAll2 j hj1 hj2
  · -- saddle validity
    intro j hj1 hj2 hjpar
    rw [hlen] at hj2
    by_cases hjc : j = current
    · rw [hjc] at hjpar ⊢
      rw [hpar2_cur] at hjpar
      rcases hcases with ⟨h1, h2⟩ | ⟨h1, h2, h3⟩
      · rw [h2]
        exact hS parentId hpr.1 hpr.2 hjpar
      · rw [h2]
        exact hS current hcur1 hcur2 (by rw [← hlink]; exact hpn)
    · by_cases hjp : j = parentId
      · rw [hjp] at hjpar ⊢
        rcases hcases with ⟨h1, h2⟩ | ⟨h1, h2, h3⟩
        · rw [h1]
          exact hS current hcur1 hcur2 (by rw [← hlink]; exact hpn)
        · rw [h1]
          exact hS parentId hpr.1 hpr.2 h3
      · rw [hother j (by omega) (by omega)]
        have hjpar2 : iparF nodes j ≠ NullId := by
          rwa [hpar2_other j (by omega) (by omega)] at hjpar
        exact hS j hj1 hj2 hjpar2
  · -- the second component is the new parent of current
    rw [h2v, hpar2_cur]
  · -- goodness is preserved away from current
    intro j hjc hgood
    by_cases hjp : j = parentId
    · rcases hpar2_p with hL | hRr
      · right
        rw [hjp, hL]
        rcases peakHigher_total t current parentId (fun h => hpc h.symm) with h | h
        · exact absurd h hnh
        · exact h
      · unfold IGood at hgood ⊢
        rw [hjp] at hgood ⊢
        rw [hRr]
        exact hgood
    · by_cases hj0 : 1 ≤ j
      · have h1 : j.toNat ≠ current.toNat := by omega
        have h2 : j.toNat ≠ parentId.toNat := by omega
        unfold IGood at hgood ⊢
        rw [hpar2_other j h1 h2]
        exact hgood
      · have h1 : j.toNat ≠ current.toNat := by omega
        have h2 : j.toNat ≠ parentId.toNat := by omega
        unfold IGood at hgood ⊢
        rw [hpar2_other j h1 h2]
        exact hgood

lemma upInner_spec (t : DivideTree) (current : ℤ) :
    ∀ (fuel : ℕ) (nodes : List INode) (parentId : ℤ),
    IState t nodes →
    1 ≤ current → current < (nodes.length : ℤ) →
    parentId = iparF nodes current →
    (∀ hterm : GTerm (iparF nodes) current, gdist (iparF nodes) current hterm < fuel) →
    (upInner t current fuel nodes parentId).1.length = nodes.length
    ∧ IState t (upInner t current fuel nodes parentId).1
    ∧ (upInner t current fuel nodes parentId).2
        = iparF (upInner t current fuel nodes parentId).1 current
    ∧ (∀ j : ℤ, j ≠ current → IGood t nodes j →
        IGood t (upInner t current fuel nodes parentId).1 j)
    ∧ IGood t (upInner t current fuel nodes parentId).1 current := by
  intro fuel
  induction fuel with
  | zero =>
    intro nodes parentId hst h1 h2 _ hfb
    obtain ⟨hR, hT, hS⟩ := hst
    have htc := hT current h1 h2
    have := hfb htc
    omega
  | succ f ih =>
    intro nodes parentId hst h1 h2 hlink hfb
    by_cases hp0 : parentId = NullId
    · simp only [upInner, if_pos hp0]
      refine ⟨trivial, hst, hlink, fun j _ hg => hg, Or.inl ?_⟩
      rw [← hlink]
      exact hp0
    · by_cases hh : point2IsHigher (getPeak t current).elevation current
          (getPeak t parentId).elevation parentId
      · simp only [upInner, if_neg hp0, if_pos hh]
        refine ⟨trivial, hst, hlink, fun j _ hg => hg, Or.inr ?_⟩
        show peakHigher t current (iparF nodes current)
        rw [← hlink]
        exact hh
      · simp only [upInner, if_neg hp0, if_neg hh]
        obtain ⟨hlen2, hst2, hlink2, hgood2, hdec⟩ :=
          upIter_inv t nodes current parentId hst h1 h2 hlink hp0 hh
        set S2 := (upIter t nodes current parentId).1 with hS2
        have h2b : current < (S2.length : ℤ) := by rw [hlen2]; exact h2
        have hfb2 : ∀ hterm : GTerm (iparF S2) current,
            gdist (iparF S2) current hterm < f := by
          intro hterm
          obtain ⟨hR, hT, _⟩ := hst
          have htc := hT current h1 h2
          obtain ⟨ht2, hlt⟩ := hdec htc
          have heq : gdist (iparF S2) current hterm = gdist (iparF S2) current ht2 := rfl
          have hb := hfb htc
          omega
        obtain ⟨hlen3, hst3, hlink3, hgood3, hcur3⟩ :=
          ih S2 (upIter t nodes current parentId).2 hst2 h1 h2b hlink2 hfb2
        refine ⟨by rw [hlen3, hlen2], hst3, hlink3, ?_, hcur3⟩
        intro j hj hg
        exact hgood3 j hj (hgood2 j hj hg)

lemma upChain_spec (t : DivideTree) :
    ∀ (fuel : ℕ) (nodes : List INode) (currentId : ℤ),
    IState t nodes → 1 ≤ currentId → currentId < (nodes.length : ℤ) →
    (upChain t fuel nodes currentId).length = nodes.length
    ∧ IState t (upChain t fuel nodes currentId)
    ∧ (∀ j : ℤ, IGood t nodes j → IGood t (upChain t fuel nodes currentId) j)
    ∧ (1 ≤ fuel → IGood t (upChain t fuel nodes currentId) currentId) := by
  intro fuel
  induction fuel with
  | zero =>
    intro nodes currentId hst _ _
    exact ⟨rfl, hst, fun _ hg => hg, fun hf => absurd hf (by norm_num)⟩
  | succ f ih =>
    intro nodes currentId hst h1 h2
    have hfb : ∀ hterm : GTerm (iparF nodes) currentId,
        gdist (iparF nodes) currentId hterm < nodes.length + 1 := by
      intro hterm
      have := gdist_le_range (iparF nodes) nodes.length hst.1 currentId h1 h2 hterm
      omega
    obtain ⟨hlen2, hst2, hlink2, hgood2, hcur2⟩ :=
      upInner_spec t currentId (nodes.length + 1) nodes
        (iGetNode nodes currentId).parentId hst h1 h2 rfl hfb
    set r := upInner t currentId (nodes.length + 1) nodes
      (iGetNode nodes currentId).parentId with hr
    have hstep : upChain t (f + 1) nodes currentId
        = if r.2 ≠ NullId then upChain t f r.1 r.2 else r.1 := rfl
    by_cases hnn : r.2 ≠ NullId
    · rw [hstep, if_pos hnn]
      have h1b : 1 ≤ r.2 ∧ r.2 < (r.1.length : ℤ) := by
        have hg := hst2.1 currentId h1 (by rw [hlen2]; exact h2)
        rw [← hlink2] at hg
        rcases hg with h | h
        · exact absurd h hnn
        · exact h
      obtain ⟨hlen3, hst3, hgood3, _⟩ := ih r.1 r.2 hst2 h1b.1 h1b.2
      refine ⟨by rw [hlen3, hlen2], hst3, ?_, fun _ => hgood3 currentId hcur2⟩
      intro j hg
      by_cases hjc : j = currentId
      · rw [hjc]
        exact hgood3 currentId hcur2
      · exact hgood3 j (hgood2 j hjc hg)
    · rw [hstep, if_neg hnn]
      refine ⟨hlen2, hst2, ?_, fun _ => hcur2⟩
      intro j hg
      by_cases hjc : j = currentId
      · rw [hjc]
        exact hcur2
      · exact hgood2 j hjc hg

lemma upFold_spec (t : DivideTree) :
    ∀ (l : List ℕ) (ns : List INode),
    IState t ns →
    (∀ i ∈ l, 1 ≤ (i : ℤ) ∧ (i : ℤ) < (ns.length : ℤ)) →
    (l.foldl (fun ns i => upChain t (ns.length + 1) ns (i : ℤ)) ns).length = ns.length
    ∧ IState t (l.foldl (fun ns i => upChain t (ns.length + 1) ns (i : ℤ)) ns)
    ∧ (∀ j : ℤ, IGood t ns j →
        IGood t (l.foldl (fun ns i => upChain t (ns.length + 1) ns (i : ℤ)) ns) j)
    ∧ (∀ i ∈ l, IGood t (l.foldl (fun ns i => upChain t (ns.length + 1) ns (i : ℤ)) ns) (i : ℤ)) := by
  intro l
  induction l with
  | nil =>
    intro ns hst _
    exact ⟨rfl, hst, fun _ hg => hg, fun i hi => absurd hi (List.not_mem_nil i)⟩
  | cons a l ih =>
    intro ns hst hmem
    have ha := hmem a (List.mem_cons_self a l)
    obtain ⟨hlen2, hst2, hgood2, hcur2⟩ :=
      upChain_spec t (ns.length + 1) ns (a : ℤ) hst ha.1 ha.2
    set ns2 := upChain t (ns.length + 1) ns (a : ℤ) with hns2
    have hmem2 : ∀ i ∈ l, 1 ≤ (i : ℤ) ∧ (i : ℤ) < (ns2.length : ℤ) := by
      intro i hi
      have := hmem i (List.mem_cons_of_mem a hi)
      rw [hlen2]
      exact this
    obtain ⟨hlen3, hst3, hgood3, hall3⟩ := ih ns2 hst2 hmem2
    have hfold : (a :: l).foldl (fun ns i => upChain t (ns.length + 1) ns (i : ℤ)) ns
        = l.foldl (fun ns i => upChain t (ns.length + 1) ns (i : ℤ)) ns2 := rfl
    rw [hfold]
    refine ⟨by rw [hlen3, hlen2], hst3, ?_, ?_⟩
    · intro j hg
      exact hgood3 j (hgood2 j hg)
    · intro i hi
      rcases List.mem_cons.mp hi with h | h
      · rw [h]
        exact hgood3 (a : ℤ) (hcur2 (by omega))
      · exact hall3 i h

lemma uninvertPeaks_spec (t : DivideTree) (nodes0 : List INode) (hst : IState t nodes0) :
    (uninvertPeaks t nodes0).length = nodes0.length
    ∧ IState t (uninvertPeaks t nodes0)
    ∧ (∀ j : ℤ, 1 ≤ j → j < (nodes0.length : ℤ) → IGood t (uninvertPeaks t nodes0) j) := by
  have hmem : ∀ i ∈ List.range' 1 (nodes0.length - 1),
      1 ≤ (i : ℤ) ∧ (i : ℤ) < (nodes0.length : ℤ) := by
    intro i hi
    rw [List.mem_range'_1] at hi
    have h2 : (1 : ℕ) ≤ nodes0.length := by omega
    constructor
    · exact_mod_cast hi.1
    · have : i < nodes0.length := by omega
      exact_mod_cast this
  obtain ⟨hlen, hst2, _, hall⟩ := upFold_spec t (List.range' 1 (nodes0.length - 1)) nodes0 hst hmem
  refine ⟨hlen, hst2, ?_⟩
  intro j hj1 hj2
  have hjn : j.toNat ∈ List.range' 1 (nodes0.length - 1) := by
    rw [List.mem_range'_1]
    omega
  have := hall j.toNat hjn
  have hjc : ((j.toNat : ℕ) : ℤ) = j := by omega
  rwa [hjc] at this

lemma iGetNode_toNat_congr (nodes : List INode) (i j : ℤ) (h : i.toNat = j.toNat) :
    iGetNode nodes i = iGetNode nodes j := by
  unfold iGetNode
  rw [h]

lemma usgo_spec (t : DivideTree) :
    ∀ (fuel : ℕ) (nodes : List INode) (nodeId : ℤ),
    1 ≤ nodeId → nodeId < (nodes.length : ℤ) →
    GRange (iparF nodes) nodes.length →
    (∀ j : ℤ, 1 ≤ j → j < (nodes.length : ℤ) → IGood t nodes j) →
    (uninvertSaddleGo t fuel nodes nodeId).length = nodes.length
    ∧ GRange (iparF (uninvertSaddleGo t fuel nodes nodeId)) nodes.length
    ∧ (∀ j : ℤ, 1 ≤ j → j < (nodes.length : ℤ) →
        IGood t (uninvertSaddleGo t fuel nodes nodeId) j)
    ∧ (∀ j : ℤ,
        (iGetNode (uninvertSaddleGo t fuel nodes nodeId) j).saddlePeakId
          = (iGetNode nodes j).saddlePeakId
        ∧ (iGetNode (uninvertSaddleGo t fuel nodes nodeId) j).prominence
          = (iGetNode nodes j).prominence
        ∧ (iGetNode (uninvertSaddleGo t fuel nodes nodeId) j).keySaddleId
          = (iGetNode nodes j).keySaddleId)
    ∧ (∀ j : ℤ, iparF (uninvertSaddleGo t fuel nodes nodeId) j = NullId
        ↔ iparF nodes j = NullId) := by
  intro fuel
  induction fuel with
  | zero =>
    intro nodes nodeId _ _ hR hheap
    exact ⟨rfl, hR, hheap, fun _ => ⟨rfl, rfl, rfl⟩, fun _ => Iff.rfl⟩
  | succ f ih =>
    intro nodes nodeId h1 h2 hR hheap
    simp only [uninvertSaddleGo]
    split_ifs with hp hg hsad
    · exact ⟨rfl, hR, hheap, fun _ => ⟨rfl, rfl, rfl⟩, fun _ => Iff.rfl⟩
    · exact ⟨rfl, hR, hheap, fun _ => ⟨rfl, rfl, rfl⟩, fun _ => Iff.rfl⟩
    · exact ⟨rfl, hR, hheap, fun _ => ⟨rfl, rfl, rfl⟩, fun _ => Iff.rfl⟩
    · -- the rotating branch
      have hpr : 1 ≤ (iGetNode nodes nodeId).parentId
          ∧ (iGetNode nodes nodeId).parentId < (nodes.length : ℤ) := by
        rcases hR nodeId h1 h2 with h | h
        · exact absurd h hp
        · exact h
      obtain ⟨hlen2, hR2, hheap2, hfld2, hlive2⟩ :=
        ih nodes ((iGetNode nodes nodeId).parentId) hpr.1 hpr.2 hR hheap
      set R2 := uninvertSaddleGo t f nodes ((iGetNode nodes nodeId).parentId) with hR2d
      set N3 := iSetNode R2 nodeId
        ⟨(iGetNode nodes ((iGetNode nodes nodeId).parentId)).parentId,
          (iGetNode R2 nodeId).saddlePeakId, (iGetNode R2 nodeId).prominence,
          (iGetNode R2 nodeId).keySaddleId⟩ with hN3d
      have hgr : 1 ≤ (iGetNode nodes ((iGetNode nodes nodeId).parentId)).parentId
          ∧ (iGetNode nodes ((iGetNode nodes nodeId).parentId)).parentId
            < (nodes.length : ℤ) := by
        rcases hR ((iGetNode nodes nodeId).parentId) hpr.1 hpr.2 with h | h
        · exact absurd h hg
        · exact h
      have hlen3 : N3.length = nodes.length := by
        rw [hN3d, iSetNode_length, hlen2]
      have hcongr : ∀ j : ℤ, 1 ≤ j → j.toNat = nodeId.toNat → j = nodeId := by
        intro j hj hjt
        omega
      have hpar3 : ∀ j : ℤ, j.toNat = nodeId.toNat →
          iparF N3 j = (iGetNode nodes ((iGetNode nodes nodeId).parentId)).parentId := by
        intro j hjt
        show (iGetNode N3 j).parentId = _
        rw [iGetNode_toNat_congr N3 j nodeId hjt, hN3d,
          iGetNode_set_same _ _ _ (by rw [hlen2]; omega)]
      have hpar3o : ∀ j : ℤ, j.toNat ≠ nodeId.toNat → iparF N3 j = iparF R2 j := by
        intro j hjt
        show (iGetNode N3 j).parentId = _
        rw [hN3d, iGetNode_set_ne _ _ _ _ (fun hc => hjt hc.symm)]
        rfl
      have hR3 : GRange (iparF N3) nodes.length := by
        intro j hj1 hj2
        by_cases hjt : j.toNat = nodeId.toNat
        · rw [hpar3 j hjt]
          right
          exact hgr
        · rw [hpar3o j hjt]
          exact hR2 j hj1 hj2
      have hheap3 : ∀ j : ℤ, 1 ≤ j → j < (nodes.length : ℤ) → IGood t N3 j := by
        intro j hj1 hj2
        by_cases hjt : j.toNat = nodeId.toNat
        · right
          rw [hpar3 j hjt, hcongr j hj1 hjt]
          have hn1 : IGood t nodes nodeId := hheap nodeId h1 h2
          have hn2 : IGood t nodes ((iGetNode nodes nodeId).parentId) :=
            hheap _ hpr.1 hpr.2
          rcases hn1 with hnull | hhigh
          · exact absurd hnull hp
          · rcases hn2 with hnull | hhigh2
            · exact absurd hnull hg
            · exact peakHigher_trans t nodeId _ _ hhigh hhigh2
        · unfold IGood
          rw [hpar3o j hjt]
          exact hheap2 j hj1 hj2
      have hfld3 : ∀ j : ℤ,
          (iGetNode N3 j).saddlePeakId = (iGetNode nodes j).saddlePeakId
          ∧ (iGetNode N3 j).prominence = (iGetNode nodes j).prominence
          ∧ (iGetNode N3 j).keySaddleId = (iGetNode nodes j).keySaddleId := by
        intro j
        by_cases hjt : j.toNat = nodeId.toNat
        · rw [iGetNode_toNat_congr N3 j nodeId hjt,
            iGetNode_toNat_congr nodes j nodeId hjt, hN3d,
            iGetNode_set_same _ _ _ (by rw [hlen2]; omega)]
          exact ⟨(hfld2 nodeId).1, (hfld2 nodeId).2.1, (hfld2 nodeId).2.2⟩
        · rw [hN3d, iGetNode_set_ne _ _ _ _ (fun hc => hjt hc.symm)]
          exact hfld2 j
      have hlive3 : ∀ j : ℤ, iparF N3 j = NullId ↔ iparF nodes j = NullId := by
        intro j
        by_cases hjt : j.toNat = nodeId.toNat
        · rw [hpar3 j hjt]
          constructor
          · intro hc
            exact absurd hc hg
          · intro hc
            have : iparF nodes j = iparF nodes nodeId := by
              show (iGetNode nodes j).parentId = (iGetNode nodes nodeId).parentId
              rw [iGetNode_toNat_congr nodes j nodeId hjt]
            rw [this] at hc
            exact absurd hc hp
        · rw [hpar3o j hjt]
          exact hlive2 j
      obtain ⟨hlen4, hR4, hheap4, hfld4, hlive4⟩ :=
        ih N3 nodeId h1 (by rw [hlen3]; exact h2)
          (by rw [hlen3]; exact hR3) (by rw [hlen3]; exact hheap3)
      refine ⟨by rw [hlen4, hlen3], by rw [← hlen3]; exact hR4, ?_, ?_, ?_⟩
      · intro j hj1 hj2
        exact hheap4 j hj1 (by rw [hlen3]; exact hj2)
      · intro j
        obtain ⟨ha, hb, hc⟩ := hfld4 j
        obtain ⟨ha2, hb2, hc2⟩ := hfld3 j
        exact ⟨ha.trans ha2, hb.trans hb2, hc.trans hc2⟩
      · intro j
        exact (hlive4 j).trans (hlive3 j)

lemma usFold_spec (t : DivideTree) :
    ∀ (l : List ℕ) (ns : List INode),
    GRange (iparF ns) ns.length →
    (∀ j : ℤ, 1 ≤ j → j < (ns.length : ℤ) → IGood t ns j) →
    (∀ i ∈ l, 1 ≤ (i : ℤ) ∧ (i : ℤ) < (ns.length : ℤ)) →
    (l.foldl (fun ns i => uninvertSaddleGo t (ns.length + 1) ns (i : ℤ)) ns).length = ns.length
    ∧ GRange (iparF (l.foldl (fun ns i => uninvertSaddleGo t (ns.length + 1) ns (i : ℤ)) ns))
        ns.length
    ∧ (∀ j : ℤ, 1 ≤ j → j < (ns.length : ℤ) →
        IGood t (l.foldl (fun ns i => uninvertSaddleGo t (ns.length + 1) ns (i : ℤ)) ns) j)
    ∧ (∀ j : ℤ,
        (iGetNode (l.foldl (fun ns i => uninvertSaddleGo t (ns.length + 1) ns (i : ℤ)) ns)
            j).saddlePeakId = (iGetNode ns j).saddlePeakId
        ∧ (iGetNode (l.foldl (fun ns i => uninvertSaddleGo t (ns.length + 1) ns (i : ℤ)) ns)
            j).prominence = (iGetNode ns j).prominence
        ∧ (iGetNode (l.foldl (fun ns i => uninvertSaddleGo t (ns.length + 1) ns (i : ℤ)) ns)
            j).keySaddleId = (iGetNode ns j).keySaddleId)
    ∧ (∀ j : ℤ,
        iparF (l.foldl (fun ns i => uninvertSaddleGo t (ns.length + 1) ns (i : ℤ)) ns) j = NullId
          ↔ iparF ns j = NullId) := by
  intro l
  induction l with
  | nil =>
    intro ns hR hheap _
    exact ⟨rfl, hR, hheap, fun _ => ⟨rfl, rfl, rfl⟩, fun _ => Iff.rfl⟩
  | cons a l ih =>
    intro ns hR hheap hmem
    have ha := hmem a (List.mem_cons_self a l)
    obtain ⟨hlen2, hR2, hheap2, hfld2, hlive2⟩ :=
      usgo_spec t (ns.length + 1) ns (a : ℤ) ha.1 ha.2 hR hheap
    set ns2 := uninvertSaddleGo t (ns.length + 1) ns (a : ℤ) with hns2
    have hfold : (a :: l).foldl (fun ns i => uninvertSaddleGo t (ns.length + 1) ns (i : ℤ)) ns
        = l.foldl (fun ns i => uninvertSaddleGo t (ns.length + 1) ns (i : ℤ)) ns2 := rfl
    rw [hfold]
    obtain ⟨hlen3, hR3, hheap3, hfld3, hlive3⟩ :=
      ih ns2 (by rw [hlen2]; exact hR2)
        (by intro j hj1 hj2; exact hheap2 j hj1 (by rw [← hlen2]; exact hj2))
        (by intro i hi; rw [hlen2]; exact hmem i (List.mem_cons_of_mem a hi))
    refine ⟨by rw [hlen3, hlen2], by rw [← hlen2]; exact hR3, ?_, ?_, ?_⟩
    · intro j hj1 hj2
      exact hheap3 j hj1 (by rw [hlen2]; exact hj2)
    · intro j
      obtain ⟨x1, x2, x3⟩ := hfld3 j
      obtain ⟨y1, y2, y3⟩ := hfld2 j
      exact ⟨x1.trans y1, x2.trans y2, x3.trans y3⟩
    · intro j
      exact (hlive3 j).trans (hlive2 j)

lemma uninvertSaddles_spec (t : DivideTree) (nodes0 : List INode)
    (hR : GRange (iparF nodes0) nodes0.length)
    (hheap : ∀ j : ℤ, 1 ≤ j → j < (nodes0.length : ℤ) → IGood t nodes0 j) :
    (uninvertSaddles t nodes0).length = nodes0.length
    ∧ GRange (iparF (uninvertSaddles t nodes0)) nodes0.length
    ∧ (∀ j : ℤ, 1 ≤ j → j < (nodes0.length : ℤ) → IGood t (uninvertSaddles t nodes0) j)
    ∧ (∀ j : ℤ,
        (iGetNode (uninvertSaddles t nodes0) j).saddlePeakId = (iGetNode nodes0 j).saddlePeakId
        ∧ (iGetNode (uninvertSaddles t nodes0) j).prominence = (iGetNode nodes0 j).prominence
        ∧ (iGetNode (uninvertSaddles t nodes0) j).keySaddleId = (iGetNode nodes0 j).keySaddleId)
    ∧ (∀ j : ℤ, iparF (uninvertSaddles t nodes0) j = NullId ↔ iparF nodes0 j = NullId) := by
  have hmem : ∀ i ∈ List.range' 1 (nodes0.length - 1),
      1 ≤ (i : ℤ) ∧ (i : ℤ) < (nodes0.length : ℤ) := by
    intro i hi
    rw [List.mem_range'_1] at hi
    constructor
    · exact_mod_cast hi.1
    · have : i < nodes0.length := by omega
      exact_mod_cast this
  exact usFold_spec t (List.range' 1 (nodes0.length - 1)) nodes0 hR hheap hmem

lemma getSeaLevelValue_congr (t : DivideTree) (ns ns2 : List INode) (isB : Bool)
    (h : ns.length = ns2.length) :
    getSeaLevelValue t ns isB = getSeaLevelValue t ns2 isB := by
  unfold getSeaLevelValue
  have hiff : (isB = true ∧ ns ≠ []) ↔ (isB = true ∧ ns2 ≠ []) := by
    apply and_congr_right'
    constructor
    · intro hne hnil
      apply hne
      rw [← List.length_eq_zero] at hnil ⊢
      omega
    · intro hne hnil
      apply hne
      rw [← List.length_eq_zero] at hnil ⊢
      omega
  exact if_congr hiff rfl rfl

lemma cpStep_spec (t : DivideTree) (isB : Bool) (ns : List INode) (i : ℕ)
    (h1 : 1 ≤ (i : ℤ)) (h2 : (i : ℤ) < (ns.length : ℤ)) (hgood : IGood t ns (i : ℤ)) :
    (cpStep t isB ns i).length = ns.length
    ∧ (∀ j : ℤ, j.toNat ≠ i → iGetNode (cpStep t isB ns i) j = iGetNode ns j)
    ∧ (iGetNode (cpStep t isB ns i) (i : ℤ)).parentId = (iGetNode ns (i : ℤ)).parentId
    ∧ (iGetNode (cpStep t isB ns i) (i : ℤ)).saddlePeakId = (iGetNode ns (i : ℤ)).saddlePeakId
    ∧ (iparF ns (i : ℤ) = NullId →
        (iGetNode (cpStep t isB ns i) (i : ℤ)).prominence
          = (getPeak t (i : ℤ)).elevation - getSeaLevelValue t ns isB)
    ∧ (iparF ns (i : ℤ) ≠ NullId →
        (iGetNode (cpStep t isB ns i) (i : ℤ)).prominence
          = (getPeak t (i : ℤ)).elevation
            - (getSaddle t
                (getNode t.nodes (iGetNode ns (i : ℤ)).saddlePeakId).saddleId).elevation
        ∧ (iGetNode (cpStep t isB ns i) (i : ℤ)).keySaddleId
          = (getNode t.nodes (iGetNode ns (i : ℤ)).saddlePeakId).saddleId) := by
  have hiN : (i : ℤ).toNat < ns.length := by omega
  have hw : cpWalk t ns (getPeak t (i : ℤ)).elevation (i : ℤ) (ns.length + 1) (i : ℤ)
      ((iGetNode ns (i : ℤ)).parentId)
      = ((i : ℤ), (iGetNode ns (i : ℤ)).parentId) := by
    by_cases hp : (iGetNode ns (i : ℤ)).parentId = NullId
    · simp only [cpWalk]
      rw [if_pos hp]
    · have hh : point2IsHigher (getPeak t (i : ℤ)).elevation (i : ℤ)
          (getPeak t ((iGetNode ns (i : ℤ)).parentId)).elevation
          ((iGetNode ns (i : ℤ)).parentId) := by
        rcases hgood with hnull | hhigh
        · exact absurd hnull hp
        · exact hhigh
      simp only [cpWalk]
      rw [if_neg hp, if_pos hh]
  have hw1 : (cpWalk t ns (getPeak t (i : ℤ)).elevation (i : ℤ) (ns.length + 1) (i : ℤ)
      ((iGetNode ns (i : ℤ)).parentId)).1 = (i : ℤ) := by rw [hw]
  have hw2 : (cpWalk t ns (getPeak t (i : ℤ)).elevation (i : ℤ) (ns.length + 1) (i : ℤ)
      ((iGetNode ns (i : ℤ)).parentId)).2 = (iGetNode ns (i : ℤ)).parentId := by rw [hw]
  simp only [cpStep, hw1, hw2]
  by_cases hp : (iGetNode ns (i : ℤ)).parentId = NullId
  · rw [if_pos hp]
    refine ⟨iSetNode_length _ _ _, ?_, ?_, ?_, ?_, ?_⟩
    · intro j hj
      exact iGetNode_set_ne _ _ _ _ (by omega)
    · rw [iGetNode_set_same _ _ _ hiN]
    · rw [iGetNode_set_same _ _ _ hiN]
    · intro _
      rw [iGetNode_set_same _ _ _ hiN]
    · intro hc
      exact absurd hp hc
  · rw [if_neg hp]
    refine ⟨iSetNode_length _ _ _, ?_, ?_, ?_, ?_, ?_⟩
    · intro j hj
      exact iGetNode_set_ne _ _ _ _ (by omega)
    · rw [iGetNode_set_same _ _ _ hiN]
    · rw [iGetNode_set_same _ _ _ hiN]
    · intro hc
      exact absurd hc hp
    · intro _
      rw [iGetNode_set_same _ _ _ hiN]
      exact ⟨rfl, rfl⟩

lemma cpFold_spec (t : DivideTree) (isB : Bool) (B : List INode)
    (hheap : ∀ j : ℤ, 1 ≤ j → j < (B.length : ℤ) → IGood t B j) :
    ∀ (l : List ℕ) (ns : List INode),
    ns.length = B.length →
    (∀ j : ℤ, (iGetNode ns j).parentId = (iGetNode B j).parentId
      ∧ (iGetNode ns j).saddlePeakId = (iGetNode B j).saddlePeakId) →
    (∀ i ∈ l, 1 ≤ (i : ℤ) ∧ (i : ℤ) < (B.length : ℤ)) →
    l.Nodup →
    (l.foldl (cpStep t isB) ns).length = B.length
    ∧ (∀ j : ℤ, (iGetNode (l.foldl (cpStep t isB) ns) j).parentId = (iGetNode B j).parentId
        ∧ (iGetNode (l.foldl (cpStep t isB) ns) j).saddlePeakId
          = (iGetNode B j).saddlePeakId)
    ∧ (∀ j : ℤ, (∀ i ∈ l, j.toNat ≠ i) →
        iGetNode (l.foldl (cpStep t isB) ns) j = iGetNode ns j)
    ∧ (∀ i ∈ l,
        (iparF B (i : ℤ) = NullId →
          (iGetNode (l.foldl (cpStep t isB) ns) (i : ℤ)).prominence
            = (getPeak t (i : ℤ)).elevation - getSeaLevelValue t B isB)
        ∧ (iparF B (i : ℤ) ≠ NullId →
          (iGetNode (l.foldl (cpStep t isB) ns) (i : ℤ)).prominence
            = (getPeak t (i : ℤ)).elevation
              - (getSaddle t
                  (getNode t.nodes (iGetNode B (i : ℤ)).saddlePeakId).saddleId).elevation
          ∧ (iGetNode (l.foldl (cpStep t isB) ns) (i : ℤ)).keySaddleId
            = (getNode t.nodes (iGetNode B (i : ℤ)).saddlePeakId).saddleId)) := by
  intro l
  induction l with
  | nil =>
    intro ns hlen hpres _ _
    exact ⟨hlen, hpres, fun _ _ => rfl, fun i hi => absurd hi (List.not_mem_nil i)⟩
  | cons a l ih =>
    intro ns hlen hpres hmem hnodup
    obtain ⟨hanotin, hnodup2⟩ := List.nodup_cons.mp hnodup
    have ha := hmem a (List.mem_cons_self a l)
    have hgooda : IGood t ns (a : ℤ) := by
      have hb := hheap (a : ℤ) ha.1 ha.2
      unfold IGood at hb ⊢
      show (iGetNode ns (a : ℤ)).parentId = NullId
        ∨ peakHigher t (a : ℤ) (iGetNode ns (a : ℤ)).parentId
      rw [(hpres (a : ℤ)).1]
      exact hb
    obtain ⟨slen, sother, spar, ssad, sroot, slive⟩ :=
      cpStep_spec t isB ns a ha.1 (by rw [hlen]; exact ha.2) hgooda
    set ns2 := cpStep t isB ns a with hns2
    have hfold : (a :: l).foldl (cpStep t isB) ns = l.foldl (cpStep t isB) ns2 := rfl
    rw [hfold]
    have hlen2 : ns2.length = B.length := by rw [slen, hlen]
    have hat : ((a : ℤ)).toNat = a := by omega
    have hpres2 : ∀ j : ℤ, (iGetNode ns2 j).parentId = (iGetNode B j).parentId
        ∧ (iGetNode ns2 j).saddlePeakId = (iGetNode B j).saddlePeakId := by
      intro j
      by_cases hjt : j.toNat = a
      · have hja : j.toNat = ((a : ℤ)).toNat := by omega
        rw [iGetNode_toNat_congr ns2 j (a : ℤ) hja, iGetNode_toNat_congr B j (a : ℤ) hja]
        exact ⟨spar.trans (hpres (a : ℤ)).1, ssad.trans (hpres (a : ℤ)).2⟩
      · rw [sother j hjt]
        exact hpres j
    obtain ⟨flen, fpres, funtouched, fdone⟩ := ih ns2 hlen2 hpres2
      (fun i hi => hmem i (List.mem_cons_of_mem a hi)) hnodup2
    refine ⟨flen, fpres, ?_, ?_⟩
    · intro j hj
      rw [funtouched j (fun i hi => hj i (List.mem_cons_of_mem a hi)),
        sother j (hj a (List.mem_cons_self a l))]
    · intro i hi
      rcases List.mem_cons.mp hi with hia | hil
      · have hup : iGetNode (l.foldl (cpStep t isB) ns2) (i : ℤ) = iGetNode ns2 (i : ℤ) := by
          apply funtouched
          intro i2 hi2
          rw [hia, hat]
          intro hc
          rw [hc] at hanotin
          exact hanotin hi2
        have hlivepar : iparF ns (i : ℤ) = (iGetNode B (i : ℤ)).parentId := by
          show (iGetNode ns (i : ℤ)).parentId = _
          exact (hpres (i : ℤ)).1
        constructor
        · intro hnull
          rw [hup, hia]
          rw [hia] at hlivepar
          rw [hia] at hnull
          have := sroot (by rw [hlivepar]; exact hnull)
          rw [this, getSeaLevelValue_congr t ns B isB hlen]
        · intro hnn
          rw [hup, hia]
          rw [hia] at hlivepar
          rw [hia] at hnn
          have := slive (by rw [hlivepar]; exact hnn)
          rw [this.1, this.2, (hpres (a : ℤ)).2]
          exact ⟨rfl, rfl⟩
      · exact fdone i hil

lemma iInit_length (t : DivideTree) : (iInit t).length = t.nodes.length := by
  simp [iInit]

lemma iInit_get (t : DivideTree) (j : ℤ) (h1 : 1 ≤ j) (h2 : j < (t.nodes.length : ℤ)) :
    iGetNode (iInit t) j
      = ⟨(getNode t.nodes j).parentId, j, UnknownProminence, NullId⟩ := by
  have hjt : j.toNat < t.nodes.length := by omega
  unfold iGetNode iInit
  rw [List.getD_eq_getElem?_getD, List.getElem?_map, List.getElem?_range hjt]
  simp only [Option.map_some', Option.getD_some]
  rw [if_neg (by omega : ¬ j.toNat = 0)]
  have hc : ((j.toNat : ℕ) : ℤ) = j := by omega
  rw [hc]

lemma iInit_iter_eq (t : DivideTree) (hPR : ParentsInRange t.nodes) :
    ∀ (k : ℕ) (i : ℤ), (i = NullId ∨ (1 ≤ i ∧ i < (t.nodes.length : ℤ))) →
    gIter (iparF (iInit t)) k i = iterParent t.nodes k i := by
  intro k
  induction k with
  | zero => intro i _; rfl
  | succ n ih =>
    intro i hi
    rcases hi with hnull | hrange
    · rw [hnull, gIter_null]
      show NullId = (if (NullId : ℤ) = NullId then NullId
        else iterParent t.nodes n (getNode t.nodes NullId).parentId)
      rw [if_pos rfl]
    · have hne : i ≠ NullId := by
        intro h
        rw [h] at hrange
        have := hrange.1
        norm_num [NullId] at this
      show (if i = NullId then NullId else gIter (iparF (iInit t)) n (iparF (iInit t) i))
          = (if i = NullId then NullId else iterParent t.nodes n (getNode t.nodes i).parentId)
      rw [if_neg hne, if_neg hne]
      have hpar : iparF (iInit t) i = (getNode t.nodes i).parentId := by
        show (iGetNode (iInit t) i).parentId = _
        rw [iInit_get t i hrange.1 hrange.2]
      rw [hpar]
      exact ih _ (hPR i)

lemma iInit_state (t : DivideTree) (hF : Forest t.nodes) (hPR : ParentsInRange t.nodes)
    (hSV : SaddlesValid t) : IState t (iInit t) := by
  refine ⟨?_, ?_, ?_⟩
  · intro j hj1 hj2
    rw [iInit_length] at hj2
    have hpar : iparF (iInit t) j = (getNode t.nodes j).parentId := by
      show (iGetNode (iInit t) j).parentId = _
      rw [iInit_get t j hj1 hj2]
    rw [iInit_length, hpar]
    exact hPR j
  · intro j hj1 hj2
    rw [iInit_length] at hj2
    obtain ⟨k, hk⟩ := hF j
    exact ⟨k, by rw [iInit_iter_eq t hPR k j (Or.inr ⟨hj1, hj2⟩)]; exact hk⟩
  · intro j hj1 hj2 hlive
    rw [iInit_length] at hj2
    have hpar : iparF (iInit t) j = (getNode t.nodes j).parentId := by
      show (iGetNode (iInit t) j).parentId = _
      rw [iInit_get t j hj1 hj2]
    rw [hpar] at hlive
    have h3 := hSV j hlive
    rw [iInit_get t j hj1 hj2]
    exact h3

lemma minFold_spec :
    ∀ (l : List Saddle) (acc : Elevation),
    (l.foldl (fun e s => min e s.elevation) acc ≤ acc
      ∧ ∀ s ∈ l, l.foldl (fun e s => min e s.elevation) acc ≤ s.elevation)
    ∧ (l.foldl (fun e s => min e s.elevation) acc = acc
      ∨ ∃ s ∈ l, l.foldl (fun e s => min e s.elevation) acc = s.elevation) := by
  intro l
  induction l with
  | nil =>
    intro acc
    exact ⟨⟨le_refl _, fun s hs => absurd hs (List.not_mem_nil s)⟩, Or.inl rfl⟩
  | cons a l ih =>
    intro acc
    obtain ⟨⟨hle, hall⟩, hcase⟩ := ih (min acc a.elevation)
    have hfold : (a :: l).foldl (fun e s => min e s.elevation) acc
        = l.foldl (fun e s => min e s.elevation) (min acc a.elevation) := rfl
    rw [hfold]
    refine ⟨⟨le_trans hle (min_le_left _ _), ?_⟩, ?_⟩
    · intro s hs
      rcases List.mem_cons.mp hs with h | h
      · rw [h]
        exact le_trans hle (min_le_right _ _)
      · exact hall s h
    · rcases hcase with h | ⟨s, hs, he⟩
      · rcases min_cases acc a.elevation with ⟨hm, _⟩ | ⟨hm, _⟩
        · exact Or.inl (by rw [h, hm])
        · exact Or.inr ⟨a, List.mem_cons_self a l, by rw [h, hm]⟩
      · exact Or.inr ⟨s, List.mem_cons_of_mem a hs, he⟩

lemma computeProminences_spec (t : DivideTree) (isB : Bool) (B : List INode)
    (hheap : ∀ j : ℤ, 1 ≤ j → j < (B.length : ℤ) → IGood t B j) (i : ℤ)
    (h1 : 1 ≤ i) (h2 : i < (B.length : ℤ)) :
    (computeProminences t isB B).length = B.length
    ∧ (iGetNode (computeProminences t isB B) i).parentId = (iGetNode B i).parentId
    ∧ (iGetNode (computeProminences t isB B) i).saddlePeakId = (iGetNode B i).saddlePeakId
    ∧ (iparF B i = NullId →
        (iGetNode (computeProminences t isB B) i).prominence
          = (getPeak t i).elevation - getSeaLevelValue t B isB)
    ∧ (iparF B i ≠ NullId →
        (iGetNode (computeProminences t isB B) i).prominence
          = (getPeak t i).elevation
            - (getSaddle t (getNode t.nodes (iGetNode B i).saddlePeakId).saddleId).elevation
        ∧ (iGetNode (computeProminences t isB B) i).keySaddleId
          = (getNode t.nodes (iGetNode B i).saddlePeakId).saddleId) := by
  have hmem : ∀ x ∈ List.range' 1 (B.length - 1), 1 ≤ (x : ℤ) ∧ (x : ℤ) < (B.length : ℤ) := by
    intro x hx
    rw [List.mem_range'_1] at hx
    constructor
    · exact_mod_cast hx.1
    · have : x < B.length := by omega
      exact_mod_cast this
  have hnodup : (List.range' 1 (B.length - 1)).Nodup :=
    List.nodup_range' 1 (B.length - 1) 1 (by norm_num)
  obtain ⟨flen, fpres, _, fdone⟩ :=
    cpFold_spec t isB B hheap (List.range' 1 (B.length - 1)) B rfl
      (fun _ => ⟨rfl, rfl⟩) hmem hnodup
  have hcp : computeProminences t isB B
      = (List.range' 1 (B.length - 1)).foldl (cpStep t isB) B := rfl
  rw [hcp]
  have him : i.toNat ∈ List.range' 1 (B.length - 1) := by
    rw [List.mem_range'_1]
    omega
  have hcast : ((i.toNat : ℕ) : ℤ) = i := by omega
  have hd := fdone i.toNat him
  rw [hcast] at hd
  exact ⟨flen, (fpres i).1, (fpres i).2, hd.1, hd.2⟩

set_option maxHeartbeats 2000000 in
/-- Claim C1: after `IslandTree::build` on a fixed divide tree, every peak
that is not the root of its island tree has a parent that is a strictly
higher peak (elevation order with ties broken by peak id), a set key saddle
id, and prominence equal to its elevation minus the elevation of its
recorded key saddle; a root peak's prominence is its elevation minus sea
level, where sea level is 0 for normal terrain and the minimum saddle
elevation for bathymetry. -/
theorem islandTree_build_spec (t : DivideTree) (isBathymetry : Bool)
    (hF : Forest t.nodes) (hPR : ParentsInRange t.nodes) (hSV : SaddlesValid t)
    (i : ℤ) (h1 : 1 ≤ i) (h2 : i < (t.nodes.length : ℤ)) :
    ((iGetNode (iBuild t isBathymetry) i).parentId ≠ NullId →
      (1 ≤ (iGetNode (iBuild t isBathymetry) i).parentId
        ∧ (iGetNode (iBuild t isBathymetry) i).parentId < (t.nodes.length : ℤ))
      ∧ peakHigher t i ((iGetNode (iBuild t isBathymetry) i).parentId)
      ∧ (iGetNode (iBuild t isBathymetry) i).keySaddleId ≠ NullId
      ∧ (iGetNode (iBuild t isBathymetry) i).prominence
          = (getPeak t i).elevation
            - (getSaddle t (iGetNode (iBuild t isBathymetry) i).keySaddleId).elevation)
    ∧ ((iGetNode (iBuild t isBathymetry) i).parentId = NullId →
      (isBathymetry = false →
        (iGetNode (iBuild t isBathymetry) i).prominence = (getPeak t i).elevation)
      ∧ (isBathymetry = true → t.saddles ≠ [] →
          (∀ s ∈ t.saddles, s.elevation ≤ ELEVATION_MAX) →
          ∃ m : Elevation,
            (iGetNode (iBuild t isBathymetry) i).prominence = (getPeak t i).elevation - m
            ∧ (∀ s ∈ t.saddles, m ≤ s.elevation)
            ∧ ∃ s ∈ t.saddles, m = s.elevation)) := by
  have hst0 := iInit_state t hF hPR hSV
  have hlen0 : (iInit t).length = t.nodes.length := iInit_length t
  obtain ⟨hlenP, hstP, hheapP⟩ := uninvertPeaks_spec t (iInit t) hst0
  set P := uninvertPeaks t (iInit t) with hPd
  have hlenP2 : P.length = t.nodes.length := by rw [hlenP, hlen0]
  have hheapP2 : ∀ j : ℤ, 1 ≤ j → j < (P.length : ℤ) → IGood t P j := by
    intro j hj1 hj2
    exact hheapP j hj1 (by rw [← hlenP]; exact hj2)
  obtain ⟨hlenU, hRU, hheapU, hfldU, hliveU⟩ :=
    uninvertSaddles_spec t P hstP.1 hheapP2
  set U := uninvertSaddles t P with hUd
  have hlenU2 : U.length = t.nodes.length := by rw [hlenU, hlenP2]
  have hheapU2 : ∀ j : ℤ, 1 ≤ j → j < (U.length : ℤ) → IGood t U j := by
    intro j hj1 hj2
    exact hheapU j hj1 (by rw [← hlenU]; exact hj2)
  have h2U : i < (U.length : ℤ) := by rw [hlenU2]; exact h2
  obtain ⟨flen, fpar, fsad, froot, flive⟩ :=
    computeProminences_spec t isBathymetry U hheapU2 i h1 h2U
  have hbuild : iBuild t isBathymetry = computeProminences t isBathymetry U := rfl
  rw [hbuild]
  constructor
  · intro hlivep
    rw [fpar] at hlivep
    have hliveUi : iparF U i ≠ NullId := hlivep
    obtain ⟨hprom, hkey⟩ := flive hliveUi
    have hlivePi : iparF P i ≠ NullId := fun hc => hliveUi ((hliveU i).mpr hc)
    have hsid := hstP.2.2 i h1 (by rw [hlenP2]; exact h2) hlivePi
    rw [← (hfldU i).1] at hsid
    refine ⟨?_, ?_, ?_, ?_⟩
    · rw [fpar]
      have hg := hRU i h1 (by rw [hlenP2]; exact h2)
      rcases hg with hc | hc
      · exact absurd hc hliveUi
      · rw [hlenP2] at hc
        exact hc
    · rw [fpar]
      have hgd := hheapU2 i h1 h2U
      rcases hgd with hc | hc
      · exact absurd hc hliveUi
      · exact hc
    · rw [hkey]
      intro hc
      rw [hc] at hsid
      have := hsid.1
      norm_num [NullId] at this
    · rw [hprom, hkey]
  · intro hnullp
    rw [fpar] at hnullp
    have hprom := froot hnullp
    constructor
    · intro hb
      subst hb
      have hsea : getSeaLevelValue t U false = 0 := by
        unfold getSeaLevelValue
        rw [if_neg]
        rintro ⟨hbad, _⟩
        exact Bool.false_ne_true hbad
      rw [hprom, hsea, sub_zero]
    · intro hb hsne hsmax
      subst hb
      have hUne : U ≠ [] := by
        intro hnil
        rw [← List.length_eq_zero] at hnil
        omega
      have hsea : getSeaLevelValue t U true
          = t.saddles.foldl (fun e s => min e s.elevation) ELEVATION_MAX := by
        unfold getSeaLevelValue
        rw [if_pos ⟨rfl, hUne⟩]
      obtain ⟨⟨hmacc, hmall⟩, hmcase⟩ := minFold_spec t.saddles ELEVATION_MAX
      have hpromF : (iGetNode (computeProminences t true U) i).prominence
          = (getPeak t i).elevation
            - t.saddles.foldl (fun e s => min e s.elevation) ELEVATION_MAX := by
        rw [hprom, hsea]
      refine ⟨t.saddles.foldl (fun e s => min e s.elevation) ELEVATION_MAX, ?_, ?_, ?_⟩
      · exact hpromF
      · exact hmall
      rcases hmcase with hmax | hex
      · obtain ⟨s0, hs0⟩ := List.exists_mem_of_ne_nil t.saddles hsne
        refine ⟨s0, hs0, ?_⟩
        have hle1 := hmall s0 hs0
        have hle2 := hsmax s0 hs0
        rw [hmax]
        rw [hmax] at hle1
        exact (le_antisymm hle2 hle1).symm
      · exact hex

theorem islandTree_build_spec_witness :
    (iGetNode (iBuild witnessTree false) 2).parentId ≠ NullId
    ∧ peakHigher witnessTree 2 ((iGetNode (iBuild witnessTree false) 2).parentId)
    ∧ (iGetNode (iBuild witnessTree false) 2).keySaddleId ≠ NullId
    ∧ (iGetNode (iBuild witnessTree false) 2).prominence
        = (getPeak witnessTree 2).elevation
          - (getSaddle witnessTree
              (iGetNode (iBuild witnessTree false) 2).keySaddleId).elevation := by
  have h := islandTree_build_spec witnessTree false witnessTree_forest witnessTree_range
    witnessTree_saddles 2 (by decide) (by decide)
  have hlive : (iGetNode (iBuild witnessTree false) 2).parentId ≠ NullId := by decide
  obtain ⟨hmain, _⟩ := h
  obtain ⟨_, hhigh, hkey, hprom⟩ := hmain hlive
  exact ⟨hlive, hhigh, hkey, hprom⟩

end Mountains
